import Mathlib

/-!
# Cache and page-table calculator: validation and derivation

A shallow embedding of `calculations.c` / `calculations.h`.

* `uint64_t` values are natural numbers below `2 ^ 64`; every arithmetic step
  that can wrap carries an explicit `% 2 ^ 64`.
* `int` and `long long` values are integers; the conversions that the code
  performs with a cast are written out (`to_u64`).
* `die` and `usage_and_exit` end the process, so a function that may call
  them returns `Except Failure _`.
* `double` values are IEEE-754 binary64 numbers, represented by their class
  (`nan`, `inf`, finite) and, when finite, by sign, integer significand and
  binary exponent; results of arithmetic are rounded to nearest, ties to even.
-/

namespace CacheSim

/-! ## Header constants (`calculations.h`) -/

def MAX_TRACES : Int := 3
def MIN_CACHE_KB : Int := 8
def MAX_CACHE_KB : Int := 8192
def MIN_PHYS_MB : Int := 128
def MAX_PHYS_MB : Int := 4096

/-! ## 64-bit unsigned arithmetic -/

/-- The modulus of `uint64_t` arithmetic. -/
def U64 : Nat := 2 ^ 64

/-- The cast `(uint64_t)v` of a signed integer. -/
def to_u64 (v : Int) : Nat := (v % (U64 : Int)).toNat

def u64_add (a b : Nat) : Nat := (a + b) % U64

/-- Unsigned subtraction `a - b`, wrapping below zero. -/
def u64_sub (a b : Nat) : Nat := (a + (U64 - b % U64)) % U64

def u64_mul (a b : Nat) : Nat := (a * b) % U64

/-! ## Process outcomes -/

/-- The ways in which the program stops early: `usage_and_exit`, one
constructor for each message passed to `die`, `division_by_zero` for a
division whose divisor is zero (undefined in C), and `fuel_exhausted` for a
loop of the embedding that ran out of fuel. -/
inductive Failure where
  | usage
  | bad_s_value
  | bad_b_value
  | bad_a_value
  | bad_r_value
  | bad_p_value
  | bad_u_value
  | bad_n_value
  | too_many_traces
  | cache_size_rule
  | block_size_rule
  | associativity_rule
  | phys_mem_rule
  | os_percent_rule
  | time_slice_rule
  | no_traces
  | rows_not_integer
  | rows_not_pow2
  | negative_tag_bits
  | division_by_zero
  | fuel_exhausted
  deriving DecidableEq, Repr

/-- The text printed after `Error: ` for each failure raised through `die`;
empty for the failures that do not go through `die`. -/
def Failure.message : Failure → String
  | .usage => ""
  | .bad_s_value => "Invalid -s value"
  | .bad_b_value => "Invalid -b value"
  | .bad_a_value => "Invalid -a value"
  | .bad_r_value => "Invalid -r (use RR or RND)"
  | .bad_p_value => "Invalid -p value"
  | .bad_u_value => "Invalid -u value"
  | .bad_n_value => "Invalid -n value"
  | .too_many_traces => "Too many -f traces (max 3)"
  | .cache_size_rule => "-s must be a power of two KB in [8, 8192]"
  | .block_size_rule => "-b must be 8, 16, 32, or 64 bytes"
  | .associativity_rule => "-a must be 1, 2, 4, 8, or 16"
  | .phys_mem_rule => "-p must be a power of two MB in [128, 4096]"
  | .os_percent_rule => "-u must be between 0 and 100"
  | .time_slice_rule => "-n must be -1 (All) or >= 1"
  | .no_traces => "Provide 1 to 3 trace files with -f"
  | .rows_not_integer =>
      "Cache size / block size must be divisible by associativity (integer rows)"
  | .rows_not_pow2 => "Total # Rows must be a power of two"
  | .negative_tag_bits => "Invalid configuration: negative tag bits (check sizes)."
  | .division_by_zero => ""
  | .fuel_exhausted => ""

deriving instance DecidableEq for Except

/-- Unsigned division `a / b`. -/
def u64_div (a b : Nat) : Except Failure Nat :=
  if b = 0 then .error .division_by_zero else .ok (a / b)

/-- Unsigned remainder `a % b`. -/
def u64_mod (a b : Nat) : Except Failure Nat :=
  if b = 0 then .error .division_by_zero else .ok (a % b)

/-! ## Helpers -/

/-- `x && ((x & (x - 1)) == 0)` on `uint64_t`. -/
def is_power_of_two_u64 (x : Nat) : Bool :=
  x != 0 && (x &&& u64_sub x 1) == 0

/-- The loop `while ((x >>= 1) != 0) n++;`: one unit of fuel for each
evaluation of the loop condition. -/
def ilog2_loop : Nat → Nat → Int → Option Int
  | 0, _, _ => none
  | fuel + 1, x, n =>
      if x >>> 1 != 0 then ilog2_loop fuel (x >>> 1) (n + 1) else some n

/-- `ilog2_u64`: a 64-bit value is zero after at most 64 shifts. -/
def ilog2_u64 (x : Nat) : Option Int := ilog2_loop 64 x 0

/-- A call of `ilog2_u64` inside a function that may fail. -/
def ilog2_call (x : Nat) : Except Failure Int :=
  match ilog2_u64 x with
  | some n => .ok n
  | none => .error .fuel_exhausted

/-! ## IEEE-754 binary64 -/

/-- A `double`: not-a-number, an infinity, or the finite value
`(-1) ^ neg * mant * 2 ^ exp` (a zero keeps its sign). -/
inductive Double where
  | nan
  | inf (neg : Bool)
  | fin (neg : Bool) (mant : Nat) (exp : Int)
  deriving DecidableEq, Repr

namespace Double

/-- The integer `(-1) ^ neg * mant * 2 ^ (exp - base)`, for `base ≤ exp`. -/
def scaled (neg : Bool) (mant : Nat) (exp base : Int) : Int :=
  let v : Int := (mant * 2 ^ (exp - base).toNat : Nat)
  if neg then -v else v

/-- The comparison `a < b` of C: false as soon as one side is a NaN. -/
def lt : Double → Double → Bool
  | nan, _ => false
  | _, nan => false
  | inf n1, inf n2 => n1 && !n2
  | inf n1, fin _ _ _ => n1
  | fin _ _ _, inf n2 => !n2
  | fin n1 m1 e1, fin n2 m2 e2 =>
      decide (scaled n1 m1 e1 (min e1 e2) < scaled n2 m2 e2 (min e1 e2))

/-- The comparison `a > b` of C. -/
def gt (a b : Double) : Bool := lt b a

def bit_length_aux : Nat → Nat → Nat
  | 0, _ => 0
  | fuel + 1, n => if n = 0 then 0 else bit_length_aux fuel (n / 2) + 1

/-- Number of binary digits of `n`. -/
def bit_length (n : Nat) : Nat := bit_length_aux n n

/-- Whether `2 ^ k ≤ p / r`, for `r > 0`. -/
def pow2_le (k : Int) (p r : Nat) : Bool :=
  if 0 ≤ k then decide (r * 2 ^ k.toNat ≤ p) else decide (r ≤ p * 2 ^ (-k).toNat)

/-- The integer `k` with `2 ^ k ≤ p / r < 2 ^ (k + 1)`, for `p, r > 0`. -/
def floor_log2 (p r : Nat) : Int :=
  let k : Int := (bit_length p : Int) - (bit_length r : Int)
  if pow2_le k p r then k else k - 1

/-- The integer nearest to `p / r`, a tie going to the even neighbour. -/
def round_half_even (p r : Nat) : Nat :=
  if 2 * (p % r) < r then p / r
  else if r < 2 * (p % r) then p / r + 1
  else if (p / r) % 2 = 0 then p / r
  else p / r + 1

/-- The binary64 number nearest to `(-1) ^ neg * p / r` (`r > 0`), ties to
even: 53 significant bits, least exponent `-1074`, and an infinity once the
rounded magnitude reaches `2 ^ 1024`. -/
def round (neg : Bool) (p r : Nat) : Double :=
  if p = 0 then fin neg 0 0
  else
    let e : Int := max (floor_log2 p r - 52) (-1074)
    let m : Nat :=
      if 0 ≤ e then round_half_even p (r * 2 ^ e.toNat)
      else round_half_even (p * 2 ^ (-e).toNat) r
    if 0 ≤ e ∧ 2 ^ 1024 ≤ m * 2 ^ e.toNat then inf neg else fin neg m e

/-- Whether the finite value `mant * 2 ^ exp` differs from `p / r`. -/
def inexact (mant : Nat) (exp : Int) (p r : Nat) : Bool :=
  if 0 ≤ exp then decide (mant * 2 ^ exp.toNat * r ≠ p)
  else decide (mant * r ≠ p * 2 ^ (-exp).toNat)

/-- Whether `mant * 2 ^ exp` lies below the least normal magnitude `2 ^ -1022`. -/
def tiny (mant : Nat) (exp : Int) : Bool :=
  if -1022 ≤ exp then decide (mant = 0) else decide (mant < 2 ^ (-1022 - exp).toNat)

/-- The conversion `(double)n` of a `uint64_t`. -/
def of_u64 (n : Nat) : Double := round false n 1

/-- The quotient `a / b`. -/
def div : Double → Double → Double
  | nan, _ => nan
  | _, nan => nan
  | inf _, inf _ => nan
  | inf n1, fin n2 _ _ => inf (xor n1 n2)
  | fin n1 _ _, inf n2 => fin (xor n1 n2) 0 0
  | fin n1 m1 e1, fin n2 m2 e2 =>
      if m2 = 0 then (if m1 = 0 then nan else inf (xor n1 n2))
      else if 0 ≤ e1 - e2 then round (xor n1 n2) (m1 * 2 ^ (e1 - e2).toNat) m2
      else round (xor n1 n2) m1 (m2 * 2 ^ (e2 - e1).toNat)

/-- The product `a * b`. -/
def mul : Double → Double → Double
  | nan, _ => nan
  | _, nan => nan
  | inf n1, inf n2 => inf (xor n1 n2)
  | inf n1, fin n2 m2 _ => if m2 = 0 then nan else inf (xor n1 n2)
  | fin n1 m1 _, inf n2 => if m1 = 0 then nan else inf (xor n1 n2)
  | fin n1 m1 e1, fin n2 m2 e2 =>
      if 0 ≤ e1 + e2 then round (xor n1 n2) (m1 * m2 * 2 ^ (e1 + e2).toNat) 1
      else round (xor n1 n2) (m1 * m2) (2 ^ (-(e1 + e2)).toNat)

/-- The constant `0.0`; also the value of a `double` after `memset` to zero. -/
def zero : Double := fin false 0 0

/-- The constant `100.0`. -/
def hundred : Double := fin false 100 0

/-- The constant `1024.0`. -/
def d1024 : Double := fin false 1024 0

/-- The constant `0.07`: the binary64 number nearest to 7/100. -/
def cost_per_kb : Double := round false 7 100

end Double

/-- `llround`: the nearest integer, a tie going away from zero. `none` stands
for the unspecified result of a NaN, an infinity or a value outside
`long long`. -/
def llround : Double → Option Int
  | .fin neg m e =>
      let mag : Nat :=
        if 0 ≤ e then m * 2 ^ e.toNat
        else (2 * m + 2 ^ (-e).toNat) / (2 * 2 ^ (-e).toNat)
      let v : Int := if neg then -(mag : Int) else (mag : Int)
      if -(2 : Int) ^ 63 ≤ v ∧ v < (2 : Int) ^ 63 then some v else none
  | _ => none

/-! ## The C library conversions used by the parsers

Strings are the NUL-terminated byte strings of `argv`; the C locale is assumed
(radix character `.`). Each conversion reports the value, the text left at
`*end`, whether `end` moved from the start, and whether `errno` was set to
`ERANGE`. -/

/-- `isspace` in the C locale. -/
def isspace (c : Char) : Bool :=
  c.toNat == 32 || (9 ≤ c.toNat && c.toNat ≤ 13)

/-- `tolower` in the C locale. -/
def tolower (c : Char) : Char :=
  if 65 ≤ c.toNat ∧ c.toNat ≤ 90 then Char.ofNat (c.toNat + 32) else c

def skip_space : List Char → List Char
  | [] => []
  | c :: cs => if isspace c then skip_space cs else c :: cs

def dec_digit (c : Char) : Option Nat :=
  if 48 ≤ c.toNat ∧ c.toNat ≤ 57 then some (c.toNat - 48) else none

def hex_digit (c : Char) : Option Nat :=
  if 48 ≤ c.toNat ∧ c.toNat ≤ 57 then some (c.toNat - 48)
  else if 97 ≤ c.toNat ∧ c.toNat ≤ 102 then some (c.toNat - 87)
  else if 65 ≤ c.toNat ∧ c.toNat ≤ 70 then some (c.toNat - 55)
  else none

/-- Reads the longest run of digits at the head of the text: the number read
so far, how many digits were read, and the text that follows. -/
def scan_digits (digit : Char → Option Nat) (base : Nat) :
    List Char → Nat → Nat → Nat × Nat × List Char
  | [], acc, cnt => (acc, cnt, [])
  | c :: cs, acc, cnt =>
      match digit c with
      | some d => scan_digits digit base cs (acc * base + d) (cnt + 1)
      | none => (acc, cnt, c :: cs)

/-- An optional sign at the head of the text. -/
def scan_sign : List Char → Bool × List Char
  | c :: cs => if c = '-' then (true, cs) else if c = '+' then (false, cs) else (false, c :: cs)
  | [] => (false, [])

structure StrtolResult where
  value : Int
  endp : List Char
  moved : Bool
  erange : Bool
  deriving DecidableEq, Repr

/-- Base-10 `strtol` / `strtoll` for a signed type with range `[lo, hi]`:
white space, an optional sign, decimal digits. Without digits nothing is
converted and `end` stays at the start; out of range the value is clamped and
`errno` is `ERANGE`. -/
def strto_signed (lo hi : Int) (s : List Char) : StrtolResult :=
  match scan_sign (skip_space s) with
  | (neg, u) =>
    match scan_digits dec_digit 10 u 0 0 with
    | (acc, cnt, rest) =>
      if cnt = 0 then ⟨0, s, false, false⟩
      else if neg ∧ -(acc : Int) < lo then ⟨lo, rest, true, true⟩
      else if ¬ neg ∧ hi < (acc : Int) then ⟨hi, rest, true, true⟩
      else ⟨if neg then -(acc : Int) else (acc : Int), rest, true, false⟩

def LONG_MIN : Int := -(2 ^ 63)
def LONG_MAX : Int := 2 ^ 63 - 1
def INT32_MIN : Int := -(2 ^ 31)
def INT32_MAX : Int := 2 ^ 31 - 1

/-- `strtol(s, &end, 10)` with a 64-bit `long`. -/
def strtol (s : List Char) : StrtolResult := strto_signed LONG_MIN LONG_MAX s

/-- `strtoll(s, &end, 10)`. -/
def strtoll (s : List Char) : StrtolResult := strto_signed LONG_MIN LONG_MAX s

structure StrtodResult where
  value : Double
  endp : List Char
  moved : Bool
  erange : Bool
  deriving DecidableEq, Repr

/-- The result of `strtod` for a finite input `(-1) ^ neg * p / r` whose text
ends at `rest`: the nearest binary64 number; `ERANGE` on overflow, and on a
result below the least normal magnitude that is not exact. -/
def strtod_finite (neg : Bool) (p r : Nat) (rest : List Char) : StrtodResult :=
  match Double.round neg p r with
  | .fin n m e => ⟨.fin n m e, rest, true, Double.tiny m e && Double.inexact m e p r⟩
  | v => ⟨v, rest, true, true⟩

/-- An optional exponent part: the letter `mark` (either case), an optional
sign and at least one decimal digit. Gives the exponent and the text after
it; without a complete exponent part nothing is read. -/
def scan_exponent (mark : Char) (t : List Char) : Int × List Char :=
  match t with
  | [] => (0, t)
  | c :: cs =>
    if tolower c = mark then
      match scan_sign cs with
      | (neg, u) =>
        match scan_digits dec_digit 10 u 0 0 with
        | (acc, cnt, rest) =>
          if cnt = 0 then (0, t) else (if neg then -(acc : Int) else (acc : Int), rest)
    else (0, t)

/-- The value of `digits * base ^ scale` as a fraction `p / r`. -/
def scaled_fraction (digits base : Nat) (scale : Int) : Nat × Nat :=
  if 0 ≤ scale then (digits * base ^ scale.toNat, 1) else (digits, base ^ (-scale).toNat)

/-- A decimal floating constant at the head of `t`: digits with an optional
radix character, then an optional exponent. `none` when there is no digit. -/
def scan_decimal (neg : Bool) (t : List Char) : Option StrtodResult :=
  match scan_digits dec_digit 10 t 0 0 with
  | (a1, c1, t1) =>
    match t1 with
    | '.' :: t2 =>
      match scan_digits dec_digit 10 t2 a1 0 with
      | (a2, c2, t3) =>
        if c1 + c2 = 0 then none
        else
          match scan_exponent 'e' t3 with
          | (x, rest) =>
            match scaled_fraction a2 10 (x - c2) with
            | (p, r) => some (strtod_finite neg p r rest)
    | _ =>
      if c1 = 0 then none
      else
        match scan_exponent 'e' t1 with
        | (x, rest) =>
          match scaled_fraction a1 10 x with
          | (p, r) => some (strtod_finite neg p r rest)

/-- A hexadecimal floating constant: `0x` or `0X`, hexadecimal digits with an
optional radix character, then an optional binary exponent. `none` when the
prefix is missing or no hexadecimal digit follows it. -/
def scan_hex (neg : Bool) (t : List Char) : Option StrtodResult :=
  match t with
  | '0' :: x :: t0 =>
    if tolower x = 'x' then
      match scan_digits hex_digit 16 t0 0 0 with
      | (a1, c1, t1) =>
        match t1 with
        | '.' :: t2 =>
          match scan_digits hex_digit 16 t2 a1 0 with
          | (a2, c2, t3) =>
            if c1 + c2 = 0 then none
            else
              match scan_exponent 'p' t3 with
              | (x, rest) =>
                match scaled_fraction a2 2 (x - 4 * c2) with
                | (p, r) => some (strtod_finite neg p r rest)
        | _ =>
          if c1 = 0 then none
          else
            match scan_exponent 'p' t1 with
            | (x, rest) =>
              match scaled_fraction a1 2 x with
              | (p, r) => some (strtod_finite neg p r rest)
    else none
  | _ => none

/-- Whether the text starts with `word`, letter case ignored; gives the text
after it. -/
def strip_word : List Char → List Char → Option (List Char)
  | [], t => some t
  | _ :: _, [] => none
  | w :: ws, c :: cs => if tolower c = w then strip_word ws cs else none

/-- `INF` or `INFINITY`, letter case ignored. -/
def scan_inf (neg : Bool) (t : List Char) : Option StrtodResult :=
  match strip_word ['i', 'n', 'f'] t with
  | none => none
  | some t1 =>
    match strip_word ['i', 'n', 'i', 't', 'y'] t1 with
    | some t2 => some ⟨.inf neg, t2, true, false⟩
    | none => some ⟨.inf neg, t1, true, false⟩

/-- The characters allowed between the parentheses of `NAN(...)`. -/
def is_nchar (c : Char) : Bool :=
  (48 ≤ c.toNat && c.toNat ≤ 57) || (65 ≤ c.toNat && c.toNat ≤ 90) ||
  (97 ≤ c.toNat && c.toNat ≤ 122) || c.toNat == 95

/-- The text after the closing parenthesis of `(n-char-sequence)`, when the
text starts with a complete one (the opening parenthesis already read). -/
def scan_nchars : List Char → Option (List Char)
  | [] => none
  | c :: cs => if c = ')' then some cs else if is_nchar c then scan_nchars cs else none

/-- `NAN` or `NAN(n-char-sequence)`, letter case ignored. -/
def scan_nan (t : List Char) : Option StrtodResult :=
  match strip_word ['n', 'a', 'n'] t with
  | none => none
  | some t1 =>
    match t1 with
    | '(' :: t2 =>
      match scan_nchars t2 with
      | some t3 => some ⟨.nan, t3, true, false⟩
      | none => some ⟨.nan, t1, true, false⟩
    | _ => some ⟨.nan, t1, true, false⟩

/-- `strtod(s, &end)`: white space, an optional sign, then the longest of a
hexadecimal constant, a decimal constant, an infinity or a NaN. When none is
present nothing is converted and `end` stays at the start. -/
def strtod (s : List Char) : StrtodResult :=
  match scan_sign (skip_space s) with
  | (neg, t) =>
    match scan_hex neg t with
    | some r => r
    | none =>
      match scan_decimal neg t with
      | some r => r
      | none =>
        match scan_inf neg t with
        | some r => r
        | none =>
          match scan_nan t with
          | some r => r
          | none => ⟨Double.zero, s, false, false⟩

/-! ## Parsers of `calculations.c` -/

/-- `parse_int`: `some v` when the function returns 1 with `*out = v`. -/
def parse_int (s : String) : Option Int :=
  let r := strtol s.toList
  if r.erange || !r.moved || r.endp != [] then none
  else if r.value < INT32_MIN || r.value > INT32_MAX then none
  else some r.value

/-- `parse_ll`. -/
def parse_ll (s : String) : Option Int :=
  let r := strtoll s.toList
  if r.erange || !r.moved || r.endp != [] then none
  else some r.value

/-- `parse_double`. -/
def parse_double (s : String) : Option Double :=
  let r := strtod s.toList
  if r.erange || !r.moved || r.endp != [] then none
  else some r.value

/-! ## Data model (`calculations.h`) -/

inductive repl_policy_t where
  | RP_RR
  | RP_RND
  deriving DecidableEq, Repr

/-- The struct `Config`. The array `traces` is kept as the list of its first
`num_traces` entries. -/
structure Config where
  cache_kb : Int
  block_bytes : Int
  associativity : Int
  policy : repl_policy_t
  phys_mb : Int
  os_percent : Double
  time_slice : Int
  traces : List String
  num_traces : Int
  deriving DecidableEq, Repr

/-- The struct `Results`. `sys_pages` is `none` when the value stored is the
unspecified result of `llround`. -/
structure Results where
  blocks_total : Nat
  tag_bits : Int
  index_bits : Int
  rows_total : Nat
  overhead_bytes : Nat
  impl_mem_bytes : Nat
  impl_kb : Double
  cost_usd : Double
  phys_pages : Nat
  sys_pages : Option Nat
  pte_bits : Int
  pgt_total_bytes : Nat
  deriving DecidableEq, Repr

/-! ## `parse_args` -/

/-- The `Config` at the start of `parse_args`: all bytes zero, then
`time_slice = -1`. -/
def Config.initial : Config :=
  { cache_kb := 0, block_bytes := 0, associativity := 0, policy := .RP_RR, phys_mb := 0,
    os_percent := Double.zero, time_slice := -1, traces := [], num_traces := 0 }

/-- The value of `-r`: copied into a 16-byte buffer, lower-cased, compared
with `rr` and `rnd`. -/
def parse_policy (s : String) : Option repl_policy_t :=
  if (s.toList.take 15).map tolower = ['r', 'r'] then some .RP_RR
  else if (s.toList.take 15).map tolower = ['r', 'n', 'd'] then some .RP_RND
  else none

/-- The loop `for (i = 1; i < argc; ++i)` over the arguments not yet read.
A last argument without a successor ends in `usage_and_exit` whether or not
it is a known flag. -/
def parse_loop : List String → Config → Except Failure Config
  | [], cfg => .ok cfg
  | [_], _ => .error .usage
  | flag :: v :: rest, cfg =>
      if flag = "-s" then
        match parse_int v with
        | some x => parse_loop rest { cfg with cache_kb := x }
        | none => .error .bad_s_value
      else if flag = "-b" then
        match parse_int v with
        | some x => parse_loop rest { cfg with block_bytes := x }
        | none => .error .bad_b_value
      else if flag = "-a" then
        match parse_int v with
        | some x => parse_loop rest { cfg with associativity := x }
        | none => .error .bad_a_value
      else if flag = "-r" then
        match parse_policy v with
        | some x => parse_loop rest { cfg with policy := x }
        | none => .error .bad_r_value
      else if flag = "-p" then
        match parse_int v with
        | some x => parse_loop rest { cfg with phys_mb := x }
        | none => .error .bad_p_value
      else if flag = "-u" then
        match parse_double v with
        | some x => parse_loop rest { cfg with os_percent := x }
        | none => .error .bad_u_value
      else if flag = "-n" then
        match parse_ll v with
        | some x => parse_loop rest { cfg with time_slice := x }
        | none => .error .bad_n_value
      else if flag = "-f" then
        if cfg.num_traces ≥ MAX_TRACES then .error .too_many_traces
        else parse_loop rest
          { cfg with traces := cfg.traces ++ [v], num_traces := cfg.num_traces + 1 }
      else .error .usage

/-- The checks after the loop (`// Validate ranges / sets` and
`// Cross-checks for geometry sanity`), in the order of the source. -/
def validate (cfg : Config) : Except Failure Unit :=
  if cfg.cache_kb < MIN_CACHE_KB ∨ cfg.cache_kb > MAX_CACHE_KB ∨
      is_power_of_two_u64 (to_u64 cfg.cache_kb) = false then
    .error .cache_size_rule
  else if ¬ (cfg.block_bytes = 8 ∨ cfg.block_bytes = 16 ∨
      cfg.block_bytes = 32 ∨ cfg.block_bytes = 64) then
    .error .block_size_rule
  else if ¬ (cfg.associativity = 1 ∨ cfg.associativity = 2 ∨
      cfg.associativity = 4 ∨ cfg.associativity = 8 ∨ cfg.associativity = 16) then
    .error .associativity_rule
  else if cfg.phys_mb < MIN_PHYS_MB ∨ cfg.phys_mb > MAX_PHYS_MB ∨
      is_power_of_two_u64 (to_u64 cfg.phys_mb) = false then
    .error .phys_mem_rule
  else if cfg.os_percent.lt Double.zero = true ∨ cfg.os_percent.gt Double.hundred = true then
    .error .os_percent_rule
  else if cfg.time_slice < -1 ∨ cfg.time_slice = 0 then
    .error .time_slice_rule
  else if cfg.num_traces < 1 then
    .error .no_traces
  else
    match u64_div (u64_mul (to_u64 cfg.cache_kb) 1024) (to_u64 cfg.block_bytes) with
    | .error e => .error e
    | .ok blocks_total =>
      match u64_mod blocks_total (to_u64 cfg.associativity) with
      | .error e => .error e
      | .ok rem =>
        if rem ≠ 0 then .error .rows_not_integer
        else
          match u64_div blocks_total (to_u64 cfg.associativity) with
          | .error e => .error e
          | .ok rows_total =>
            if is_power_of_two_u64 rows_total = false then .error .rows_not_pow2
            else .ok ()

/-- `parse_args`, from `argv` to the validated `Config`. -/
def parse_args (argv : List String) : Except Failure Config :=
  match argv with
  | [] => .error .usage
  | [_] => .error .usage
  | _ :: arg :: args =>
    match parse_loop (arg :: args) Config.initial with
    | .error e => .error e
    | .ok cfg =>
      match validate cfg with
      | .error e => .error e
      | .ok _ => .ok cfg

/-! ## `compute_results` -/

/-- The local `phys_bytes` of `compute_results`. -/
def phys_bytes (c : Config) : Nat := u64_mul (u64_mul (to_u64 c.phys_mb) 1024) 1024

/-- The local `cache_bytes` of `compute_results`. -/
def cache_bytes (c : Config) : Nat := u64_mul (to_u64 c.cache_kb) 1024

/-- `compute_results`. -/
def compute_results (c : Config) : Except Failure Results := do
  let block_bytes := to_u64 c.block_bytes
  let blocks_total ← u64_div (cache_bytes c) block_bytes
  let ways := c.associativity
  let rows_total ← u64_div blocks_total (to_u64 ways)
  let phys_addr_bits ← ilog2_call (phys_bytes c)
  let block_off_bits ← ilog2_call block_bytes
  let index_bits ← ilog2_call rows_total
  let tag_bits := phys_addr_bits - index_bits - block_off_bits
  if tag_bits < 0 then .error .negative_tag_bits
  else
    let per_line_bits := u64_add 1 (to_u64 tag_bits)
    let total_overhead_bits := u64_mul (u64_mul rows_total (to_u64 ways)) per_line_bits
    let overhead_bytes := u64_add total_overhead_bits 7 / 8
    let impl_mem_bytes := u64_add (cache_bytes c) overhead_bytes
    let impl_kb := Double.div (Double.of_u64 impl_mem_bytes) Double.d1024
    let cost := Double.mul impl_kb Double.cost_per_kb
    let page_bytes := 4096
    let phys_pages := phys_bytes c / page_bytes
    let os_fraction := Double.div c.os_percent Double.hundred
    let sys_pages := (llround (Double.mul os_fraction (Double.of_u64 phys_pages))).map to_u64
    let phys_page_bits ← ilog2_call phys_pages
    let pte_bits := 1 + phys_page_bits
    let vpt_entries_per_proc := u64_mul 512 1024
    let pgt_total_bits :=
      u64_mul (u64_mul vpt_entries_per_proc (to_u64 c.num_traces)) (to_u64 pte_bits)
    let pgt_total_bytes := u64_add pgt_total_bits 7 / 8
    pure
      { blocks_total := blocks_total, tag_bits := tag_bits, index_bits := index_bits,
        rows_total := rows_total, overhead_bytes := overhead_bytes,
        impl_mem_bytes := impl_mem_bytes, impl_kb := impl_kb, cost_usd := cost,
        phys_pages := phys_pages, sys_pages := sys_pages, pte_bits := pte_bits,
        pgt_total_bytes := pgt_total_bytes }

/-! ## Accepted configurations -/

/-- A `Config` is accepted when `parse_args` returns it for some command line. -/
def Accepted (cfg : Config) : Prop := ∃ argv, parse_args argv = .ok cfg

/-- What the checks of `parse_args` establish about a `Config`, with the
exponents of its four powers of two. -/
structure Valid (cfg : Config) (a b c p : Nat) : Prop where
  a_range : 3 ≤ a ∧ a ≤ 13
  b_range : 3 ≤ b ∧ b ≤ 6
  c_range : c ≤ 4
  p_range : 7 ≤ p ∧ p ≤ 12
  cache_kb_eq : cfg.cache_kb = ((2 ^ a : Nat) : Int)
  block_bytes_eq : cfg.block_bytes = ((2 ^ b : Nat) : Int)
  associativity_eq : cfg.associativity = ((2 ^ c : Nat) : Int)
  phys_mb_eq : cfg.phys_mb = ((2 ^ p : Nat) : Int)
  os_not_lt : cfg.os_percent.lt Double.zero = false
  os_not_gt : cfg.os_percent.gt Double.hundred = false
  time_slice_ok : cfg.time_slice = -1 ∨ 1 ≤ cfg.time_slice
  traces_pos : 1 ≤ cfg.num_traces

/-! ## The specification's side

The definitions below follow the words of the specification; they are what
the code is compared with. -/

/-- Ceiling division of the reference pipeline: the quotient, plus one when
the division leaves a remainder. -/
def ceilDiv (a b : Int) : Int := if a % b = 0 then a / b else a / b + 1

/-- An integer that is a power of two. -/
def IsPow2 (v : Int) : Prop := ∃ k : Nat, v = 2 ^ k

/-- A `double` that is a real number of the closed interval `[0, 100]`. -/
def Double.in_0_100 : Double → Prop
  | .fin neg m e =>
      (neg = false ∨ m = 0) ∧
        (if 0 ≤ e then m * 2 ^ e.toNat ≤ 100 else m ≤ 100 * 2 ^ (-e).toNat)
  | _ => False

/-- The errors of the validator, one for each rule, in the order of the rules. -/
inductive ValidationError where
  | InvalidCacheSize
  | InvalidBlockSize
  | InvalidAssociativity
  | InvalidPhysicalMemory
  | InvalidOsPercent
  | InvalidTimeSlice
  | InvalidTraceCount
  | NonIntegerRowCount
  | RowCountNotPowerOfTwo
  deriving DecidableEq, Repr

/-- The number of the rule in the fixed order. -/
def ValidationError.index : ValidationError → Nat
  | .InvalidCacheSize => 1
  | .InvalidBlockSize => 2
  | .InvalidAssociativity => 3
  | .InvalidPhysicalMemory => 4
  | .InvalidOsPercent => 5
  | .InvalidTimeSlice => 6
  | .InvalidTraceCount => 7
  | .NonIntegerRowCount => 8
  | .RowCountNotPowerOfTwo => 9

/-- The rule that a failure of the program reports. Both messages about the
number of `-f` traces report the trace-count rule; failures that are not
about a rule report none. -/
def Failure.rule : Failure → Option ValidationError
  | .cache_size_rule => some .InvalidCacheSize
  | .block_size_rule => some .InvalidBlockSize
  | .associativity_rule => some .InvalidAssociativity
  | .phys_mem_rule => some .InvalidPhysicalMemory
  | .os_percent_rule => some .InvalidOsPercent
  | .time_slice_rule => some .InvalidTimeSlice
  | .too_many_traces => some .InvalidTraceCount
  | .no_traces => some .InvalidTraceCount
  | .rows_not_integer => some .NonIntegerRowCount
  | .rows_not_pow2 => some .RowCountNotPowerOfTwo
  | _ => none

/-- The raw field values handed to the validator. -/
structure RawInputs where
  cacheSizeKB : Int
  blockSizeBytes : Int
  associativity : Int
  replacementPolicy : repl_policy_t
  physicalMemoryMB : Int
  osMemoryPercent : Double
  timeSlice : Int
  traceIdentifiers : List String
  deriving DecidableEq, Repr

/-- The raw fields before any flag is read: a field whose flag is absent
keeps the value the program starts from. -/
def RawInputs.initial : RawInputs :=
  { cacheSizeKB := 0, blockSizeBytes := 0, associativity := 0, replacementPolicy := .RP_RR,
    physicalMemoryMB := 0, osMemoryPercent := Double.zero, timeSlice := -1,
    traceIdentifiers := [] }

/-- The command-line front end of the specification: reads the flags into the
raw fields and keeps every `-f` value, however many there are. `none` for a
command line that is not a sequence of known flags with readable values. -/
def spec_tokenize_loop : List String → RawInputs → Option RawInputs
  | [], raw => some raw
  | [_], _ => none
  | flag :: v :: rest, raw =>
      if flag = "-s" then
        (parse_int v).bind fun x => spec_tokenize_loop rest { raw with cacheSizeKB := x }
      else if flag = "-b" then
        (parse_int v).bind fun x => spec_tokenize_loop rest { raw with blockSizeBytes := x }
      else if flag = "-a" then
        (parse_int v).bind fun x => spec_tokenize_loop rest { raw with associativity := x }
      else if flag = "-r" then
        (parse_policy v).bind fun x =>
          spec_tokenize_loop rest { raw with replacementPolicy := x }
      else if flag = "-p" then
        (parse_int v).bind fun x => spec_tokenize_loop rest { raw with physicalMemoryMB := x }
      else if flag = "-u" then
        (parse_double v).bind fun x =>
          spec_tokenize_loop rest { raw with osMemoryPercent := x }
      else if flag = "-n" then
        (parse_ll v).bind fun x => spec_tokenize_loop rest { raw with timeSlice := x }
      else if flag = "-f" then
        spec_tokenize_loop rest { raw with traceIdentifiers := raw.traceIdentifiers ++ [v] }
      else none

/-- The raw fields of a command line `argv` (program name first). -/
def spec_tokenize (argv : List String) : Option RawInputs :=
  match argv with
  | [] => none
  | [_] => none
  | _ :: arg :: args => spec_tokenize_loop (arg :: args) RawInputs.initial

/-- Whether the raw fields violate the given rule of the validator. -/
def RawInputs.violates (raw : RawInputs) : ValidationError → Prop
  | .InvalidCacheSize =>
      ¬ (8 ≤ raw.cacheSizeKB ∧ raw.cacheSizeKB ≤ 8192 ∧ IsPow2 raw.cacheSizeKB)
  | .InvalidBlockSize =>
      ¬ (raw.blockSizeBytes = 8 ∨ raw.blockSizeBytes = 16 ∨ raw.blockSizeBytes = 32 ∨
        raw.blockSizeBytes = 64)
  | .InvalidAssociativity =>
      ¬ (raw.associativity = 1 ∨ raw.associativity = 2 ∨ raw.associativity = 4 ∨
        raw.associativity = 8 ∨ raw.associativity = 16)
  | .InvalidPhysicalMemory =>
      ¬ (128 ≤ raw.physicalMemoryMB ∧ raw.physicalMemoryMB ≤ 4096 ∧
        IsPow2 raw.physicalMemoryMB)
  | .InvalidOsPercent => ¬ raw.osMemoryPercent.in_0_100
  | .InvalidTimeSlice => ¬ (raw.timeSlice = -1 ∨ 1 ≤ raw.timeSlice)
  | .InvalidTraceCount =>
      ¬ (1 ≤ raw.traceIdentifiers.length ∧ raw.traceIdentifiers.length ≤ 3)
  | .NonIntegerRowCount =>
      (raw.cacheSizeKB * 1024 / raw.blockSizeBytes) % raw.associativity ≠ 0
  | .RowCountNotPowerOfTwo =>
      ¬ IsPow2 (raw.cacheSizeKB * 1024 / raw.blockSizeBytes / raw.associativity)

/-- The rule `v` is the first one, in the fixed order, that the raw fields
violate. -/
def FirstViolated (raw : RawInputs) (v : ValidationError) : Prop :=
  raw.violates v ∧ ∀ w : ValidationError, w.index < v.index → ¬ raw.violates w

/-- A `Config` holds the raw fields: the same values, and the traces with
their count. -/
def Config.holds (cfg : Config) (raw : RawInputs) : Prop :=
  cfg.cache_kb = raw.cacheSizeKB ∧ cfg.block_bytes = raw.blockSizeBytes ∧
  cfg.associativity = raw.associativity ∧ cfg.policy = raw.replacementPolicy ∧
  cfg.phys_mb = raw.physicalMemoryMB ∧ cfg.os_percent = raw.osMemoryPercent ∧
  cfg.time_slice = raw.timeSlice ∧ cfg.traces = raw.traceIdentifiers ∧
  cfg.num_traces = (raw.traceIdentifiers.length : Int)

/-! ## Scenarios of the specification -/

/-- Scenario A: 8 KB cache, 8-byte blocks, direct mapped, 128 MB, 10 percent,
one trace. -/
def scenarioA_argv : List String :=
  ["sim", "-s", "8", "-b", "8", "-a", "1", "-r", "RR", "-p", "128", "-u", "10", "-n", "-1",
    "-f", "t1"]

/-- The `Config` that `parse_args` builds for Scenario A (`os_percent` is 10). -/
def scenarioA : Config :=
  { cache_kb := 8, block_bytes := 8, associativity := 1, policy := .RP_RR, phys_mb := 128,
    os_percent := .fin false 5629499534213120 (-49), time_slice := -1, traces := ["t1"],
    num_traces := 1 }

/-- The boundary configuration: largest cache, smallest block, direct mapped,
largest physical memory. -/
def boundary_argv : List String :=
  ["sim", "-s", "8192", "-b", "8", "-a", "1", "-p", "4096", "-f", "t1"]

/-- The `Config` that `parse_args` builds for the boundary configuration. -/
def boundary : Config :=
  { cache_kb := 8192, block_bytes := 8, associativity := 1, policy := .RP_RR, phys_mb := 4096,
    os_percent := Double.zero, time_slice := -1, traces := ["t1"], num_traces := 1 }

/-- Scenario C: three traces and 256 MB of physical memory (17-bit entries). -/
def scenarioC_argv : List String :=
  ["sim", "-s", "64", "-b", "16", "-a", "4", "-r", "rnd", "-p", "256", "-u", "25", "-n", "100",
    "-f", "t1", "-f", "t2", "-f", "t3"]

/-- The `Config` that `parse_args` builds for Scenario C (`os_percent` is 25). -/
def scenarioC : Config :=
  { cache_kb := 64, block_bytes := 16, associativity := 4, policy := .RP_RND, phys_mb := 256,
    os_percent := .fin false 7036874417766400 (-48), time_slice := 100,
    traces := ["t1", "t2", "t3"], num_traces := 3 }

/-- A command line with four `-f` traces and a cache size that is not a
power of two. -/
def four_traces_argv : List String :=
  ["sim", "-s", "7", "-b", "8", "-a", "1", "-p", "128", "-u", "10",
    "-f", "a", "-f", "b", "-f", "c", "-f", "d"]

/-- The raw fields of `four_traces_argv`. -/
def four_traces_raw : RawInputs :=
  { cacheSizeKB := 7, blockSizeBytes := 8, associativity := 1, replacementPolicy := .RP_RR,
    physicalMemoryMB := 128, osMemoryPercent := .fin false 5629499534213120 (-49),
    timeSlice := -1, traceIdentifiers := ["a", "b", "c", "d"] }

/-- A command line that breaks the associativity rule and the physical-memory
rule. -/
def bad_assoc_argv : List String :=
  ["sim", "-s", "8", "-b", "8", "-a", "3", "-p", "100", "-f", "t1"]

/-- The raw fields of `bad_assoc_argv`. -/
def bad_assoc_raw : RawInputs :=
  { cacheSizeKB := 8, blockSizeBytes := 8, associativity := 3, replacementPolicy := .RP_RR,
    physicalMemoryMB := 100, osMemoryPercent := Double.zero, timeSlice := -1,
    traceIdentifiers := ["t1"] }

/-- The `Config` that the loop of `parse_args` builds for `bad_assoc_argv`. -/
def bad_assoc : Config :=
  { cache_kb := 8, block_bytes := 8, associativity := 3, policy := .RP_RR, phys_mb := 100,
    os_percent := Double.zero, time_slice := -1, traces := ["t1"], num_traces := 1 }

/-- Scenario A with `nan` as the value of `-u`. -/
def nan_argv : List String :=
  ["sim", "-s", "8", "-b", "8", "-a", "1", "-p", "128", "-u", "nan", "-f", "t1"]

/-- The raw fields of `nan_argv`. -/
def nan_raw : RawInputs :=
  { cacheSizeKB := 8, blockSizeBytes := 8, associativity := 1, replacementPolicy := .RP_RR,
    physicalMemoryMB := 128, osMemoryPercent := .nan, timeSlice := -1,
    traceIdentifiers := ["t1"] }

/-- The `Config` that `parse_args` returns for `nan_argv`. -/
def nan_config : Config :=
  { cache_kb := 8, block_bytes := 8, associativity := 1, policy := .RP_RR, phys_mb := 128,
    os_percent := .nan, time_slice := -1, traces := ["t1"], num_traces := 1 }

/-- A `Config` whose cache size, 24 KB, lies in the range but is not a power
of two. -/
def cache24 : Config :=
  { cache_kb := 24, block_bytes := 8, associativity := 1, policy := .RP_RR, phys_mb := 128,
    os_percent := Double.zero, time_slice := -1, traces := ["t1"], num_traces := 1 }

/-! ## Further definitions for the later claims -/

/-- The integer members of `Results`, in the order of the header; `sys_pages`
is listed when its value is specified. -/
def Results.integer_fields (r : Results) : List Int :=
  [(r.blocks_total : Int), r.tag_bits, r.index_bits, (r.rows_total : Int),
    (r.overhead_bytes : Int), (r.impl_mem_bytes : Int), (r.phys_pages : Int)]
  ++ (r.sys_pages.toList.map fun v => (v : Int))
  ++ [r.pte_bits, (r.pgt_total_bytes : Int)]

/-- The `Results` of Scenario A (`impl_kb` is 9.875, `cost_usd` the double
nearest to 0.69125). -/
def scenarioA_results : Results :=
  { blocks_total := 1024, tag_bits := 14, index_bits := 10, rows_total := 1024,
    overhead_bytes := 1920, impl_mem_bytes := 10112,
    impl_kb := .fin false 5559130790035456 (-49),
    cost_usd := .fin false 6226226484839711 (-53),
    phys_pages := 32768, sys_pages := some 3277, pte_bits := 16, pgt_total_bytes := 1048576 }

/-- The constant `3.0`. -/
def Double.three : Double := .fin false 3 0

/-- A `double` whose value is zero, of either sign. -/
def Double.is_zero (x : Double) : Prop := ∃ (n : Bool) (e : Int), x = .fin n 0 e

/-- Scenario B: Scenario A with 0 percent of the memory for the system. -/
def scenarioB_argv : List String :=
  ["sim", "-s", "8", "-b", "8", "-a", "1", "-p", "128", "-u", "0", "-f", "t1"]

/-- The `Config` that `parse_args` builds for Scenario B. -/
def scenarioB : Config :=
  { cache_kb := 8, block_bytes := 8, associativity := 1, policy := .RP_RR, phys_mb := 128,
    os_percent := .fin false 0 0, time_slice := -1, traces := ["t1"], num_traces := 1 }

/-- Scenario B with `-0` as the value of `-u`. -/
def minus_zero_argv : List String :=
  ["sim", "-s", "8", "-b", "8", "-a", "1", "-p", "128", "-u", "-0", "-f", "t1"]

/-- The `Config` that `parse_args` builds for `minus_zero_argv`. -/
def minus_zero : Config :=
  { cache_kb := 8, block_bytes := 8, associativity := 1, policy := .RP_RR, phys_mb := 128,
    os_percent := .fin true 0 0, time_slice := -1, traces := ["t1"], num_traces := 1 }

/-- The integer nearest to `p / r` (`r > 0`), a tie going away from zero. -/
def round_half_away (p r : Nat) : Nat := (2 * p + r) / (2 * r)

/-- Whether the value is one that binary64 arithmetic can produce: a finite
value has a significand of at most 53 bits (`2 ^ 53` standing for the next
power of two) and an exponent of at least `-1074`. -/
def Double.representable : Double → Bool
  | .fin _ m e => decide (m ≤ 2 ^ 53 ∧ -1074 ≤ e)
  | _ => true

/-! # Proofs -/

/-! ## Machine arithmetic without wrap-around -/

theorem to_u64_of_nonneg {v : Int} (h0 : 0 ≤ v) (h1 : v < 2 ^ 64) : to_u64 v = v.toNat := by
  unfold to_u64 U64
  have : v % ((2 ^ 64 : Nat) : Int) = v := Int.emod_eq_of_lt h0 (by simpa using h1)
  rw [this]

theorem to_u64_natCast {n : Nat} (h : n < 2 ^ 64) : to_u64 (n : Int) = n := by
  rw [to_u64_of_nonneg (by omega) (by exact_mod_cast h)]
  simp

theorem u64_mul_of_lt {a b : Nat} (h : a * b < 2 ^ 64) : u64_mul a b = a * b := by
  unfold u64_mul U64
  exact Nat.mod_eq_of_lt h

theorem u64_add_of_lt {a b : Nat} (h : a + b < 2 ^ 64) : u64_add a b = a + b := by
  unfold u64_add U64
  exact Nat.mod_eq_of_lt h

theorem u64_sub_one {x : Nat} (h0 : 0 < x) (h1 : x < 2 ^ 64) : u64_sub x 1 = x - 1 := by
  unfold u64_sub U64
  omega

/-! ## `is_power_of_two_u64` -/

theorem land_pred_eq_zero_of_pow (k : Nat) : 2 ^ k &&& (2 ^ k - 1) = 0 := by
  rw [Nat.and_pow_two_sub_one_eq_mod]
  exact Nat.mod_self _

theorem pow_of_land_pred_eq_zero : ∀ x : Nat, 0 < x → x &&& (x - 1) = 0 → ∃ k, x = 2 ^ k := by
  intro x
  induction x using Nat.strong_induction_on with
  | _ x ih =>
    intro hx h
    by_cases h1 : x = 1
    · exact ⟨0, by simp [h1]⟩
    · have hdiv : x / 2 &&& (x - 1) / 2 = 0 := by
        rw [← Nat.and_div_two, h]
      rcases Nat.mod_two_eq_zero_or_one x with hev | hodd
      · have e1 : (x - 1) / 2 = x / 2 - 1 := by omega
        rw [e1] at hdiv
        obtain ⟨k, hk⟩ := ih (x / 2) (by omega) (by omega) hdiv
        exact ⟨k + 1, by rw [pow_succ]; omega⟩
      · have e1 : (x - 1) / 2 = x / 2 := by omega
        rw [e1, Nat.and_self] at hdiv
        omega

theorem is_power_of_two_u64_iff {x : Nat} (hx : x < 2 ^ 64) :
    is_power_of_two_u64 x = true ↔ ∃ k, x = 2 ^ k := by
  unfold is_power_of_two_u64
  constructor
  · intro h
    simp only [Bool.and_eq_true, bne_iff_ne, ne_eq, beq_iff_eq] at h
    have hpos : 0 < x := Nat.pos_of_ne_zero h.1
    rw [u64_sub_one hpos hx] at h
    exact pow_of_land_pred_eq_zero x hpos h.2
  · rintro ⟨k, rfl⟩
    have hpos : 0 < 2 ^ k := Nat.two_pow_pos k
    simp only [Bool.and_eq_true, bne_iff_ne, ne_eq, beq_iff_eq]
    rw [u64_sub_one hpos hx]
    exact ⟨by omega, land_pred_eq_zero_of_pow k⟩

/-! ## `ilog2_u64` -/

theorem ilog2_loop_eq : ∀ (fuel x : Nat) (n : Int), x < 2 ^ fuel → 0 < fuel →
    ilog2_loop fuel x n = some (n + (Nat.log2 x : Int)) := by
  intro fuel
  induction fuel with
  | zero => intro x n _ h; omega
  | succ f ih =>
    intro x n hx _
    unfold ilog2_loop
    rw [Nat.shiftRight_eq_div_pow, pow_one]
    by_cases h2 : x / 2 = 0
    · have : x < 2 := by omega
      have hl : Nat.log2 x = 0 := by
        unfold Nat.log2
        simp [show ¬ x ≥ 2 by omega]
      simp [h2, hl]
    · have hge : x ≥ 2 := by omega
      have hl : Nat.log2 x = Nat.log2 (x / 2) + 1 := by
        conv_lhs => unfold Nat.log2
        simp [hge]
      have hf : 0 < f := by
        rcases Nat.eq_zero_or_pos f with h0 | h0
        · subst h0; simp at hx; omega
        · exact h0
      have hx2 : x / 2 < 2 ^ f := by
        rw [pow_succ] at hx; omega
      simp only [bne_iff_ne, ne_eq, h2, not_false_eq_true, if_true]
      rw [ih (x / 2) (n + 1) hx2 hf, hl]
      push_cast
      ring_nf

theorem ilog2_u64_eq {x : Nat} (hx : x < 2 ^ 64) : ilog2_u64 x = some (Nat.log2 x : Int) := by
  unfold ilog2_u64
  rw [ilog2_loop_eq 64 x 0 hx (by decide)]
  simp

theorem ilog2_u64_pow {k : Nat} (hk : k < 64) : ilog2_u64 (2 ^ k) = some (k : Int) := by
  rw [ilog2_u64_eq (Nat.pow_lt_pow_right (by decide) hk), Nat.log2_two_pow]

theorem ilog2_call_pow {k : Nat} (hk : k < 64) : ilog2_call (2 ^ k) = .ok (k : Int) := by
  unfold ilog2_call
  rw [ilog2_u64_pow hk]

/-! ## What validation establishes -/

theorem pow_exponent_range {k lo hi : Nat} (h1 : 2 ^ lo ≤ 2 ^ k) (h2 : 2 ^ k ≤ 2 ^ hi) :
    lo ≤ k ∧ k ≤ hi :=
  ⟨(Nat.pow_le_pow_iff_right (by decide)).1 h1, (Nat.pow_le_pow_iff_right (by decide)).1 h2⟩

theorem pow_of_range_check {v : Int} (lo hi : Nat) (h1 : ((2 ^ lo : Nat) : Int) ≤ v)
    (h2 : v ≤ ((2 ^ hi : Nat) : Int)) (hhi : hi < 64)
    (h3 : is_power_of_two_u64 (to_u64 v) = true) :
    ∃ k, lo ≤ k ∧ k ≤ hi ∧ v = ((2 ^ k : Nat) : Int) := by
  have hpos : 0 ≤ v := le_trans (by positivity) h1
  have hlt : (2 : Nat) ^ hi < 2 ^ 64 := Nat.pow_lt_pow_right (by decide) hhi
  have hv : v < 2 ^ 64 := by
    have : ((2 ^ hi : Nat) : Int) < ((2 ^ 64 : Nat) : Int) := by exact_mod_cast hlt
    have h64 : ((2 ^ 64 : Nat) : Int) = 2 ^ 64 := by norm_num
    omega
  rw [to_u64_of_nonneg hpos hv] at h3
  have hv' : v.toNat < 2 ^ 64 := by omega
  obtain ⟨k, hk⟩ := (is_power_of_two_u64_iff hv').1 h3
  have hvk : v = ((2 ^ k : Nat) : Int) := by rw [← hk]; omega
  have b1 : 2 ^ lo ≤ 2 ^ k := by rw [hvk] at h1; exact_mod_cast h1
  have b2 : 2 ^ k ≤ 2 ^ hi := by rw [hvk] at h2; exact_mod_cast h2
  obtain ⟨r1, r2⟩ := pow_exponent_range b1 b2
  exact ⟨k, r1, r2, hvk⟩

theorem valid_of_checks {cfg : Config}
    (h1 : ¬ (cfg.cache_kb < MIN_CACHE_KB ∨ cfg.cache_kb > MAX_CACHE_KB ∨
      is_power_of_two_u64 (to_u64 cfg.cache_kb) = false))
    (h2 : cfg.block_bytes = 8 ∨ cfg.block_bytes = 16 ∨
      cfg.block_bytes = 32 ∨ cfg.block_bytes = 64)
    (h3 : cfg.associativity = 1 ∨ cfg.associativity = 2 ∨
      cfg.associativity = 4 ∨ cfg.associativity = 8 ∨ cfg.associativity = 16)
    (h4 : ¬ (cfg.phys_mb < MIN_PHYS_MB ∨ cfg.phys_mb > MAX_PHYS_MB ∨
      is_power_of_two_u64 (to_u64 cfg.phys_mb) = false))
    (h5 : ¬ (cfg.os_percent.lt Double.zero = true ∨ cfg.os_percent.gt Double.hundred = true))
    (h6 : ¬ (cfg.time_slice < -1 ∨ cfg.time_slice = 0))
    (h7 : ¬ cfg.num_traces < 1) :
    ∃ a b c p, Valid cfg a b c p := by
  simp only [not_or, not_lt, gt_iff_lt, Bool.not_eq_false, not_not, Bool.not_eq_true,
    MIN_CACHE_KB, MAX_CACHE_KB, MIN_PHYS_MB, MAX_PHYS_MB] at h1 h4 h5 h6 h7
  obtain ⟨a, ha1, ha2, ha⟩ := pow_of_range_check 3 13
    (by simpa using h1.1) (by simpa using h1.2.1) (by decide) h1.2.2
  obtain ⟨p, hp1, hp2, hp⟩ := pow_of_range_check 7 12
    (by simpa using h4.1) (by simpa using h4.2.1) (by decide) h4.2.2
  have hb : ∃ b, 3 ≤ b ∧ b ≤ 6 ∧ cfg.block_bytes = ((2 ^ b : Nat) : Int) := by
    rcases h2 with e | e | e | e
    · exact ⟨3, by decide, by decide, by simp [e]⟩
    · exact ⟨4, by decide, by decide, by simp [e]⟩
    · exact ⟨5, by decide, by decide, by simp [e]⟩
    · exact ⟨6, by decide, by decide, by simp [e]⟩
  have hc : ∃ c, c ≤ 4 ∧ cfg.associativity = ((2 ^ c : Nat) : Int) := by
    rcases h3 with e | e | e | e | e
    · exact ⟨0, by decide, by simp [e]⟩
    · exact ⟨1, by decide, by simp [e]⟩
    · exact ⟨2, by decide, by simp [e]⟩
    · exact ⟨3, by decide, by simp [e]⟩
    · exact ⟨4, by decide, by simp [e]⟩
  obtain ⟨b, hb1, hb2, hb⟩ := hb
  obtain ⟨c, hc1, hc⟩ := hc
  refine ⟨a, b, c, p, ⟨ha1, ha2⟩, ⟨hb1, hb2⟩, hc1, ⟨hp1, hp2⟩, ha, hb, hc, hp, h5.1, h5.2, ?_, h7⟩
  omega

theorem validate_ok {cfg : Config} (h : validate cfg = .ok ()) :
    ∃ a b c p, Valid cfg a b c p := by
  unfold validate at h
  split_ifs at h with h1 h2 h3 h4 h5 h6 h7
  exact valid_of_checks h1 h2 h3 h4 h5 h6 h7

/-! ## `compute_results` on a validated `Config` -/

theorem u64_div_pow {m n : Nat} (h : n ≤ m) : u64_div (2 ^ m) (2 ^ n) = .ok (2 ^ (m - n)) := by
  unfold u64_div
  rw [if_neg (by positivity), Nat.pow_div h (by decide)]

theorem pow_lt_u64 {k : Nat} (h : k < 64) : 2 ^ k < 2 ^ 64 := Nat.pow_lt_pow_right (by decide) h

theorem to_u64_pow {k : Nat} (h : k < 64) : to_u64 ((2 ^ k : Nat) : Int) = 2 ^ k :=
  to_u64_natCast (pow_lt_u64 h)

theorem u64_mul_pow_1024 {k : Nat} (h : k + 10 < 64) : u64_mul (2 ^ k) 1024 = 2 ^ (k + 10) := by
  have e : 2 ^ k * 1024 = 2 ^ (k + 10) := by rw [pow_add]; norm_num
  rw [u64_mul_of_lt (by rw [e]; exact pow_lt_u64 h), e]

theorem compute_results_of_valid {cfg : Config} {a b c p : Nat} (hv : Valid cfg a b c p)
    (hn : cfg.num_traces ≤ 3) :
    ∃ r, compute_results cfg = .ok r ∧
      r.blocks_total = 2 ^ (a + 10 - b) ∧
      r.rows_total = 2 ^ (a + 10 - b - c) ∧
      r.index_bits = ((a + 10 - b - c : Nat) : Int) ∧
      r.tag_bits = ((p + 10 + c - a : Nat) : Int) ∧
      r.overhead_bytes = (2 ^ (a + 10 - b - c) * 2 ^ c * (1 + (p + 10 + c - a)) + 7) / 8 ∧
      r.impl_mem_bytes = 2 ^ (a + 10) +
        (2 ^ (a + 10 - b - c) * 2 ^ c * (1 + (p + 10 + c - a)) + 7) / 8 ∧
      r.phys_pages = 2 ^ (p + 8) ∧
      r.pte_bits = ((p + 9 : Nat) : Int) ∧
      r.pgt_total_bytes = (2 ^ 19 * cfg.num_traces.toNat * (p + 9) + 7) / 8 := by
  obtain ⟨⟨ha1, ha2⟩, ⟨hb1, hb2⟩, hc1, ⟨hp1, hp2⟩, ha, hb, hc, hp, -, -, -, hn1⟩ := hv
  have hcb : cache_bytes cfg = 2 ^ (a + 10) := by
    unfold cache_bytes
    rw [ha, to_u64_pow (by omega), u64_mul_pow_1024 (by omega)]
  have hbb : to_u64 cfg.block_bytes = 2 ^ b := by rw [hb, to_u64_pow (by omega)]
  have hw : to_u64 cfg.associativity = 2 ^ c := by rw [hc, to_u64_pow (by omega)]
  have hpb : phys_bytes cfg = 2 ^ (p + 20) := by
    unfold phys_bytes
    rw [hp, to_u64_pow (by omega), u64_mul_pow_1024 (by omega), u64_mul_pow_1024 (by omega)]
  have hd1 : u64_div (2 ^ (a + 10)) (2 ^ b) = .ok (2 ^ (a + 10 - b)) := u64_div_pow (by omega)
  have hd2 : u64_div (2 ^ (a + 10 - b)) (2 ^ c) = .ok (2 ^ (a + 10 - b - c)) :=
    u64_div_pow (by omega)
  have hl1 : ilog2_call (2 ^ (p + 20)) = .ok ((p + 20 : Nat) : Int) := ilog2_call_pow (by omega)
  have hl2 : ilog2_call (2 ^ b) = .ok (b : Int) := ilog2_call_pow (by omega)
  have hl3 : ilog2_call (2 ^ (a + 10 - b - c)) = .ok ((a + 10 - b - c : Nat) : Int) :=
    ilog2_call_pow (by omega)
  have hpp : 2 ^ (p + 20) / 4096 = 2 ^ (p + 8) := by
    rw [show (4096 : Nat) = 2 ^ 12 by norm_num, Nat.pow_div (by omega) (by decide)]
    congr 1
  have hl4 : ilog2_call (2 ^ (p + 8)) = .ok ((p + 8 : Nat) : Int) := ilog2_call_pow (by omega)
  have htag : ((p + 20 : Nat) : Int) - ((a + 10 - b - c : Nat) : Int) - (b : Int)
      = ((p + 10 + c - a : Nat) : Int) := by omega
  unfold compute_results
  simp only [hcb, hbb, hw, hpb, hd1, hd2, hl1, hl2, hl3, hl4, hpp, htag, bind, Except.bind, pure,
    Except.pure]
  rw [if_neg (by omega)]
  have hT : p + 10 + c - a ≤ 23 := by omega
  have e1 : to_u64 ((p + 10 + c - a : Nat) : Int) = p + 10 + c - a := to_u64_natCast (by omega)
  have e2 : u64_add 1 (p + 10 + c - a) = 1 + (p + 10 + c - a) := u64_add_of_lt (by omega)
  have hX : 2 ^ (a + 10 - b - c) * 2 ^ c ≤ 1048576 := by
    rw [← pow_add]
    calc 2 ^ (a + 10 - b - c + c) ≤ 2 ^ 20 := Nat.pow_le_pow_right (by decide) (by omega)
      _ = 1048576 := by norm_num
  have e3 : u64_mul (2 ^ (a + 10 - b - c)) (2 ^ c) = 2 ^ (a + 10 - b - c) * 2 ^ c :=
    u64_mul_of_lt (by omega)
  have hXT : 2 ^ (a + 10 - b - c) * 2 ^ c * (1 + (p + 10 + c - a)) ≤ 1048576 * 24 :=
    Nat.mul_le_mul hX (by omega)
  have e4 : u64_mul (2 ^ (a + 10 - b - c) * 2 ^ c) (1 + (p + 10 + c - a))
      = 2 ^ (a + 10 - b - c) * 2 ^ c * (1 + (p + 10 + c - a)) := u64_mul_of_lt (by omega)
  have e5 : u64_add (2 ^ (a + 10 - b - c) * 2 ^ c * (1 + (p + 10 + c - a))) 7
      = 2 ^ (a + 10 - b - c) * 2 ^ c * (1 + (p + 10 + c - a)) + 7 := u64_add_of_lt (by omega)
  have hA : 2 ^ (a + 10) ≤ 8388608 := by
    calc 2 ^ (a + 10) ≤ 2 ^ 23 := Nat.pow_le_pow_right (by decide) (by omega)
      _ = 8388608 := by norm_num
  have e6 : u64_add (2 ^ (a + 10))
      ((2 ^ (a + 10 - b - c) * 2 ^ c * (1 + (p + 10 + c - a)) + 7) / 8)
      = 2 ^ (a + 10) + (2 ^ (a + 10 - b - c) * 2 ^ c * (1 + (p + 10 + c - a)) + 7) / 8 :=
    u64_add_of_lt (by omega)
  have e7 : u64_mul 512 1024 = 2 ^ 19 := by decide
  have e8 : to_u64 cfg.num_traces = cfg.num_traces.toNat := to_u64_of_nonneg (by omega) (by omega)
  have hN : cfg.num_traces.toNat ≤ 3 := by omega
  have e9 : u64_mul (2 ^ 19) cfg.num_traces.toNat = 2 ^ 19 * cfg.num_traces.toNat :=
    u64_mul_of_lt (by omega)
  have e10 : to_u64 (1 + ((p + 8 : Nat) : Int)) = p + 9 := by
    rw [show (1 + ((p + 8 : Nat) : Int)) = ((p + 9 : Nat) : Int) by push_cast; ring]
    exact to_u64_natCast (by omega)
  have hNP : 2 ^ 19 * cfg.num_traces.toNat * (p + 9) ≤ 2 ^ 19 * 3 * 21 :=
    Nat.mul_le_mul (Nat.mul_le_mul le_rfl hN) (by omega)
  have e11 : u64_mul (2 ^ 19 * cfg.num_traces.toNat) (p + 9)
      = 2 ^ 19 * cfg.num_traces.toNat * (p + 9) := u64_mul_of_lt (by omega)
  have e12 : u64_add (2 ^ 19 * cfg.num_traces.toNat * (p + 9)) 7
      = 2 ^ 19 * cfg.num_traces.toNat * (p + 9) + 7 := u64_add_of_lt (by omega)
  simp only [e1, e2, e3, e4, e5, e6, e7, e8, e9, e10, e11, e12]
  refine ⟨_, rfl, rfl, rfl, rfl, rfl, rfl, rfl, rfl, ?_, rfl⟩
  show (1 : Int) + ((p + 8 : Nat) : Int) = ((p + 9 : Nat) : Int)
  push_cast; ring

/-! ## The argument loop -/

theorem parse_loop_num_traces : ∀ (n : Nat) (args : List String) (cfg cfg' : Config),
    args.length ≤ n → parse_loop args cfg = .ok cfg' → cfg.num_traces ≤ 3 →
    cfg'.num_traces ≤ 3 := by
  intro n
  induction n using Nat.strong_induction_on with
  | _ n ih =>
    intro args cfg cfg' hlen h hle
    match args, hlen with
    | [], _ =>
      simp only [parse_loop, Except.ok.injEq] at h
      rw [← h]; exact hle
    | [_], _ => simp [parse_loop] at h
    | flag :: v :: rest, hlen =>
      have hrest : rest.length < n := by simp at hlen; omega
      unfold parse_loop at h
      split_ifs at h with h1 h2 h3 h4 h5 h6 h7 h8 h9
      all_goals first
        | exact absurd h (by simp)
        | (split at h
           · exact ih _ hrest rest _ cfg' le_rfl h hle
           · exact absurd h (by simp))
        | exact ih _ hrest rest _ cfg' le_rfl h (by simp [MAX_TRACES] at h9 ⊢; omega)

theorem parse_args_ok {argv : List String} {cfg : Config} (h : parse_args argv = .ok cfg) :
    validate cfg = .ok () ∧ cfg.num_traces ≤ 3 := by
  match argv, h with
  | [], h => exact absurd h (by simp [parse_args])
  | [_], h => exact absurd h (by simp [parse_args])
  | _ :: arg :: args, h =>
    simp only [parse_args] at h
    split at h
    · exact absurd h (by simp)
    · rename_i cfg0 hloop
      split at h
      · exact absurd h (by simp)
      · rename_i hval
        simp only [Except.ok.injEq] at h
        subst h
        exact ⟨hval, parse_loop_num_traces _ _ _ _ le_rfl hloop (by decide)⟩

theorem accepted_valid {cfg : Config} (h : Accepted cfg) :
    ∃ a b c p, Valid cfg a b c p ∧ cfg.num_traces ≤ 3 := by
  obtain ⟨argv, h⟩ := h
  obtain ⟨hval, hn⟩ := parse_args_ok h
  obtain ⟨a, b, c, p, hv⟩ := validate_ok hval
  exact ⟨a, b, c, p, hv, hn⟩

theorem valid_phys_bytes {cfg : Config} {a b c p : Nat} (hv : Valid cfg a b c p) :
    phys_bytes cfg = 2 ^ (p + 20) := by
  have hp := hv.p_range
  unfold phys_bytes
  rw [hv.phys_mb_eq, to_u64_pow (by omega), u64_mul_pow_1024 (by omega),
    u64_mul_pow_1024 (by omega)]

theorem valid_block_bytes {cfg : Config} {a b c p : Nat} (hv : Valid cfg a b c p) :
    to_u64 cfg.block_bytes = 2 ^ b := by
  have hb := hv.b_range
  rw [hv.block_bytes_eq, to_u64_pow (by omega)]

theorem pow_mul_1024 (k : Nat) : 2 ^ k * 1024 = 2 ^ (k + 10) := by
  rw [pow_add]; norm_num

theorem add_seven_div_eight (x : Nat) : (((x + 7) / 8 : Nat) : Int) = ceilDiv (x : Int) 8 := by
  unfold ceilDiv
  split_ifs with h <;> omega

/-! ## The checks of `validate` and the rules of the specification -/

theorem isPow2_iff_check {v : Int} (h0 : 0 ≤ v) (h1 : v < 2 ^ 64) :
    is_power_of_two_u64 (to_u64 v) = true ↔ IsPow2 v := by
  rw [to_u64_of_nonneg h0 h1, is_power_of_two_u64_iff (by omega)]
  unfold IsPow2
  constructor
  · rintro ⟨k, hk⟩
    refine ⟨k, ?_⟩
    have : v = ((2 ^ k : Nat) : Int) := by rw [← hk]; omega
    rw [this]; push_cast; rfl
  · rintro ⟨k, hk⟩
    refine ⟨k, ?_⟩
    have : v = ((2 ^ k : Nat) : Int) := by rw [hk]; push_cast; rfl
    rw [this, Int.toNat_natCast]

theorem cache_rule_iff (cfg : Config) :
    (cfg.cache_kb < MIN_CACHE_KB ∨ cfg.cache_kb > MAX_CACHE_KB ∨
      is_power_of_two_u64 (to_u64 cfg.cache_kb) = false) ↔
    ¬ (8 ≤ cfg.cache_kb ∧ cfg.cache_kb ≤ 8192 ∧ IsPow2 cfg.cache_kb) := by
  simp only [MIN_CACHE_KB, MAX_CACHE_KB]
  by_cases hr : 8 ≤ cfg.cache_kb ∧ cfg.cache_kb ≤ 8192
  · have := @isPow2_iff_check cfg.cache_kb (by omega) (by omega)
    rw [← this]
    cases hpow : is_power_of_two_u64 (to_u64 cfg.cache_kb)
    all_goals simp
    all_goals omega
  · constructor
    · intro _ hc; exact hr ⟨hc.1, hc.2.1⟩
    · intro _; omega

theorem phys_rule_iff (cfg : Config) :
    (cfg.phys_mb < MIN_PHYS_MB ∨ cfg.phys_mb > MAX_PHYS_MB ∨
      is_power_of_two_u64 (to_u64 cfg.phys_mb) = false) ↔
    ¬ (128 ≤ cfg.phys_mb ∧ cfg.phys_mb ≤ 4096 ∧ IsPow2 cfg.phys_mb) := by
  simp only [MIN_PHYS_MB, MAX_PHYS_MB]
  by_cases hr : 128 ≤ cfg.phys_mb ∧ cfg.phys_mb ≤ 4096
  · have := @isPow2_iff_check cfg.phys_mb (by omega) (by omega)
    rw [← this]
    cases hpow : is_power_of_two_u64 (to_u64 cfg.phys_mb)
    all_goals simp
    all_goals omega
  · constructor
    · intro _ hc; exact hr ⟨hc.1, hc.2.1⟩
    · intro _; omega

theorem validate_ne_cache_rule {cfg : Config}
    (h : ¬ (cfg.cache_kb < MIN_CACHE_KB ∨ cfg.cache_kb > MAX_CACHE_KB ∨
      is_power_of_two_u64 (to_u64 cfg.cache_kb) = false)) :
    validate cfg ≠ .error .cache_size_rule := by
  unfold validate u64_div u64_mod
  rw [if_neg h]
  split_ifs
  all_goals simp
  all_goals split_ifs
  all_goals simp

theorem parse_args_eq_validate (prog arg : String) (args : List String) {cfg : Config}
    (h : parse_loop (arg :: args) Config.initial = .ok cfg) :
    parse_args (prog :: arg :: args) = (validate cfg).map fun _ => cfg := by
  simp only [parse_args, h]
  cases validate cfg <;> rfl

theorem os_rule_iff (x : Double) (hx : x ≠ .nan) :
    (x.lt Double.zero = true ∨ x.gt Double.hundred = true) ↔ ¬ x.in_0_100 := by
  cases x with
  | nan => exact absurd rfl hx
  | inf n => cases n <;> simp [Double.lt, Double.gt, Double.zero, Double.hundred, Double.in_0_100]
  | fin n m e =>
    have hpos : 0 < 2 ^ e.toNat := Nat.two_pow_pos _
    have hpos' : 0 < 2 ^ (-e).toNat := Nat.two_pow_pos _
    simp only [Double.lt, Double.gt, Double.zero, Double.hundred, Double.in_0_100,
      Double.scaled, decide_eq_true_eq]
    by_cases he : 0 ≤ e
    · have m1 : min e 0 = 0 := min_eq_right he
      have m2 : min 0 e = 0 := min_eq_left he
      rw [m1, m2, if_pos he]
      simp only [sub_zero, Int.toNat_zero, pow_zero, mul_one, zero_mul, Nat.cast_zero,
        Bool.false_eq_true, if_false]
      have hm : m ≤ m * 2 ^ e.toNat := Nat.le_mul_of_pos_right m hpos
      have hz : m * 2 ^ e.toNat = 0 ↔ m = 0 := by
        constructor
        · intro h; omega
        · intro h; simp [h]
      cases n
      · simp only [Bool.false_eq_true, if_false, true_or, true_and, not_le]
        constructor
        · rintro (h | h)
          · omega
          · exact_mod_cast h
        · intro h; right; exact_mod_cast h
      · simp only [if_true]
        constructor
        · rintro (h | h)
          · intro hc
            rcases hc.1 with h1 | h1
            · exact absurd h1 (by decide)
            · rw [h1] at h; simp at h
          · omega
        · intro h
          left
          by_contra hc
          apply h
          have : m * 2 ^ e.toNat = 0 := by omega
          exact ⟨Or.inr (hz.1 this), by omega⟩
    · have he' : e < 0 := not_le.1 he
      have m1 : min e 0 = e := min_eq_left he'.le
      have m2 : min 0 e = e := min_eq_right he'.le
      rw [m1, m2, if_neg he]
      simp only [sub_self, Int.toNat_zero, pow_zero, mul_one, zero_mul, Nat.cast_zero,
        Bool.false_eq_true, if_false, zero_sub]
      have hm : m ≤ m * 2 ^ (-e).toNat := Nat.le_mul_of_pos_right m hpos'
      have hz : m * 2 ^ (-e).toNat = 0 ↔ m = 0 := by
        constructor
        · intro h; omega
        · intro h; simp [h]
      cases n
      · simp only [Bool.false_eq_true, if_false, true_or, true_and, not_le]
        constructor
        · rintro (h | h)
          · omega
          · exact_mod_cast h
        · intro h; right; exact_mod_cast h
      · simp only [if_true]
        constructor
        · rintro (h | h)
          · intro hc
            rcases hc.1 with h1 | h1
            · exact absurd h1 (by decide)
            · rw [h1] at h; simp at h
          · omega
        · intro h
          left
          by_contra hc
          apply h
          have : m = 0 := by omega
          exact ⟨Or.inr this, by omega⟩

theorem is_power_of_two_u64_pow {k : Nat} (hk : k < 64) : is_power_of_two_u64 (2 ^ k) = true :=
  (is_power_of_two_u64_iff (pow_lt_u64 hk)).2 ⟨k, rfl⟩

theorem isPow2_natCast_pow (k : Nat) : IsPow2 ((2 ^ k : Nat) : Int) :=
  ⟨k, by push_cast; rfl⟩

theorem validate_of_valid {cfg : Config} {a b c p : Nat} (hv : Valid cfg a b c p) :
    validate cfg = .ok () := by
  obtain ⟨⟨ha1, ha2⟩, ⟨hb1, hb2⟩, hc1, ⟨hp1, hp2⟩, ha, hb, hc, hp, ho1, ho2, hts, hn1⟩ := hv
  have ra : (8 : Int) ≤ ((2 ^ a : Nat) : Int) ∧ ((2 ^ a : Nat) : Int) ≤ 8192 := by
    have h1 : 2 ^ 3 ≤ 2 ^ a := Nat.pow_le_pow_right (by decide) ha1
    have h2 : 2 ^ a ≤ 2 ^ 13 := Nat.pow_le_pow_right (by decide) ha2
    norm_num at h1 h2
    omega
  have rp : (128 : Int) ≤ ((2 ^ p : Nat) : Int) ∧ ((2 ^ p : Nat) : Int) ≤ 4096 := by
    have h1 : 2 ^ 7 ≤ 2 ^ p := Nat.pow_le_pow_right (by decide) hp1
    have h2 : 2 ^ p ≤ 2 ^ 12 := Nat.pow_le_pow_right (by decide) hp2
    norm_num at h1 h2
    omega
  have c1 : ¬ (cfg.cache_kb < MIN_CACHE_KB ∨ cfg.cache_kb > MAX_CACHE_KB ∨
      is_power_of_two_u64 (to_u64 cfg.cache_kb) = false) := by
    rw [cache_rule_iff, not_not, ha]
    exact ⟨ra.1, ra.2, isPow2_natCast_pow a⟩
  have c2 : ¬ ¬ (cfg.block_bytes = 8 ∨ cfg.block_bytes = 16 ∨
      cfg.block_bytes = 32 ∨ cfg.block_bytes = 64) := by
    rw [not_not, hb]
    have : b = 3 ∨ b = 4 ∨ b = 5 ∨ b = 6 := by omega
    rcases this with e | e | e | e <;> subst e <;> simp
  have c3 : ¬ ¬ (cfg.associativity = 1 ∨ cfg.associativity = 2 ∨
      cfg.associativity = 4 ∨ cfg.associativity = 8 ∨ cfg.associativity = 16) := by
    rw [not_not, hc]
    have : c = 0 ∨ c = 1 ∨ c = 2 ∨ c = 3 ∨ c = 4 := by omega
    rcases this with e | e | e | e | e <;> subst e <;> simp
  have c4 : ¬ (cfg.phys_mb < MIN_PHYS_MB ∨ cfg.phys_mb > MAX_PHYS_MB ∨
      is_power_of_two_u64 (to_u64 cfg.phys_mb) = false) := by
    rw [phys_rule_iff, not_not, hp]
    exact ⟨rp.1, rp.2, isPow2_natCast_pow p⟩
  have c5 : ¬ (cfg.os_percent.lt Double.zero = true ∨ cfg.os_percent.gt Double.hundred = true) := by
    rw [ho1, ho2]; simp
  have c6 : ¬ (cfg.time_slice < -1 ∨ cfg.time_slice = 0) := by omega
  have c7 : ¬ cfg.num_traces < 1 := by omega
  have e1 : u64_mul (to_u64 cfg.cache_kb) 1024 = 2 ^ (a + 10) := by
    rw [ha, to_u64_pow (by omega), u64_mul_pow_1024 (by omega)]
  have e2 : to_u64 cfg.block_bytes = 2 ^ b := by rw [hb, to_u64_pow (by omega)]
  have e3 : to_u64 cfg.associativity = 2 ^ c := by rw [hc, to_u64_pow (by omega)]
  have e4 : u64_mod (2 ^ (a + 10 - b)) (2 ^ c) = .ok 0 := by
    unfold u64_mod
    rw [if_neg (by positivity)]
    have : 2 ^ (a + 10 - b) = 2 ^ (a + 10 - b - c) * 2 ^ c := by
      rw [← pow_add]; congr 1; omega
    rw [this, Nat.mul_mod_left]
  have e5 : u64_div (2 ^ (a + 10)) (2 ^ b) = .ok (2 ^ (a + 10 - b)) := u64_div_pow (by omega)
  have e6 : u64_div (2 ^ (a + 10 - b)) (2 ^ c) = .ok (2 ^ (a + 10 - b - c)) :=
    u64_div_pow (by omega)
  have e7 : is_power_of_two_u64 (2 ^ (a + 10 - b - c)) = true :=
    is_power_of_two_u64_pow (by omega)
  unfold validate
  rw [if_neg c1, if_neg c2, if_neg c3, if_neg c4, if_neg c5, if_neg c6, if_neg c7, e1, e2, e3]
  simp only [e5, e4, e6, e7, ne_eq, not_true_eq_false, if_false, Bool.true_eq_false]

theorem validate_ok_iff (cfg : Config) :
    validate cfg = .ok () ↔ ∃ a b c p, Valid cfg a b c p :=
  ⟨validate_ok, fun ⟨_, _, _, _, hv⟩ => validate_of_valid hv⟩

theorem validate_error_first_violated {cfg : Config} {raw : RawInputs} {e : Failure}
    (hh : cfg.holds raw) (hlen : raw.traceIdentifiers.length ≤ 3)
    (hnan : raw.osMemoryPercent ≠ .nan) (he : validate cfg = .error e) :
    ∃ v, e.rule = some v ∧ FirstViolated raw v := by
  obtain ⟨k1, k2, k3, -, k5, k6, k7, -, k9⟩ := hh
  have v1 : raw.violates .InvalidCacheSize ↔
      (cfg.cache_kb < MIN_CACHE_KB ∨ cfg.cache_kb > MAX_CACHE_KB ∨
        is_power_of_two_u64 (to_u64 cfg.cache_kb) = false) := by
    unfold RawInputs.violates; rw [← k1]; exact (cache_rule_iff cfg).symm
  have v2 : raw.violates .InvalidBlockSize ↔
      ¬ (cfg.block_bytes = 8 ∨ cfg.block_bytes = 16 ∨ cfg.block_bytes = 32 ∨
        cfg.block_bytes = 64) := by
    unfold RawInputs.violates; rw [← k2]
  have v3 : raw.violates .InvalidAssociativity ↔
      ¬ (cfg.associativity = 1 ∨ cfg.associativity = 2 ∨ cfg.associativity = 4 ∨
        cfg.associativity = 8 ∨ cfg.associativity = 16) := by
    unfold RawInputs.violates; rw [← k3]
  have v4 : raw.violates .InvalidPhysicalMemory ↔
      (cfg.phys_mb < MIN_PHYS_MB ∨ cfg.phys_mb > MAX_PHYS_MB ∨
        is_power_of_two_u64 (to_u64 cfg.phys_mb) = false) := by
    unfold RawInputs.violates; rw [← k5]; exact (phys_rule_iff cfg).symm
  have v5 : raw.violates .InvalidOsPercent ↔
      (cfg.os_percent.lt Double.zero = true ∨ cfg.os_percent.gt Double.hundred = true) := by
    unfold RawInputs.violates; rw [← k6]
    exact (os_rule_iff cfg.os_percent (by rw [k6]; exact hnan)).symm
  have v6 : raw.violates .InvalidTimeSlice ↔ (cfg.time_slice < -1 ∨ cfg.time_slice = 0) := by
    unfold RawInputs.violates; rw [← k7]; omega
  have v7 : raw.violates .InvalidTraceCount ↔ cfg.num_traces < 1 := by
    unfold RawInputs.violates; omega
  have hcopy := he
  unfold validate at he
  by_cases c1 : (cfg.cache_kb < MIN_CACHE_KB ∨ cfg.cache_kb > MAX_CACHE_KB ∨
        is_power_of_two_u64 (to_u64 cfg.cache_kb) = false)
  · rw [if_pos c1, Except.error.injEq] at he; subst he
    refine ⟨.InvalidCacheSize, rfl, v1.2 c1, ?_⟩
    intro w hw
    cases w <;> exact absurd hw (by decide)
  rw [if_neg c1] at he
  by_cases c2 : (cfg.block_bytes = 8 ∨ cfg.block_bytes = 16 ∨ cfg.block_bytes = 32 ∨
        cfg.block_bytes = 64)
  swap
  · rw [if_pos c2, Except.error.injEq] at he; subst he
    refine ⟨.InvalidBlockSize, rfl, v2.2 c2, ?_⟩
    intro w hw
    cases w <;> first | exact absurd hw (by decide) | exact mt v1.1 c1
  rw [if_neg (not_not.2 c2)] at he
  by_cases c3 : (cfg.associativity = 1 ∨ cfg.associativity = 2 ∨ cfg.associativity = 4 ∨
        cfg.associativity = 8 ∨ cfg.associativity = 16)
  swap
  · rw [if_pos c3, Except.error.injEq] at he; subst he
    refine ⟨.InvalidAssociativity, rfl, v3.2 c3, ?_⟩
    intro w hw
    cases w <;> first
      | exact absurd hw (by decide) | exact mt v1.1 c1 | exact mt v2.1 (not_not.2 c2)
  rw [if_neg (not_not.2 c3)] at he
  by_cases c4 : (cfg.phys_mb < MIN_PHYS_MB ∨ cfg.phys_mb > MAX_PHYS_MB ∨
        is_power_of_two_u64 (to_u64 cfg.phys_mb) = false)
  · rw [if_pos c4, Except.error.injEq] at he; subst he
    refine ⟨.InvalidPhysicalMemory, rfl, v4.2 c4, ?_⟩
    intro w hw
    cases w <;> first
      | exact absurd hw (by decide) | exact mt v1.1 c1 | exact mt v2.1 (not_not.2 c2)
      | exact mt v3.1 (not_not.2 c3)
  rw [if_neg c4] at he
  by_cases c5 : (cfg.os_percent.lt Double.zero = true ∨ cfg.os_percent.gt Double.hundred = true)
  · rw [if_pos c5, Except.error.injEq] at he; subst he
    refine ⟨.InvalidOsPercent, rfl, v5.2 c5, ?_⟩
    intro w hw
    cases w <;> first
      | exact absurd hw (by decide) | exact mt v1.1 c1 | exact mt v2.1 (not_not.2 c2)
      | exact mt v3.1 (not_not.2 c3) | exact mt v4.1 c4
  rw [if_neg c5] at he
  by_cases c6 : (cfg.time_slice < -1 ∨ cfg.time_slice = 0)
  · rw [if_pos c6, Except.error.injEq] at he; subst he
    refine ⟨.InvalidTimeSlice, rfl, v6.2 c6, ?_⟩
    intro w hw
    cases w <;> first
      | exact absurd hw (by decide) | exact mt v1.1 c1 | exact mt v2.1 (not_not.2 c2)
      | exact mt v3.1 (not_not.2 c3) | exact mt v4.1 c4 | exact mt v5.1 c5
  rw [if_neg c6] at he
  by_cases c7 : cfg.num_traces < 1
  · rw [if_pos c7, Except.error.injEq] at he; subst he
    refine ⟨.InvalidTraceCount, rfl, v7.2 c7, ?_⟩
    intro w hw
    cases w <;> first
      | exact absurd hw (by decide) | exact mt v1.1 c1 | exact mt v2.1 (not_not.2 c2)
      | exact mt v3.1 (not_not.2 c3) | exact mt v4.1 c4 | exact mt v5.1 c5
      | exact mt v6.1 c6
  obtain ⟨a, b, c, p, hv⟩ := valid_of_checks c1 c2 c3 c4 c5 c6 c7
  rw [validate_of_valid hv] at hcopy
  exact absurd hcopy (by simp)

/-! ## The argument loop and the front end of the specification -/

theorem spec_tokenize_loop_length : ∀ (n : Nat) (args : List String) (raw raw' : RawInputs),
    args.length ≤ n → spec_tokenize_loop args raw = some raw' →
    raw.traceIdentifiers.length ≤ raw'.traceIdentifiers.length := by
  intro n
  induction n using Nat.strong_induction_on with
  | _ n ih =>
    intro args raw raw' hlen h
    match args, hlen with
    | [], _ =>
      simp only [spec_tokenize_loop, Option.some.injEq] at h
      rw [← h]
    | [_], _ => simp [spec_tokenize_loop] at h
    | flag :: v :: rest, hlen =>
      have hrest : rest.length < n := by simp at hlen; omega
      unfold spec_tokenize_loop at h
      by_cases f1 : flag = "-s"
      · rw [if_pos f1] at h
        obtain ⟨x, -, hx⟩ := Option.bind_eq_some.1 h
        have := ih _ hrest rest _ raw' le_rfl hx
        exact this
      rw [if_neg f1] at h
      by_cases f2 : flag = "-b"
      · rw [if_pos f2] at h
        obtain ⟨x, -, hx⟩ := Option.bind_eq_some.1 h
        have := ih _ hrest rest _ raw' le_rfl hx
        exact this
      rw [if_neg f2] at h
      by_cases f3 : flag = "-a"
      · rw [if_pos f3] at h
        obtain ⟨x, -, hx⟩ := Option.bind_eq_some.1 h
        have := ih _ hrest rest _ raw' le_rfl hx
        exact this
      rw [if_neg f3] at h
      by_cases f4 : flag = "-r"
      · rw [if_pos f4] at h
        obtain ⟨x, -, hx⟩ := Option.bind_eq_some.1 h
        have := ih _ hrest rest _ raw' le_rfl hx
        exact this
      rw [if_neg f4] at h
      by_cases f5 : flag = "-p"
      · rw [if_pos f5] at h
        obtain ⟨x, -, hx⟩ := Option.bind_eq_some.1 h
        have := ih _ hrest rest _ raw' le_rfl hx
        exact this
      rw [if_neg f5] at h
      by_cases f6 : flag = "-u"
      · rw [if_pos f6] at h
        obtain ⟨x, -, hx⟩ := Option.bind_eq_some.1 h
        have := ih _ hrest rest _ raw' le_rfl hx
        exact this
      rw [if_neg f6] at h
      by_cases f7 : flag = "-n"
      · rw [if_pos f7] at h
        obtain ⟨x, -, hx⟩ := Option.bind_eq_some.1 h
        have := ih _ hrest rest _ raw' le_rfl hx
        exact this
      rw [if_neg f7] at h
      by_cases f8 : flag = "-f"
      · rw [if_pos f8] at h
        have := ih _ hrest rest _ raw' le_rfl h
        simp only [List.length_append, List.length_singleton] at this
        omega
      rw [if_neg f8] at h
      exact absurd h (by simp)

theorem parse_loop_refines : ∀ (n : Nat) (args : List String) (cfg : Config)
    (raw raw' : RawInputs), args.length ≤ n → cfg.holds raw →
    raw.traceIdentifiers.length ≤ 3 → spec_tokenize_loop args raw = some raw' →
    (raw'.traceIdentifiers.length ≤ 3 →
      ∃ cfg', parse_loop args cfg = .ok cfg' ∧ cfg'.holds raw') ∧
    (3 < raw'.traceIdentifiers.length → parse_loop args cfg = .error .too_many_traces) := by
  intro n
  induction n using Nat.strong_induction_on with
  | _ n ih =>
    intro args cfg raw raw' hlen hh h3 h
    match args, hlen with
    | [], _ =>
      simp only [spec_tokenize_loop, Option.some.injEq] at h
      subst h
      exact ⟨fun _ => ⟨cfg, rfl, hh⟩, fun hc => absurd hc (by omega)⟩
    | [_], _ => simp [spec_tokenize_loop] at h
    | flag :: v :: rest, hlen =>
      have hrest : rest.length < n := by simp at hlen; omega
      obtain ⟨k1, k2, k3, k4, k5, k6, k7, k8, k9⟩ := hh
      unfold spec_tokenize_loop at h
      unfold parse_loop
      by_cases f1 : flag = "-s"
      · rw [if_pos f1] at h ⊢
        obtain ⟨x, hx, hr⟩ := Option.bind_eq_some.1 h
        rw [hx]
        exact ih _ hrest rest _ { raw with cacheSizeKB := x } raw' le_rfl
          ⟨rfl, k2, k3, k4, k5, k6, k7, k8, k9⟩ h3 hr
      rw [if_neg f1] at h ⊢
      by_cases f2 : flag = "-b"
      · rw [if_pos f2] at h ⊢
        obtain ⟨x, hx, hr⟩ := Option.bind_eq_some.1 h
        rw [hx]
        exact ih _ hrest rest _ { raw with blockSizeBytes := x } raw' le_rfl
          ⟨k1, rfl, k3, k4, k5, k6, k7, k8, k9⟩ h3 hr
      rw [if_neg f2] at h ⊢
      by_cases f3 : flag = "-a"
      · rw [if_pos f3] at h ⊢
        obtain ⟨x, hx, hr⟩ := Option.bind_eq_some.1 h
        rw [hx]
        exact ih _ hrest rest _ { raw with associativity := x } raw' le_rfl
          ⟨k1, k2, rfl, k4, k5, k6, k7, k8, k9⟩ h3 hr
      rw [if_neg f3] at h ⊢
      by_cases f4 : flag = "-r"
      · rw [if_pos f4] at h ⊢
        obtain ⟨x, hx, hr⟩ := Option.bind_eq_some.1 h
        rw [hx]
        exact ih _ hrest rest _ { raw with replacementPolicy := x } raw' le_rfl
          ⟨k1, k2, k3, rfl, k5, k6, k7, k8, k9⟩ h3 hr
      rw [if_neg f4] at h ⊢
      by_cases f5 : flag = "-p"
      · rw [if_pos f5] at h ⊢
        obtain ⟨x, hx, hr⟩ := Option.bind_eq_some.1 h
        rw [hx]
        exact ih _ hrest rest _ { raw with physicalMemoryMB := x } raw' le_rfl
          ⟨k1, k2, k3, k4, rfl, k6, k7, k8, k9⟩ h3 hr
      rw [if_neg f5] at h ⊢
      by_cases f6 : flag = "-u"
      · rw [if_pos f6] at h ⊢
        obtain ⟨x, hx, hr⟩ := Option.bind_eq_some.1 h
        rw [hx]
        exact ih _ hrest rest _ { raw with osMemoryPercent := x } raw' le_rfl
          ⟨k1, k2, k3, k4, k5, rfl, k7, k8, k9⟩ h3 hr
      rw [if_neg f6] at h ⊢
      by_cases f7 : flag = "-n"
      · rw [if_pos f7] at h ⊢
        obtain ⟨x, hx, hr⟩ := Option.bind_eq_some.1 h
        rw [hx]
        exact ih _ hrest rest _ { raw with timeSlice := x } raw' le_rfl
          ⟨k1, k2, k3, k4, k5, k6, rfl, k8, k9⟩ h3 hr
      rw [if_neg f7] at h ⊢
      by_cases f8 : flag = "-f"
      · rw [if_pos f8] at h ⊢
        have hmono := spec_tokenize_loop_length _ rest _ raw' le_rfl h
        simp only [List.length_append, List.length_singleton] at hmono
        by_cases hfull : cfg.num_traces ≥ MAX_TRACES
        · rw [if_pos hfull]
          simp only [MAX_TRACES] at hfull
          exact ⟨fun hc => absurd hc (by omega), fun _ => rfl⟩
        · rw [if_neg hfull]
          simp only [MAX_TRACES] at hfull
          refine ih _ hrest rest _
            { raw with traceIdentifiers := raw.traceIdentifiers ++ [v] } raw' le_rfl
            ⟨k1, k2, k3, k4, k5, k6, k7, ?_, ?_⟩ ?_ h
          · show cfg.traces ++ [v] = raw.traceIdentifiers ++ [v]
            rw [k8]
          · show cfg.num_traces + 1 = ((raw.traceIdentifiers ++ [v]).length : Int)
            rw [k9]; simp
          · show (raw.traceIdentifiers ++ [v]).length ≤ 3
            simp only [List.length_append, List.length_singleton]
            omega
      rw [if_neg f8] at h
      exact absurd h (by simp)

theorem initial_holds : Config.initial.holds RawInputs.initial :=
  ⟨rfl, rfl, rfl, rfl, rfl, rfl, rfl, rfl, rfl⟩

/-! ## Lemmas for the later claims -/

theorem valid_cache_bytes {cfg : Config} {a b c p : Nat} (hv : Valid cfg a b c p) :
    cache_bytes cfg = 2 ^ (a + 10) := by
  have ha := hv.a_range
  unfold cache_bytes
  rw [hv.cache_kb_eq, to_u64_pow (by omega), u64_mul_pow_1024 (by omega)]

theorem pow_le_of_le {k n : Nat} (h : k ≤ n) : 2 ^ k ≤ 2 ^ n :=
  Nat.pow_le_pow_right (by decide) h

theorem log_natCast_pow (k : Nat) : Nat.log 2 (((2 ^ k : Nat) : Int)).toNat = k := by
  rw [Int.toNat_natCast, Nat.log_pow (by decide)]

theorem valid_cache_bytes_exact {cfg : Config} {a b c p : Nat} (hv : Valid cfg a b c p) :
    cfg.cache_kb * 1024 = ((2 ^ (a + 10) : Nat) : Int) ∧ 2 ^ (a + 10) ≤ 8388608 := by
  have ha := hv.a_range
  constructor
  · rw [hv.cache_kb_eq, ← pow_mul_1024]; push_cast; ring
  · calc 2 ^ (a + 10) ≤ 2 ^ 23 := Nat.pow_le_pow_right (by decide) (by omega)
      _ = 8388608 := by norm_num

theorem valid_phys_bytes_exact {cfg : Config} {a b c p : Nat} (hv : Valid cfg a b c p) :
    cfg.phys_mb * 1024 * 1024 = ((2 ^ (p + 20) : Nat) : Int) ∧ 2 ^ (p + 20) ≤ 4294967296 := by
  have hp := hv.p_range
  constructor
  · rw [hv.phys_mb_eq, show p + 20 = p + 10 + 10 by omega, ← pow_mul_1024, ← pow_mul_1024]
    push_cast; ring
  · calc 2 ^ (p + 20) ≤ 2 ^ 32 := Nat.pow_le_pow_right (by decide) (by omega)
      _ = 4294967296 := by norm_num

theorem valid_overhead_bits {cfg : Config} {a b c p : Nat} (hv : Valid cfg a b c p)
    {r : Results} (h2 : r.rows_total = 2 ^ (a + 10 - b - c))
    (h4 : r.tag_bits = ((p + 10 + c - a : Nat) : Int)) :
    (r.rows_total : Int) * cfg.associativity * (1 + r.tag_bits)
      = ((2 ^ (a + 10 - b - c) * 2 ^ c * (1 + (p + 10 + c - a)) : Nat) : Int) ∧
    2 ^ (a + 10 - b - c) * 2 ^ c * (1 + (p + 10 + c - a)) ≤ 25165824 := by
  obtain ⟨⟨ha1, ha2⟩, ⟨hb1, hb2⟩, hc1, ⟨hp1, hp2⟩, -, -, hc, -⟩ := hv
  constructor
  · rw [h2, h4, hc]; push_cast; ring
  · have hX : 2 ^ (a + 10 - b - c) * 2 ^ c ≤ 1048576 := by
      rw [← pow_add]
      calc 2 ^ (a + 10 - b - c + c) ≤ 2 ^ 20 := Nat.pow_le_pow_right (by decide) (by omega)
        _ = 1048576 := by norm_num
    calc 2 ^ (a + 10 - b - c) * 2 ^ c * (1 + (p + 10 + c - a)) ≤ 1048576 * 24 :=
          Nat.mul_le_mul hX (by omega)
      _ = 25165824 := by norm_num

theorem valid_page_table_bits {cfg : Config} {a b c p : Nat} (hv : Valid cfg a b c p)
    (hn : cfg.num_traces ≤ 3) {r : Results} (h8 : r.pte_bits = ((p + 9 : Nat) : Int)) :
    512 * 1024 * cfg.num_traces * r.pte_bits
      = ((2 ^ 19 * cfg.num_traces.toNat * (p + 9) : Nat) : Int) ∧
    2 ^ 19 * cfg.num_traces.toNat * (p + 9) ≤ 33030144 := by
  have hp := hv.p_range
  have hn1 := hv.traces_pos
  obtain ⟨n, hn'⟩ : ∃ n : Nat, cfg.num_traces = (n : Int) :=
    ⟨cfg.num_traces.toNat, (Int.toNat_of_nonneg (by omega)).symm⟩
  rw [hn', Int.toNat_natCast, h8]
  constructor
  · push_cast; ring
  · have hN : n ≤ 3 := by omega
    calc 2 ^ 19 * n * (p + 9) ≤ 2 ^ 19 * 3 * 21 :=
          Nat.mul_le_mul (Nat.mul_le_mul le_rfl hN) (by omega)
      _ = 33030144 := by norm_num

theorem valid_no_wrap {cfg : Config} {a b c p : Nat} (hv : Valid cfg a b c p)
    (hn : cfg.num_traces ≤ 3) {r : Results}
    (h2 : r.rows_total = 2 ^ (a + 10 - b - c))
    (h3 : r.index_bits = ((a + 10 - b - c : Nat) : Int))
    (h4 : r.tag_bits = ((p + 10 + c - a : Nat) : Int))
    (h5 : r.overhead_bytes = (2 ^ (a + 10 - b - c) * 2 ^ c * (1 + (p + 10 + c - a)) + 7) / 8)
    (h8 : r.pte_bits = ((p + 9 : Nat) : Int)) :
    ((cache_bytes cfg : Int) = cfg.cache_kb * 1024 ∧ cfg.cache_kb * 1024 < 2 ^ 64) ∧
    ((phys_bytes cfg : Int) = cfg.phys_mb * 1024 * 1024 ∧
      cfg.phys_mb * 1024 * 1024 ≤ 2 ^ 32) ∧
    (r.rows_total : Int) * cfg.associativity * (1 + r.tag_bits) + 7 < 2 ^ 64 ∧
    cfg.cache_kb * 1024 + (r.overhead_bytes : Int) < 2 ^ 64 ∧
    512 * 1024 * cfg.num_traces * r.pte_bits + 7 < 2 ^ 64 ∧
    (INT32_MIN ≤ r.tag_bits ∧ r.tag_bits ≤ INT32_MAX) ∧
    (INT32_MIN ≤ r.index_bits ∧ r.index_bits ≤ INT32_MAX) ∧
    (INT32_MIN ≤ r.pte_bits ∧ r.pte_bits ≤ INT32_MAX) := by
  have hcb := valid_cache_bytes hv
  have hpb := valid_phys_bytes hv
  obtain ⟨eA, hA⟩ := valid_cache_bytes_exact hv
  obtain ⟨eP, hP⟩ := valid_phys_bytes_exact hv
  obtain ⟨eX, hX⟩ := valid_overhead_bits hv h2 h4
  obtain ⟨eN, hN⟩ := valid_page_table_bits hv hn h8
  obtain ⟨⟨ha1, ha2⟩, ⟨hb1, hb2⟩, hc1, ⟨hp1, hp2⟩, -⟩ := hv
  have hO : r.overhead_bytes ≤ 25165824 := by rw [h5]; omega
  rw [hcb, hpb, eA, eP, eX, eN, h3, h4, h8]
  simp only [INT32_MIN, INT32_MAX]
  clear hcb hpb eA eP eX eN h2 h3 h4 h5 h8
  refine ⟨⟨trivial, ?_⟩, ⟨trivial, ?_⟩, ?_, ?_, ?_, ⟨?_, ?_⟩, ⟨?_, ?_⟩, ⟨?_, ?_⟩⟩
  all_goals omega

theorem valid_exact_fields {cfg : Config} {a b c p : Nat} (hv : Valid cfg a b c p)
    (hn : cfg.num_traces ≤ 3) {r : Results}
    (h1 : r.blocks_total = 2 ^ (a + 10 - b))
    (h2 : r.rows_total = 2 ^ (a + 10 - b - c))
    (h4 : r.tag_bits = ((p + 10 + c - a : Nat) : Int))
    (h5 : r.overhead_bytes = (2 ^ (a + 10 - b - c) * 2 ^ c * (1 + (p + 10 + c - a)) + 7) / 8)
    (h6 : r.impl_mem_bytes = 2 ^ (a + 10) +
        (2 ^ (a + 10 - b - c) * 2 ^ c * (1 + (p + 10 + c - a)) + 7) / 8)
    (h7 : r.phys_pages = 2 ^ (p + 8))
    (h8 : r.pte_bits = ((p + 9 : Nat) : Int))
    (h9 : r.pgt_total_bytes = (2 ^ 19 * cfg.num_traces.toNat * (p + 9) + 7) / 8) :
    (r.blocks_total : Int) = cfg.cache_kb * 1024 / cfg.block_bytes ∧
    (r.rows_total : Int) = cfg.cache_kb * 1024 / cfg.block_bytes / cfg.associativity ∧
    (r.overhead_bytes : Int)
      = ((r.rows_total : Int) * cfg.associativity * (1 + r.tag_bits) + 7) / 8 ∧
    (r.impl_mem_bytes : Int) = cfg.cache_kb * 1024 + (r.overhead_bytes : Int) ∧
    (r.phys_pages : Int) = cfg.phys_mb * 1024 * 1024 / 4096 ∧
    (r.pgt_total_bytes : Int) = (512 * 1024 * cfg.num_traces * r.pte_bits + 7) / 8 := by
  obtain ⟨eA, -⟩ := valid_cache_bytes_exact hv
  obtain ⟨eP, -⟩ := valid_phys_bytes_exact hv
  obtain ⟨eX, -⟩ := valid_overhead_bits hv h2 h4
  obtain ⟨eN, -⟩ := valid_page_table_bits hv hn h8
  obtain ⟨⟨ha1, ha2⟩, ⟨hb1, hb2⟩, hc1, ⟨hp1, hp2⟩, -, hb, hc, -⟩ := hv
  have eB : 2 ^ (a + 10 - b) = 2 ^ (a + 10) / 2 ^ b := by
    rw [Nat.pow_div (by omega) (by decide)]
  have eR : 2 ^ (a + 10 - b - c) = 2 ^ (a + 10) / 2 ^ b / 2 ^ c := by
    rw [Nat.pow_div (by omega) (by decide), Nat.pow_div (by omega) (by decide)]
  have ePP : 2 ^ (p + 8) = 2 ^ (p + 20) / 4096 := by
    rw [show (4096 : Nat) = 2 ^ 12 by norm_num, Nat.pow_div (by omega) (by decide)]
    congr 1
  refine ⟨?_, ?_, ?_, ?_, ?_, ?_⟩
  · rw [h1, eA, hb, eB]; norm_cast
  · rw [h2, eA, hb, hc, eR]; norm_cast
  · rw [eX, h5]; norm_cast
  · rw [h6, h5, eA]; norm_cast
  · rw [h7, eP, ePP]; norm_cast
  · rw [eN, h9]; norm_cast

theorem parse_loop_no_row_error : ∀ (n : Nat) (args : List String) (cfg : Config) (e : Failure),
    args.length ≤ n → parse_loop args cfg = .error e →
    e ≠ .rows_not_integer ∧ e ≠ .rows_not_pow2 := by
  intro n
  induction n using Nat.strong_induction_on with
  | _ n ih =>
    intro args cfg e hlen h
    match args, hlen with
    | [], _ => simp [parse_loop] at h
    | [_], _ =>
      simp only [parse_loop, Except.error.injEq] at h
      subst h
      exact ⟨by decide, by decide⟩
    | flag :: v :: rest, hlen =>
      have hrest : rest.length < n := by simp at hlen; omega
      have fin : ∀ e0 : Failure, e0 ≠ .rows_not_integer → e0 ≠ .rows_not_pow2 →
          Except.error e0 = (Except.error e : Except Failure Config) →
          e ≠ .rows_not_integer ∧ e ≠ .rows_not_pow2 := by
        intro e0 h1 h2 he
        simp only [Except.error.injEq] at he
        subst he
        exact ⟨h1, h2⟩
      unfold parse_loop at h
      by_cases f1 : flag = "-s"
      · rw [if_pos f1] at h
        cases hv : parse_int v with
        | none => rw [hv] at h; exact fin _ (by decide) (by decide) h
        | some x => rw [hv] at h; exact ih _ hrest rest _ e le_rfl h
      rw [if_neg f1] at h
      by_cases f2 : flag = "-b"
      · rw [if_pos f2] at h
        cases hv : parse_int v with
        | none => rw [hv] at h; exact fin _ (by decide) (by decide) h
        | some x => rw [hv] at h; exact ih _ hrest rest _ e le_rfl h
      rw [if_neg f2] at h
      by_cases f3 : flag = "-a"
      · rw [if_pos f3] at h
        cases hv : parse_int v with
        | none => rw [hv] at h; exact fin _ (by decide) (by decide) h
        | some x => rw [hv] at h; exact ih _ hrest rest _ e le_rfl h
      rw [if_neg f3] at h
      by_cases f4 : flag = "-r"
      · rw [if_pos f4] at h
        cases hv : parse_policy v with
        | none => rw [hv] at h; exact fin _ (by decide) (by decide) h
        | some x => rw [hv] at h; exact ih _ hrest rest _ e le_rfl h
      rw [if_neg f4] at h
      by_cases f5 : flag = "-p"
      · rw [if_pos f5] at h
        cases hv : parse_int v with
        | none => rw [hv] at h; exact fin _ (by decide) (by decide) h
        | some x => rw [hv] at h; exact ih _ hrest rest _ e le_rfl h
      rw [if_neg f5] at h
      by_cases f6 : flag = "-u"
      · rw [if_pos f6] at h
        cases hv : parse_double v with
        | none => rw [hv] at h; exact fin _ (by decide) (by decide) h
        | some x => rw [hv] at h; exact ih _ hrest rest _ e le_rfl h
      rw [if_neg f6] at h
      by_cases f7 : flag = "-n"
      · rw [if_pos f7] at h
        cases hv : parse_ll v with
        | none => rw [hv] at h; exact fin _ (by decide) (by decide) h
        | some x => rw [hv] at h; exact ih _ hrest rest _ e le_rfl h
      rw [if_neg f7] at h
      by_cases f8 : flag = "-f"
      · rw [if_pos f8] at h
        by_cases hfull : cfg.num_traces ≥ MAX_TRACES
        · rw [if_pos hfull] at h; exact fin _ (by decide) (by decide) h
        · rw [if_neg hfull] at h; exact ih _ hrest rest _ e le_rfl h
      rw [if_neg f8] at h
      exact fin _ (by decide) (by decide) h

theorem validate_no_row_error (cfg : Config) :
    validate cfg ≠ .error .rows_not_integer ∧ validate cfg ≠ .error .rows_not_pow2 := by
  have key : ∀ e, validate cfg = .error e → e ≠ .rows_not_integer ∧ e ≠ .rows_not_pow2 := by
    intro e he
    have hcopy := he
    have fin : ∀ e0 : Failure, e0 ≠ .rows_not_integer → e0 ≠ .rows_not_pow2 →
        Except.error e0 = (Except.error e : Except Failure Unit) →
        e ≠ .rows_not_integer ∧ e ≠ .rows_not_pow2 := by
      intro e0 h1 h2 he
      simp only [Except.error.injEq] at he
      subst he
      exact ⟨h1, h2⟩
    unfold validate at he
    by_cases c1 : (cfg.cache_kb < MIN_CACHE_KB ∨ cfg.cache_kb > MAX_CACHE_KB ∨
          is_power_of_two_u64 (to_u64 cfg.cache_kb) = false)
    · rw [if_pos c1] at he; exact fin _ (by decide) (by decide) he
    rw [if_neg c1] at he
    by_cases c2 : (cfg.block_bytes = 8 ∨ cfg.block_bytes = 16 ∨ cfg.block_bytes = 32 ∨
          cfg.block_bytes = 64)
    swap
    · rw [if_pos c2] at he; exact fin _ (by decide) (by decide) he
    rw [if_neg (not_not.2 c2)] at he
    by_cases c3 : (cfg.associativity = 1 ∨ cfg.associativity = 2 ∨ cfg.associativity = 4 ∨
          cfg.associativity = 8 ∨ cfg.associativity = 16)
    swap
    · rw [if_pos c3] at he; exact fin _ (by decide) (by decide) he
    rw [if_neg (not_not.2 c3)] at he
    by_cases c4 : (cfg.phys_mb < MIN_PHYS_MB ∨ cfg.phys_mb > MAX_PHYS_MB ∨
          is_power_of_two_u64 (to_u64 cfg.phys_mb) = false)
    · rw [if_pos c4] at he; exact fin _ (by decide) (by decide) he
    rw [if_neg c4] at he
    by_cases c5 : (cfg.os_percent.lt Double.zero = true ∨
        cfg.os_percent.gt Double.hundred = true)
    · rw [if_pos c5] at he; exact fin _ (by decide) (by decide) he
    rw [if_neg c5] at he
    by_cases c6 : (cfg.time_slice < -1 ∨ cfg.time_slice = 0)
    · rw [if_pos c6] at he; exact fin _ (by decide) (by decide) he
    rw [if_neg c6] at he
    by_cases c7 : cfg.num_traces < 1
    · rw [if_pos c7] at he; exact fin _ (by decide) (by decide) he
    obtain ⟨a, b, c, p, hv⟩ := valid_of_checks c1 c2 c3 c4 c5 c6 c7
    rw [validate_of_valid hv] at hcopy
    exact absurd hcopy (by simp)
  exact ⟨fun h => (key _ h).1 rfl, fun h => (key _ h).2 rfl⟩

theorem parse_args_no_row_error (argv : List String) :
    parse_args argv ≠ .error .rows_not_integer ∧ parse_args argv ≠ .error .rows_not_pow2 := by
  have key : ∀ e, parse_args argv = .error e → e ≠ .rows_not_integer ∧ e ≠ .rows_not_pow2 := by
    intro e he
    match argv, he with
    | [], he =>
      simp only [parse_args, Except.error.injEq] at he; subst he; exact ⟨by decide, by decide⟩
    | [_], he =>
      simp only [parse_args, Except.error.injEq] at he; subst he; exact ⟨by decide, by decide⟩
    | prog :: arg :: args, he =>
      cases hl : parse_loop (arg :: args) Config.initial with
      | error e' =>
        simp only [parse_args, hl, Except.error.injEq] at he
        subst he
        exact parse_loop_no_row_error _ _ _ _ le_rfl hl
      | ok cfg =>
        rw [parse_args_eq_validate prog arg args hl] at he
        cases hv : validate cfg with
        | ok u => rw [hv] at he; exact absurd he (by simp [Except.map])
        | error e' =>
          rw [hv] at he
          simp only [Except.map, Except.error.injEq] at he
          subst he
          have := validate_no_row_error cfg
          rw [hv] at this
          exact ⟨fun h => this.1 (by rw [h]), fun h => this.2 (by rw [h])⟩
  exact ⟨fun h => (key _ h).1 rfl, fun h => (key _ h).2 rfl⟩

set_option maxRecDepth 8000 in
theorem compute_results_scenarioA : compute_results scenarioA = .ok scenarioA_results := by
  decide

theorem validate_os_percent_rule {cfg : Config}
    (h1 : 8 ≤ cfg.cache_kb ∧ cfg.cache_kb ≤ 8192 ∧ IsPow2 cfg.cache_kb)
    (h2 : cfg.block_bytes = 8 ∨ cfg.block_bytes = 16 ∨ cfg.block_bytes = 32 ∨
      cfg.block_bytes = 64)
    (h3 : cfg.associativity = 1 ∨ cfg.associativity = 2 ∨ cfg.associativity = 4 ∨
      cfg.associativity = 8 ∨ cfg.associativity = 16)
    (h4 : 128 ≤ cfg.phys_mb ∧ cfg.phys_mb ≤ 4096 ∧ IsPow2 cfg.phys_mb)
    (hnan : cfg.os_percent ≠ .nan) (hout : ¬ cfg.os_percent.in_0_100) :
    validate cfg = .error .os_percent_rule := by
  unfold validate
  rw [if_neg (fun hc => (cache_rule_iff cfg).1 hc h1), if_neg (not_not.2 h2),
    if_neg (not_not.2 h3), if_neg (fun hc => (phys_rule_iff cfg).1 hc h4),
    if_pos ((os_rule_iff cfg.os_percent hnan).2 hout)]

theorem compute_results_sys_pages {cfg : Config} {a b c p : Nat} (hv : Valid cfg a b c p) :
    ∃ r, compute_results cfg = .ok r ∧
      r.phys_pages = 2 ^ (p + 8) ∧
      r.sys_pages = (llround (Double.mul (Double.div cfg.os_percent Double.hundred)
        (Double.of_u64 (2 ^ (p + 8))))).map to_u64 := by
  have hcb := valid_cache_bytes hv
  have hbb := valid_block_bytes hv
  have hpb := valid_phys_bytes hv
  obtain ⟨⟨ha1, ha2⟩, ⟨hb1, hb2⟩, hc1, ⟨hp1, hp2⟩, ha, hb, hc, hp, -, -, -, hn1⟩ := hv
  have hw : to_u64 cfg.associativity = 2 ^ c := by rw [hc, to_u64_pow (by omega)]
  have hd1 : u64_div (2 ^ (a + 10)) (2 ^ b) = .ok (2 ^ (a + 10 - b)) := u64_div_pow (by omega)
  have hd2 : u64_div (2 ^ (a + 10 - b)) (2 ^ c) = .ok (2 ^ (a + 10 - b - c)) :=
    u64_div_pow (by omega)
  have hl1 : ilog2_call (2 ^ (p + 20)) = .ok ((p + 20 : Nat) : Int) := ilog2_call_pow (by omega)
  have hl2 : ilog2_call (2 ^ b) = .ok (b : Int) := ilog2_call_pow (by omega)
  have hl3 : ilog2_call (2 ^ (a + 10 - b - c)) = .ok ((a + 10 - b - c : Nat) : Int) :=
    ilog2_call_pow (by omega)
  have hpp : 2 ^ (p + 20) / 4096 = 2 ^ (p + 8) := by
    rw [show (4096 : Nat) = 2 ^ 12 by norm_num, Nat.pow_div (by omega) (by decide)]
    congr 1
  have hl4 : ilog2_call (2 ^ (p + 8)) = .ok ((p + 8 : Nat) : Int) := ilog2_call_pow (by omega)
  have htag : ((p + 20 : Nat) : Int) - ((a + 10 - b - c : Nat) : Int) - (b : Int)
      = ((p + 10 + c - a : Nat) : Int) := by omega
  unfold compute_results
  simp only [hcb, hbb, hw, hpb, hd1, hd2, hl1, hl2, hl3, hl4, hpp, htag, bind, Except.bind, pure,
    Except.pure]
  rw [if_neg (by omega)]
  exact ⟨_, rfl, rfl, rfl⟩

theorem round_zero (n : Bool) (r : Nat) : Double.round n 0 r = .fin n 0 0 := by
  simp [Double.round]

theorem div_hundred_of_zero (n : Bool) (e : Int) :
    Double.div (.fin n 0 e) Double.hundred = .fin n 0 0 := by
  simp [Double.div, Double.hundred, round_zero]

theorem mul_zero_fin (n n2 : Bool) (m2 : Nat) (e2 : Int) :
    Double.mul (.fin n 0 0) (.fin n2 m2 e2) = .fin (xor n n2) 0 0 := by
  simp [Double.mul, round_zero]

theorem llround_zero (n : Bool) : llround (.fin n 0 0) = some 0 := by
  cases n <;> simp [llround]

theorem of_u64_pages_finite {p : Nat} (h1 : 7 ≤ p) (h2 : p ≤ 12) :
    ∃ m e, Double.of_u64 (2 ^ (p + 8)) = .fin false m e := by
  interval_cases p
  all_goals exact ⟨_, _, rfl⟩

/-! ## binary64 rounding -/

theorem bit_length_aux_zero (fuel : Nat) : Double.bit_length_aux fuel 0 = 0 := by
  cases fuel <;> simp [Double.bit_length_aux]

theorem bit_length_aux_spec : ∀ (fuel n : Nat), n ≤ fuel → 0 < n →
    1 ≤ Double.bit_length_aux fuel n ∧
    2 ^ (Double.bit_length_aux fuel n - 1) ≤ n ∧ n < 2 ^ Double.bit_length_aux fuel n := by
  intro fuel
  induction fuel with
  | zero => intro n h1 h2; omega
  | succ f ih =>
    intro n h1 h2
    have hne : n ≠ 0 := by omega
    simp only [Double.bit_length_aux, hne, if_false]
    by_cases h : n / 2 = 0
    · have hn1 : n = 1 := by omega
      rw [h, bit_length_aux_zero]
      subst hn1
      simp
    · obtain ⟨i1, i2, i3⟩ := ih (n / 2) (by omega) (by omega)
      refine ⟨by omega, ?_, ?_⟩
      · rw [Nat.add_sub_cancel]
        have e : 2 ^ Double.bit_length_aux f (n / 2)
            = 2 ^ (Double.bit_length_aux f (n / 2) - 1) * 2 := by
          rw [← pow_succ]; congr 1; omega
        rw [e]; omega
      · rw [pow_succ]; omega

theorem bit_length_spec {n : Nat} (h : 0 < n) :
    1 ≤ Double.bit_length n ∧
    2 ^ (Double.bit_length n - 1) ≤ n ∧ n < 2 ^ Double.bit_length n :=
  bit_length_aux_spec n n le_rfl h

theorem pow2_le_iff (k : Int) (p : Nat) {r : Nat} (hr : 0 < r) :
    Double.pow2_le k p r = true ↔ (2 : ℚ) ^ k ≤ (p : ℚ) / (r : ℚ) := by
  have hr' : (0 : ℚ) < r := by exact_mod_cast hr
  unfold Double.pow2_le
  by_cases hk : 0 ≤ k
  · obtain ⟨n, rfl⟩ := Int.eq_ofNat_of_zero_le hk
    simp only [hk, if_true, decide_eq_true_eq, Int.toNat_ofNat, zpow_natCast]
    rw [le_div_iff₀ hr']
    constructor
    · intro h; have : ((r * 2 ^ n : Nat) : ℚ) ≤ (p : ℚ) := by exact_mod_cast h
      push_cast at this; linarith
    · intro h; have : ((r * 2 ^ n : Nat) : ℚ) ≤ (p : ℚ) := by push_cast; linarith
      exact_mod_cast this
  · obtain ⟨n, hn⟩ : ∃ n : Nat, k = -(n : Int) := ⟨(-k).toNat, by omega⟩
    subst hn
    simp only [hk, if_false, decide_eq_true_eq, neg_neg, Int.toNat_ofNat, zpow_neg, zpow_natCast]
    have h2 : (0 : ℚ) < 2 ^ n := by positivity
    rw [inv_eq_one_div, div_le_div_iff₀ h2 hr']
    constructor
    · intro h; have : ((r : Nat) : ℚ) ≤ ((p * 2 ^ n : Nat) : ℚ) := by exact_mod_cast h
      push_cast at this; linarith
    · intro h; have : ((r : Nat) : ℚ) ≤ ((p * 2 ^ n : Nat) : ℚ) := by push_cast; linarith
      exact_mod_cast this

theorem floor_log2_spec {p r : Nat} (hp : 0 < p) (hr : 0 < r) :
    (2 : ℚ) ^ Double.floor_log2 p r ≤ (p : ℚ) / (r : ℚ) ∧
    (p : ℚ) / (r : ℚ) < (2 : ℚ) ^ (Double.floor_log2 p r + 1) := by
  have hp' : (0 : ℚ) < p := by exact_mod_cast hp
  have hr' : (0 : ℚ) < r := by exact_mod_cast hr
  obtain ⟨a1, a2, a3⟩ := bit_length_spec hp
  obtain ⟨b1, b2, b3⟩ := bit_length_spec hr
  have a2' : (2 : ℚ) ^ ((Double.bit_length p : Int) - 1) ≤ (p : ℚ) := by
    have : ((2 ^ (Double.bit_length p - 1) : Nat) : ℚ) ≤ (p : ℚ) := by exact_mod_cast a2
    have e : ((Double.bit_length p : Int) - 1) = ((Double.bit_length p - 1 : Nat) : Int) := by
      omega
    rw [e, zpow_natCast]; push_cast at this; exact this
  have a3' : (p : ℚ) < (2 : ℚ) ^ (Double.bit_length p : Int) := by
    have : (p : ℚ) < ((2 ^ Double.bit_length p : Nat) : ℚ) := by exact_mod_cast a3
    rw [zpow_natCast]; push_cast at this; exact this
  have b2' : (2 : ℚ) ^ ((Double.bit_length r : Int) - 1) ≤ (r : ℚ) := by
    have : ((2 ^ (Double.bit_length r - 1) : Nat) : ℚ) ≤ (r : ℚ) := by exact_mod_cast b2
    have e : ((Double.bit_length r : Int) - 1) = ((Double.bit_length r - 1 : Nat) : Int) := by
      omega
    rw [e, zpow_natCast]; push_cast at this; exact this
  have b3' : (r : ℚ) < (2 : ℚ) ^ (Double.bit_length r : Int) := by
    have : (r : ℚ) < ((2 ^ Double.bit_length r : Nat) : ℚ) := by exact_mod_cast b3
    rw [zpow_natCast]; push_cast at this; exact this
  have two_ne : (2 : ℚ) ≠ 0 := by norm_num
  -- the quotient lies strictly between 2^(k0-1) and 2^(k0+1)
  have lo : (2 : ℚ) ^ ((Double.bit_length p : Int) - (Double.bit_length r : Int) - 1)
      < (p : ℚ) / (r : ℚ) := by
    rw [lt_div_iff₀ hr']
    calc (2 : ℚ) ^ ((Double.bit_length p : Int) - (Double.bit_length r : Int) - 1) * (r : ℚ)
        < (2 : ℚ) ^ ((Double.bit_length p : Int) - (Double.bit_length r : Int) - 1)
            * (2 : ℚ) ^ (Double.bit_length r : Int) :=
          mul_lt_mul_of_pos_left b3' (by positivity)
      _ = (2 : ℚ) ^ ((Double.bit_length p : Int) - 1) := by
          rw [← zpow_add₀ two_ne]; congr 1; ring
      _ ≤ (p : ℚ) := a2'
  have hi : (p : ℚ) / (r : ℚ)
      < (2 : ℚ) ^ ((Double.bit_length p : Int) - (Double.bit_length r : Int) + 1) := by
    rw [div_lt_iff₀ hr']
    calc (p : ℚ) < (2 : ℚ) ^ (Double.bit_length p : Int) := a3'
      _ = (2 : ℚ) ^ ((Double.bit_length p : Int) - (Double.bit_length r : Int) + 1)
            * (2 : ℚ) ^ ((Double.bit_length r : Int) - 1) := by
          rw [← zpow_add₀ two_ne]; congr 1; ring
      _ ≤ (2 : ℚ) ^ ((Double.bit_length p : Int) - (Double.bit_length r : Int) + 1) * (r : ℚ) :=
          mul_le_mul_of_nonneg_left b2' (by positivity)
  unfold Double.floor_log2
  simp only
  by_cases hk : Double.pow2_le ((Double.bit_length p : Int) - (Double.bit_length r : Int)) p r
      = true
  · rw [if_pos hk]
    exact ⟨(pow2_le_iff _ p hr).1 hk, hi⟩
  · rw [if_neg hk]
    refine ⟨le_of_lt lo, ?_⟩
    have := mt (pow2_le_iff _ p hr).2 hk
    rw [sub_add_cancel]
    exact not_le.1 this
theorem round_half_even_le {p r : Nat} : Double.round_half_even p r ≤ p / r + 1 := by
  unfold Double.round_half_even
  split_ifs <;> omega

theorem round_half_even_cases {p r : Nat} :
    Double.round_half_even p r = p / r ∨
    (Double.round_half_even p r = p / r + 1 ∧ r ≤ 2 * (p % r)) := by
  unfold Double.round_half_even
  split_ifs <;> omega

theorem round_half_even_exact {p r : Nat} (h : p % r = 0) (hr : 0 < r) :
    Double.round_half_even p r = p / r := by
  unfold Double.round_half_even
  rw [h]
  simp [hr]

theorem succ_div_of_mod_ne {x D : Nat} (hD : 0 < D) (h : x % D ≠ D - 1) :
    (x + 1) / D = x / D := by
  rw [Nat.succ_div]
  have : ¬ D ∣ x + 1 := by
    intro hd
    apply h
    obtain ⟨c, hc⟩ := hd
    have hc1 : 1 ≤ c := by
      rcases Nat.eq_zero_or_pos c with h0 | h0
      · subst h0; simp at hc
      · exact h0
    obtain ⟨c', rfl⟩ : ∃ c', c = c' + 1 := ⟨c - 1, by omega⟩
    have hx : x = D - 1 + D * c' := by
      have : D * (c' + 1) = D * c' + D := by ring
      omega
    rw [hx, Nat.add_mul_mod_self_left]
    exact Nat.mod_eq_of_lt (by omega)
  simp [this]

/-- Rounding the quotient to an integer first (ties to even) and then halving
`t` times with ties away from zero gives the same as rounding once, unless the
quotient lies in the upper half just below an odd multiple of `2 ^ (t - 1)`. -/
theorem round_twice {N R t : Nat} (hR : 0 < R) (ht : 1 ≤ t)
    (hbad : ¬ (R ≤ 2 * (N % R) ∧ (N / R) % 2 ^ t = 2 ^ (t - 1) - 1)) :
    round_half_away (Double.round_half_even N R) (2 ^ t) = round_half_away N (R * 2 ^ t) := by
  unfold round_half_away
  obtain ⟨H, hH, hHpos⟩ : ∃ H, 2 ^ t = 2 * H ∧ 0 < H ∧ H = 2 ^ (t - 1) := by
    refine ⟨2 ^ (t - 1), ?_, Nat.two_pow_pos _, rfl⟩
    rw [← pow_succ']; congr 1; omega
  obtain ⟨hHpos, hHval⟩ := hHpos
  rw [hH] at hbad ⊢
  rw [← hHval] at hbad
  have rhs : (2 * N + R * (2 * H)) / (2 * (R * (2 * H))) = (N / R + H) / (2 * H) := by
    have e1 : 2 * N + R * (2 * H) = 2 * (N + H * R) := by ring
    have e2 : 2 * (R * (2 * H)) = 2 * (R * (2 * H)) := rfl
    rw [e1, Nat.mul_div_mul_left _ _ (by decide : 0 < 2), ← Nat.div_div_eq_div_mul,
      Nat.add_mul_div_right _ _ hR]
  have lhs : ∀ x, (2 * x + 2 * H) / (2 * (2 * H)) = (x + H) / (2 * H) := by
    intro x
    have e1 : 2 * x + 2 * H = 2 * (x + H) := by ring
    rw [e1, Nat.mul_div_mul_left _ _ (by decide : 0 < 2)]
  rw [rhs, lhs]
  rcases @round_half_even_cases N R with h | ⟨h, h2⟩
  · rw [h]
  · rw [h]
    have hq : (N / R) % (2 * H) ≠ H - 1 := fun hc => hbad ⟨h2, hc⟩
    have hne : (N / R + H) % (2 * H) ≠ 2 * H - 1 := by
      intro hc
      apply hq
      have h1 := Nat.div_add_mod (N / R + H) (2 * H)
      rw [hc] at h1
      have h2' : N / R = H - 1 + 2 * H * ((N / R + H) / (2 * H)) := by omega
      rw [h2', Nat.add_mul_mod_self_left]
      exact Nat.mod_eq_of_lt (by omega)
    have := succ_div_of_mod_ne (by omega : 0 < 2 * H) hne
    rw [show N / R + 1 + H = N / R + H + 1 by ring, this]

/-- A multiple of 64 is never in the upper half just below an odd multiple of
`100 * 2 ^ (t - 1)`, for `t ≥ 6`. -/
theorem no_bad_quotient_of_multiple {A t : Nat} (ht : 6 ≤ t) (hA : 64 ∣ A) :
    ¬ (50 ≤ A % 100 ∧ (A / 100) % 2 ^ t = 2 ^ (t - 1) - 1) := by
  rintro ⟨h1, h2⟩
  obtain ⟨Y, hY⟩ := hA
  have hW : 2 ^ (t - 1) = 32 * 2 ^ (t - 6) := by
    rw [show (32 : Nat) = 2 ^ 5 by norm_num, ← pow_add]; congr 1; omega
  have hT : 2 ^ t = 64 * 2 ^ (t - 6) := by
    rw [show (64 : Nat) = 2 ^ 6 by norm_num, ← pow_add]; congr 1; omega
  have hpos : 0 < 2 ^ (t - 6) := Nat.two_pow_pos _
  have d1 := Nat.div_add_mod A 100
  have d2 := Nat.div_add_mod (A / 100) (2 ^ t)
  have hlt := Nat.mod_lt A (by decide : 0 < 100)
  rw [h2, hW, hT] at d2
  generalize 2 ^ (t - 6) = w at d2 hpos
  generalize A / 100 / (64 * w) = j at d2
  have e : 64 * w * j = 64 * (w * j) := by ring
  rw [e] at d2
  generalize w * j = z at d2
  omega
theorem round_half_away_scale {p1 r1 p2 r2 : Nat} (h1 : 0 < r1) (h2 : 0 < r2)
    (h : p1 * r2 = p2 * r1) : round_half_away p1 r1 = round_half_away p2 r2 := by
  unfold round_half_away
  have e : (2 * p1 + r1) * r2 = (2 * p2 + r2) * r1 := by
    have : 2 * (p1 * r2) = 2 * (p2 * r1) := by rw [h]
    nlinarith
  calc (2 * p1 + r1) / (2 * r1)
      = ((2 * p1 + r1) * r2) / (2 * r1 * r2) := by
        rw [Nat.mul_div_mul_right _ _ h2]
    _ = ((2 * p2 + r2) * r1) / (2 * r2 * r1) := by
        rw [e]; congr 1; ring
    _ = (2 * p2 + r2) / (2 * r2) := by
        rw [Nat.mul_div_mul_right _ _ h1]

theorem round_half_away_le {p r : Nat} (hr : 0 < r) : round_half_away p r ≤ p + 1 := by
  unfold round_half_away
  apply Nat.div_le_of_le_mul
  nlinarith

theorem round_of_neg_exp {neg : Bool} {p r : Nat} (hp : 0 < p)
    (hE : max (Double.floor_log2 p r - 52) (-1074) < 0) :
    Double.round neg p r =
      .fin neg (Double.round_half_even
        (p * 2 ^ (-(max (Double.floor_log2 p r - 52) (-1074))).toNat) r)
        (max (Double.floor_log2 p r - 52) (-1074)) := by
  unfold Double.round
  rw [if_neg (by omega)]
  simp only
  rw [if_neg (by omega), if_neg (by omega)]

theorem llround_of_neg_exp {m : Nat} {e : Int} (he : e < 0)
    (h : round_half_away m (2 ^ (-e).toNat) < 2 ^ 63) :
    llround (.fin false m e) = some ((round_half_away m (2 ^ (-e).toNat) : Nat) : Int) := by
  have h0 : (0 : Int) ≤ (round_half_away m (2 ^ (-e).toNat) : Nat) := Int.natCast_nonneg _
  have h1 : ((round_half_away m (2 ^ (-e).toNat) : Nat) : Int) < 2 ^ 63 := by exact_mod_cast h
  unfold round_half_away at h0 h1 ⊢
  simp only [llround, if_neg (not_le.2 he), Bool.false_eq_true, if_false]
  rw [if_pos ⟨by omega, h1⟩]
theorem zpow_le_div_pow_iff (k : Int) (M t : Nat) :
    (2 : ℚ) ^ k ≤ (M : ℚ) / (2 : ℚ) ^ t ↔ (2 : ℚ) ^ (k + (t : Int)) ≤ (M : ℚ) := by
  have h2 : (0 : ℚ) < (2 : ℚ) ^ t := by positivity
  rw [le_div_iff₀ h2, zpow_add₀ (by norm_num : (2 : ℚ) ≠ 0), zpow_natCast]

theorem div_pow_lt_zpow_iff (k : Int) (M t : Nat) :
    (M : ℚ) / (2 : ℚ) ^ t < (2 : ℚ) ^ k ↔ (M : ℚ) < (2 : ℚ) ^ (k + (t : Int)) := by
  have h2 : (0 : ℚ) < (2 : ℚ) ^ t := by positivity
  rw [div_lt_iff₀ h2, zpow_add₀ (by norm_num : (2 : ℚ) ≠ 0), zpow_natCast]

theorem zpow_le_natCast_bound {j : Int} {M n : Nat} (hM : M ≤ 2 ^ n)
    (h : (2 : ℚ) ^ j ≤ (M : ℚ)) : j ≤ (n : Int) := by
  by_contra hc
  have hlt : (n : Int) < j := by omega
  have h1 : (2 : ℚ) ^ (n : Int) < (2 : ℚ) ^ j := (zpow_lt_zpow_iff_right₀ (by norm_num)).2 hlt
  rw [zpow_natCast] at h1
  have h2 : ((2 ^ n : Nat) : ℚ) < (M : ℚ) := by
    push_cast
    exact lt_of_lt_of_le h1 h
  have : 2 ^ n < M := by exact_mod_cast h2
  omega

theorem pow_le_of_zpow_le {n M : Nat} (h : (2 : ℚ) ^ (n : Int) ≤ (M : ℚ)) : 2 ^ n ≤ M := by
  rw [zpow_natCast] at h
  exact_mod_cast h

theorem natCast_lt_zpow_bound {j : Int} {M n : Nat} (hM : 2 ^ n ≤ M)
    (h : (M : ℚ) < (2 : ℚ) ^ j) : (n : Int) < j := by
  by_contra hc
  have hle : j ≤ (n : Int) := by omega
  have h1 : (2 : ℚ) ^ j ≤ (2 : ℚ) ^ (n : Int) := (zpow_le_zpow_iff_right₀ (by norm_num)).2 hle
  rw [zpow_natCast] at h1
  have h2 : (M : ℚ) < ((2 ^ n : Nat) : ℚ) := by
    push_cast
    exact lt_of_lt_of_le h h1
  have : M < 2 ^ n := by exact_mod_cast h2
  omega

/-- The product of a significand `M ≤ 2 ^ 53` and `2 ^ (-t)` is a binary64
number, so rounding it to binary64 changes nothing and `llround` of the result
is `M / 2 ^ t` rounded to the nearest integer, ties away from zero. -/
theorem llround_round_exact {M t : Nat} (hM : M ≤ 2 ^ 53) (ht2 : 2 ≤ t) (ht : t ≤ 1074) :
    llround (Double.round false (M * 2 ^ 52) (2 ^ (52 + t))) =
      some ((round_half_away M (2 ^ t) : Nat) : Int) := by
  by_cases hM0 : M = 0
  · subst hM0
    have : round_half_away 0 (2 ^ t) = 0 := by
      unfold round_half_away
      apply Nat.div_eq_of_lt
      have := Nat.two_pow_pos t
      omega
    rw [this, Nat.zero_mul, round_zero, llround_zero]
    rfl
  have hMpos : 0 < M := Nat.pos_of_ne_zero hM0
  have hp : 0 < M * 2 ^ 52 := Nat.mul_pos hMpos (Nat.two_pow_pos _)
  have hr : 0 < 2 ^ (52 + t) := Nat.two_pow_pos _
  obtain ⟨hlo, -⟩ := floor_log2_spec hp hr
  have hv : ((M * 2 ^ 52 : Nat) : ℚ) / ((2 ^ (52 + t) : Nat) : ℚ) = (M : ℚ) / (2 : ℚ) ^ t := by
    push_cast
    rw [pow_add]
    field_simp
    ring
  rw [hv, zpow_le_div_pow_iff] at hlo
  have hk : Double.floor_log2 (M * 2 ^ 52) (2 ^ (52 + t)) + (t : Int) ≤ 53 := by
    have := zpow_le_natCast_bound hM hlo
    exact_mod_cast this
  have hE : max (Double.floor_log2 (M * 2 ^ 52) (2 ^ (52 + t)) - 52) (-1074) < 0 := by omega
  rw [round_of_neg_exp hp hE]
  generalize Double.floor_log2 (M * 2 ^ 52) (2 ^ (52 + t)) = k at hlo hk hE ⊢
  generalize hEdef : max (k - 52) (-1074) = E at hE
  obtain ⟨g, hg⟩ : ∃ g : Nat, E = -(g : Int) := ⟨(-E).toNat, by omega⟩
  subst hg
  have hgt : t ≤ g + 1 := by omega
  have hm2 : ∃ m2, Double.round_half_even (M * 2 ^ 52 * 2 ^ g) (2 ^ (52 + t)) = m2 ∧
      m2 * 2 ^ t = M * 2 ^ g := by
    by_cases hc : t ≤ g
    · obtain ⟨j, rfl⟩ : ∃ j, g = t + j := ⟨g - t, by omega⟩
      have e : M * 2 ^ 52 * 2 ^ (t + j) = M * 2 ^ j * 2 ^ (52 + t) := by
        rw [pow_add, pow_add]; ring
      refine ⟨M * 2 ^ j, ?_, ?_⟩
      · rw [e, round_half_even_exact (Nat.mul_mod_left _ _) hr, Nat.mul_div_cancel _ hr]
      · rw [pow_add]; ring
    · have hgt' : t = g + 1 := by omega
      have hk' : k + (t : Int) = 53 := by omega
      rw [hk'] at hlo
      have hM' : 2 ^ 53 ≤ M := pow_le_of_zpow_le hlo
      have hMeq : M = 2 ^ 53 := le_antisymm hM hM'
      subst hgt'
      have e : M * 2 ^ 52 * 2 ^ g = 2 ^ 52 * 2 ^ (52 + (g + 1)) := by
        rw [hMeq, pow_add, pow_add]; ring
      refine ⟨2 ^ 52, ?_, ?_⟩
      · rw [e, round_half_even_exact (Nat.mul_mod_left _ _) hr, Nat.mul_div_cancel _ hr]
      · rw [hMeq, pow_add]; ring
  obtain ⟨m2, h1, h2⟩ := hm2
  have hneg : (-(-(g : Int))).toNat = g := by simp
  rw [hneg, h1]
  have hs : round_half_away m2 (2 ^ g) = round_half_away M (2 ^ t) :=
    round_half_away_scale (Nat.two_pow_pos _) (Nat.two_pow_pos _) h2
  have hb : round_half_away M (2 ^ t) ≤ M + 1 := round_half_away_le (Nat.two_pow_pos _)
  rw [llround_of_neg_exp hE, hneg, hs]
  rw [hneg, hs]
  omega
theorem lt_of_div_lt_zpow {p r a b : Nat} {j : Int} (hr : 0 < r)
    (h : (p : ℚ) / (r : ℚ) < (2 : ℚ) ^ j) (hj : j + (a : Int) ≤ (b : Int)) :
    p * 2 ^ a < 2 ^ b * r := by
  have hr' : (0 : ℚ) < (r : ℚ) := by exact_mod_cast hr
  rw [div_lt_iff₀ hr'] at h
  have h1 : (2 : ℚ) ^ (j + (a : Int)) ≤ (2 : ℚ) ^ (b : Int) :=
    (zpow_le_zpow_iff_right₀ (by norm_num)).2 hj
  rw [zpow_add₀ (by norm_num : (2 : ℚ) ≠ 0), zpow_natCast, zpow_natCast] at h1
  have h2 : (0 : ℚ) < (2 : ℚ) ^ a := by positivity
  have h3 : ((p * 2 ^ a : Nat) : ℚ) < ((2 ^ b * r : Nat) : ℚ) := by
    push_cast
    calc (p : ℚ) * 2 ^ a < (2 : ℚ) ^ j * r * 2 ^ a := by
          exact mul_lt_mul_of_pos_right h h2
      _ = (2 : ℚ) ^ j * 2 ^ a * r := by ring
      _ ≤ 2 ^ b * r := by
          exact mul_le_mul_of_nonneg_right h1 hr'.le
  exact_mod_cast h3

theorem le_of_zpow_le_div {p r a b : Nat} {j : Int} (hr : 0 < r)
    (h : (2 : ℚ) ^ j ≤ (p : ℚ) / (r : ℚ)) (hj : (b : Int) ≤ j + (a : Int)) :
    2 ^ b * r ≤ p * 2 ^ a := by
  have hr' : (0 : ℚ) < (r : ℚ) := by exact_mod_cast hr
  rw [le_div_iff₀ hr'] at h
  have h1 : (2 : ℚ) ^ (b : Int) ≤ (2 : ℚ) ^ (j + (a : Int)) :=
    (zpow_le_zpow_iff_right₀ (by norm_num)).2 hj
  rw [zpow_add₀ (by norm_num : (2 : ℚ) ≠ 0), zpow_natCast, zpow_natCast] at h1
  have h2 : (0 : ℚ) < (2 : ℚ) ^ a := by positivity
  have h3 : ((2 ^ b * r : Nat) : ℚ) ≤ ((p * 2 ^ a : Nat) : ℚ) := by
    push_cast
    calc (2 : ℚ) ^ b * r ≤ (2 : ℚ) ^ j * 2 ^ a * r := by
          exact mul_le_mul_of_nonneg_right h1 hr'.le
      _ = (2 : ℚ) ^ j * r * 2 ^ a := by ring
      _ ≤ (p : ℚ) * 2 ^ a := by
          exact mul_le_mul_of_nonneg_right h h2.le
  exact_mod_cast h3

/-- The significand chosen by `Double.round` has at most 53 bits (or is
`2 ^ 53`, which stands for the next power of two). -/
theorem round_mant_le {p r : Nat} (hp : 0 < p) (hr : 0 < r) (E : Int)
    (hE : E = max (Double.floor_log2 p r - 52) (-1074)) :
    (if 0 ≤ E then Double.round_half_even p (r * 2 ^ E.toNat)
      else Double.round_half_even (p * 2 ^ (-E).toNat) r) ≤ 2 ^ 53 := by
  obtain ⟨-, hhi⟩ := floor_log2_spec hp hr
  generalize Double.floor_log2 p r = k at hhi hE
  by_cases h0 : 0 ≤ E
  · rw [if_pos h0]
    have h1 : p * 2 ^ 0 < 2 ^ (53 + E.toNat) * r :=
      lt_of_div_lt_zpow hr hhi (by push_cast; omega)
    have h2 : p / (r * 2 ^ E.toNat) < 2 ^ 53 := by
      rw [Nat.div_lt_iff_lt_mul (Nat.mul_pos hr (Nat.two_pow_pos _))]
      calc p = p * 2 ^ 0 := by simp
        _ < 2 ^ (53 + E.toNat) * r := h1
        _ = 2 ^ 53 * (r * 2 ^ E.toNat) := by rw [pow_add]; ring
    have := @round_half_even_le p (r * 2 ^ E.toNat)
    omega
  · rw [if_neg h0]
    have h1 : p * 2 ^ (-E).toNat < 2 ^ 53 * r :=
      lt_of_div_lt_zpow hr hhi (by push_cast; omega)
    have h2 : p * 2 ^ (-E).toNat / r < 2 ^ 53 := by
      rw [Nat.div_lt_iff_lt_mul hr]; exact h1
    have := @round_half_even_le (p * 2 ^ (-E).toNat) r
    omega
theorem round_representable (neg : Bool) {p r : Nat} (hr : 0 < r) :
    (Double.round neg p r).representable = true := by
  unfold Double.round
  by_cases hp : p = 0
  · rw [if_pos hp]; simp [Double.representable]
  · rw [if_neg hp]
    simp only
    split_ifs with h1 h2 h2
    all_goals first
      | rfl
      | (have hm := round_mant_le (Nat.pos_of_ne_zero hp) hr _ rfl
         first
           | rw [if_pos h1] at hm
           | rw [if_neg h1] at hm
         simp only [Double.representable, decide_eq_true_eq]
         exact ⟨hm, le_max_right _ _⟩)

theorem strtod_finite_value (neg : Bool) (p r : Nat) (rest : List Char) :
    (strtod_finite neg p r rest).value = Double.round neg p r := by
  unfold strtod_finite
  split <;> simp_all

theorem scaled_fraction_pos (d : Nat) {base : Nat} (hb : 0 < base) (s : Int) :
    0 < (scaled_fraction d base s).2 := by
  unfold scaled_fraction
  split_ifs
  · exact Nat.one_pos
  · exact pow_pos hb _

theorem strtod_finite_representable (neg : Bool) (d : Nat) {base : Nat} (hb : 0 < base)
    (s : Int) (rest : List Char) {p r : Nat} (h : scaled_fraction d base s = (p, r)) :
    (strtod_finite neg p r rest).value.representable = true := by
  rw [strtod_finite_value]
  apply round_representable
  have := scaled_fraction_pos d hb s
  rw [h] at this
  exact this

theorem scan_decimal_representable {neg : Bool} {t : List Char} {res : StrtodResult}
    (h : scan_decimal neg t = some res) : res.value.representable = true := by
  unfold scan_decimal at h
  repeat' split at h
  all_goals first
    | (simp only [Option.some.injEq] at h
       subst h
       rename_i hsf
       exact strtod_finite_representable _ _ (by decide) _ _ hsf)
    | simp at h

theorem scan_hex_representable {neg : Bool} {t : List Char} {res : StrtodResult}
    (h : scan_hex neg t = some res) : res.value.representable = true := by
  unfold scan_hex at h
  repeat' split at h
  all_goals first
    | (simp only [Option.some.injEq] at h
       subst h
       rename_i hsf
       exact strtod_finite_representable _ _ (by decide) _ _ hsf)
    | simp at h

theorem scan_inf_representable {neg : Bool} {t : List Char} {res : StrtodResult}
    (h : scan_inf neg t = some res) : res.value.representable = true := by
  unfold scan_inf at h
  repeat' split at h
  all_goals first
    | (simp only [Option.some.injEq] at h
       subst h
       rfl)
    | simp at h

theorem scan_nan_representable {t : List Char} {res : StrtodResult}
    (h : scan_nan t = some res) : res.value.representable = true := by
  unfold scan_nan at h
  repeat' split at h
  all_goals first
    | (simp only [Option.some.injEq] at h
       subst h
       rfl)
    | simp at h

theorem strtod_representable (s : List Char) : (strtod s).value.representable = true := by
  unfold strtod
  split
  split
  · rename_i h; exact scan_hex_representable h
  · split
    · rename_i h; exact scan_decimal_representable h
    · split
      · rename_i h; exact scan_inf_representable h
      · split
        · rename_i h; exact scan_nan_representable h
        · rfl

theorem parse_double_representable {s : String} {x : Double} (h : parse_double s = some x) :
    x.representable = true := by
  unfold parse_double at h
  simp only at h
  split_ifs at h
  simp only [Option.some.injEq] at h
  rw [← h]
  exact strtod_representable _
theorem parse_loop_representable : ∀ (n : Nat) (args : List String) (cfg cfg' : Config),
    args.length ≤ n → parse_loop args cfg = .ok cfg' → cfg.os_percent.representable = true →
    cfg'.os_percent.representable = true := by
  intro n
  induction n using Nat.strong_induction_on with
  | _ n ih =>
    intro args cfg cfg' hlen h hle
    match args, hlen with
    | [], _ =>
      simp only [parse_loop, Except.ok.injEq] at h
      rw [← h]; exact hle
    | [_], _ => simp [parse_loop] at h
    | flag :: v :: rest, hlen =>
      have hrest : rest.length < n := by simp at hlen; omega
      unfold parse_loop at h
      split_ifs at h with h1 h2 h3 h4 h5 h6 h7 h8 h9
      all_goals first
        | exact absurd h (by simp)
        | (split at h
           · exact ih _ hrest rest _ cfg' le_rfl h hle
           · exact absurd h (by simp))
        | (split at h
           · rename_i x hx
             exact ih _ hrest rest _ cfg' le_rfl h (parse_double_representable hx)
           · exact absurd h (by simp))
        | exact ih _ hrest rest _ cfg' le_rfl h hle

theorem accepted_representable {cfg : Config} (h : Accepted cfg) :
    cfg.os_percent.representable = true := by
  obtain ⟨argv, h⟩ := h
  match argv, h with
  | [], h => exact absurd h (by simp [parse_args])
  | [_], h => exact absurd h (by simp [parse_args])
  | _ :: arg :: args, h =>
    simp only [parse_args] at h
    split at h
    · exact absurd h (by simp)
    · rename_i cfg0 hloop
      split at h
      · exact absurd h (by simp)
      · simp only [Except.ok.injEq] at h
        subst h
        exact parse_loop_representable _ _ _ _ le_rfl hloop
          (by simp [Config.initial, Double.zero, Double.representable])
theorem div_hundred_eq (n : Bool) (m : Nat) (e : Int) :
    Double.div (.fin n m e) Double.hundred =
      Double.round n (m * 2 ^ e.toNat) (100 * 2 ^ (-e).toNat) := by
  simp only [Double.div, Double.hundred, sub_zero, zero_sub, Bool.xor_false]
  rw [if_neg (by decide)]
  by_cases he : 0 ≤ e
  · have : (-e).toNat = 0 := by omega
    rw [if_pos he, this, pow_zero, mul_one]
  · have : e.toNat = 0 := by omega
    rw [if_neg he, this, pow_zero, mul_one]

/-- The quotient of a percentage in `(0, 100]` by `100.0`: it is a finite
number with a negative exponent `-g`, whose significand is the quotient
`m * 2 ^ (a + g) / (100 * 2 ^ f)` rounded to the nearest integer; that quotient
is either `A / 100` for a multiple `A` of 64 (a normal result) or below
`2 ^ 52` (a subnormal result). -/
theorem round_percent {m a f : Nat} (hm : 0 < m) (hm53 : m ≤ 2 ^ 53) (hf : f ≤ 1074)
    (hle : m * 2 ^ a ≤ 100 * 2 ^ f) :
    ∃ g : Nat, 52 ≤ g ∧ g ≤ 1074 ∧ f ≤ a + g ∧
      Double.round false (m * 2 ^ a) (100 * 2 ^ f) =
        .fin false (Double.round_half_even (m * 2 ^ a * 2 ^ g) (100 * 2 ^ f)) (-(g : Int)) ∧
      Double.round_half_even (m * 2 ^ a * 2 ^ g) (100 * 2 ^ f) ≤ 2 ^ 53 ∧
      (6 ≤ a + g - f ∨ (g = 1074 ∧ m * 2 ^ a * 2 ^ g / (100 * 2 ^ f) < 2 ^ 52)) := by
  have hp : 0 < m * 2 ^ a := Nat.mul_pos hm (Nat.two_pow_pos _)
  have hr : 0 < 100 * 2 ^ f := Nat.mul_pos (by decide) (Nat.two_pow_pos _)
  obtain ⟨hlo, hhi⟩ := floor_log2_spec hp hr
  have hk0 : Double.floor_log2 (m * 2 ^ a) (100 * 2 ^ f) ≤ 0 := by
    by_contra hc
    have := @le_of_zpow_le_div _ _ 0 1 _ hr hlo (by push_cast; omega)
    omega
  have hk46 : Double.floor_log2 (m * 2 ^ a) (100 * 2 ^ f) + (f : Int) ≤ (a : Int) + 46 := by
    by_contra hc
    have h1 := @le_of_zpow_le_div _ _ f (a + 47) _ hr hlo (by push_cast; omega)
    have h2 : 2 ^ (a + 47) * (100 * 2 ^ f) = (2 ^ 47 * 100) * (2 ^ a * 2 ^ f) := by
      rw [pow_add]; ring
    have h3 : m * 2 ^ a * 2 ^ f = m * (2 ^ a * 2 ^ f) := by ring
    rw [h2, h3] at h1
    have h4 := Nat.le_of_mul_le_mul_right h1 (Nat.mul_pos (Nat.two_pow_pos _) (Nat.two_pow_pos _))
    omega
  have hE : max (Double.floor_log2 (m * 2 ^ a) (100 * 2 ^ f) - 52) (-1074) < 0 := by omega
  have hround := @round_of_neg_exp false _ _ hp hE
  have hmant := round_mant_le hp hr _ rfl
  rw [if_neg (by omega)] at hmant
  generalize Double.floor_log2 (m * 2 ^ a) (100 * 2 ^ f) = k at hlo hhi hk0 hk46 hE hround hmant
  obtain ⟨g, hg⟩ : ∃ g : Nat, max (k - 52) (-1074) = -(g : Int) :=
    ⟨(-(max (k - 52) (-1074))).toNat, by omega⟩
  rw [hg] at hround hmant
  have hneg : (-(-(g : Int))).toNat = g := by simp
  rw [hneg] at hround hmant
  refine ⟨g, by omega, by omega, by omega, hround, hmant, ?_⟩
  by_cases hsub : -1074 ≤ k - 52
  · left; omega
  · right
    have hg' : g = 1074 := by omega
    refine ⟨hg', ?_⟩
    subst hg'
    rw [Nat.div_lt_iff_lt_mul hr]
    exact lt_of_div_lt_zpow hr hhi (by push_cast; omega)
theorem of_u64_pages {K : Nat} (h1 : 15 ≤ K) (h2 : K ≤ 20) :
    Double.of_u64 (2 ^ K) = .fin false (2 ^ 52) ((K : Int) - 52) := by
  interval_cases K
  all_goals rfl

theorem no_bad_quotient {m a f g t : Nat} (hfg : f ≤ a + g) (ht : 6 ≤ t) (hgt : g ≤ t + 20)
    (hcase : 6 ≤ a + g - f ∨ (g = 1074 ∧ m * 2 ^ a * 2 ^ g / (100 * 2 ^ f) < 2 ^ 52)) :
    ¬ (100 * 2 ^ f ≤ 2 * ((m * 2 ^ a * 2 ^ g) % (100 * 2 ^ f)) ∧
      (m * 2 ^ a * 2 ^ g / (100 * 2 ^ f)) % 2 ^ t = 2 ^ (t - 1) - 1) := by
  have hN : m * 2 ^ a * 2 ^ g = m * 2 ^ (a + g - f) * 2 ^ f := by
    rw [mul_assoc, mul_assoc, ← pow_add, ← pow_add]
    congr 2; omega
  have hfpos : 0 < 2 ^ f := Nat.two_pow_pos _
  have hq' : m * 2 ^ a * 2 ^ g / (100 * 2 ^ f) = m * 2 ^ (a + g - f) / 100 := by
    rw [hN, Nat.mul_div_mul_right _ _ hfpos]
  have hr' : (m * 2 ^ a * 2 ^ g) % (100 * 2 ^ f) = m * 2 ^ (a + g - f) % 100 * 2 ^ f := by
    rw [hN, Nat.mul_mod_mul_right]
  rw [hq'] at hcase ⊢
  rw [hr']
  rintro ⟨h1, h2⟩
  rcases hcase with hd | ⟨hg, hq⟩
  · have h50 : 50 ≤ m * 2 ^ (a + g - f) % 100 := by
      have : 100 * 2 ^ f ≤ (2 * (m * 2 ^ (a + g - f) % 100)) * 2 ^ f := by
        rw [mul_assoc]; exact h1
      have := Nat.le_of_mul_le_mul_right this hfpos
      omega
    have h64 : 64 ∣ m * 2 ^ (a + g - f) := by
      refine ⟨m * 2 ^ (a + g - f - 6), ?_⟩
      have : 2 ^ (a + g - f) = 2 ^ 6 * 2 ^ (a + g - f - 6) := by
        rw [← pow_add]; congr 1; omega
      rw [this]; ring
    exact no_bad_quotient_of_multiple (by omega) h64 ⟨h50, h2⟩
  · have hp1 : 2 ^ 52 ≤ 2 ^ t := Nat.pow_le_pow_right (by decide) (by omega)
    have hp2 : 2 ^ 53 ≤ 2 ^ (t - 1) := Nat.pow_le_pow_right (by decide) (by omega)
    rw [Nat.mod_eq_of_lt (by omega)] at h2
    omega
/-- The arithmetic of `sys_pages` for a percentage `m * 2 ^ e` in `(0, 100]`
and `2 ^ K` pages: the two roundings of `os_percent / 100.0` and of the
product, followed by `llround`, give the exact value of
`m * 2 ^ e / 100 * 2 ^ K` rounded to the nearest integer, ties away from zero. -/
theorem llround_percent_pages {m : Nat} {e : Int} {K : Nat} (hm : 0 < m) (hm53 : m ≤ 2 ^ 53)
    (he : -1074 ≤ e) (hle : m * 2 ^ e.toNat ≤ 100 * 2 ^ (-e).toNat)
    (hK1 : 15 ≤ K) (hK2 : K ≤ 20) :
    llround (Double.mul (Double.div (.fin false m e) Double.hundred) (Double.of_u64 (2 ^ K))) =
      some ((round_half_away (m * 2 ^ e.toNat * 2 ^ K) (100 * 2 ^ (-e).toNat) : Nat) : Int) := by
  rw [div_hundred_eq, of_u64_pages hK1 hK2]
  have hf : (-e).toNat ≤ 1074 := by omega
  generalize e.toNat = a at hle ⊢
  generalize (-e).toNat = f at hle hf ⊢
  obtain ⟨g, hg1, hg2, hfg, hround, hmant, hcase⟩ := round_percent hm hm53 hf hle
  rw [hround]
  obtain ⟨t, rfl⟩ : ∃ t, g = K + t := ⟨g - K, by omega⟩
  have hmul : Double.mul
      (.fin false (Double.round_half_even (m * 2 ^ a * 2 ^ (K + t)) (100 * 2 ^ f))
        (-((K + t : Nat) : Int)))
      (.fin false (2 ^ 52) ((K : Int) - 52)) =
      Double.round false
        (Double.round_half_even (m * 2 ^ a * 2 ^ (K + t)) (100 * 2 ^ f) * 2 ^ 52)
        (2 ^ (52 + t)) := by
    simp only [Double.mul, Bool.xor_false]
    rw [if_neg (by push_cast; omega)]
    have : (-(-((K + t : Nat) : Int) + ((K : Int) - 52))).toNat = 52 + t := by
      push_cast; omega
    rw [this]
  rw [hmul, llround_round_exact hmant (by omega) (by omega)]
  have hR : 0 < 100 * 2 ^ f := Nat.mul_pos (by decide) (Nat.two_pow_pos _)
  have hbad := @no_bad_quotient m a f (K + t) t hfg (by omega) (by omega) hcase
  rw [round_twice hR (by omega) hbad]
  congr 2
  apply round_half_away_scale (Nat.mul_pos hR (Nat.two_pow_pos _)) hR
  rw [pow_add]
  ring
theorem round_half_away_le_of_le {p r x : Nat} (hr : 0 < r) (h : p ≤ x * r) :
    round_half_away p r ≤ x := by
  unfold round_half_away
  apply Nat.le_of_lt_succ
  rw [Nat.div_lt_iff_lt_mul (by omega)]
  nlinarith

theorem round_half_away_zero {r : Nat} (hr : 0 < r) : round_half_away 0 r = 0 := by
  unfold round_half_away
  apply Nat.div_eq_of_lt
  omega

/-- For every accepted configuration whose `os_percent` is a number
`(-1) ^ neg * m * 2 ^ e` (not a NaN), `compute_results` returns, `phys_pages` is
`phys_mb * 1024 * 1024 / 4096`, and `sys_pages` is the exact value of
`os_percent / 100 * phys_pages` rounded to the nearest integer, ties away from
zero: the two binary64 roundings of the code never change the result. -/
theorem sys_pages_of_real_percent {cfg : Config} (h : Accepted cfg) {neg : Bool} {m : Nat}
    {e : Int} (hu : cfg.os_percent = .fin neg m e) :
    ∃ r, compute_results cfg = .ok r ∧
      (r.phys_pages : Int) = cfg.phys_mb * 1024 * 1024 / 4096 ∧
      r.sys_pages =
        some (round_half_away (m * 2 ^ e.toNat * r.phys_pages) (100 * 2 ^ (-e).toNat)) := by
  obtain ⟨a, b, c, p, hv, -⟩ := accepted_valid h
  obtain ⟨r, hr, hpp, hs⟩ := compute_results_sys_pages hv
  have hrep := accepted_representable h
  have hin : cfg.os_percent.in_0_100 := by
    by_contra hc
    rcases (os_rule_iff cfg.os_percent (by rw [hu]; simp)).2 hc with h1 | h1
    · rw [hv.os_not_lt] at h1; exact absurd h1 (by simp)
    · rw [hv.os_not_gt] at h1; exact absurd h1 (by simp)
  obtain ⟨hp1, hp2⟩ := hv.p_range
  have hmb := hv.phys_mb_eq
  rw [hu] at hin hrep hs
  simp only [Double.representable, decide_eq_true_eq] at hrep
  obtain ⟨hm53, he⟩ := hrep
  obtain ⟨hsign, hrange⟩ := hin
  have hR : 0 < 100 * 2 ^ (-e).toNat := Nat.mul_pos (by decide) (Nat.two_pow_pos _)
  refine ⟨r, hr, ?_, ?_⟩
  · rw [hpp, hmb]
    push_cast
    rw [pow_add]
    omega
  rw [hpp]
  by_cases hm0 : m = 0
  · subst hm0
    rw [hs, div_hundred_of_zero, of_u64_pages (by omega) (by omega), mul_zero_fin, llround_zero,
      Nat.zero_mul, Nat.zero_mul, round_half_away_zero hR]
    rfl
  · have hneg : neg = false := by
      rcases hsign with h1 | h1
      · exact h1
      · exact absurd h1 hm0
    subst hneg
    have hle : m * 2 ^ e.toNat ≤ 100 * 2 ^ (-e).toNat := by
      by_cases he0 : 0 ≤ e
      · rw [if_pos he0] at hrange
        have : (-e).toNat = 0 := by omega
        rw [this]; simpa using hrange
      · rw [if_neg he0] at hrange
        have : e.toNat = 0 := by omega
        rw [this]; simpa using hrange
    rw [hs, llround_percent_pages (Nat.pos_of_ne_zero hm0) hm53 he hle (by omega) (by omega)]
    have hb : round_half_away (m * 2 ^ e.toNat * 2 ^ (p + 8)) (100 * 2 ^ (-e).toNat)
        ≤ 2 ^ (p + 8) := by
      apply round_half_away_le_of_le hR
      calc m * 2 ^ e.toNat * 2 ^ (p + 8) ≤ 100 * 2 ^ (-e).toNat * 2 ^ (p + 8) :=
            Nat.mul_le_mul_right _ hle
        _ = 2 ^ (p + 8) * (100 * 2 ^ (-e).toNat) := by ring
    have hlt : 2 ^ (p + 8) < 2 ^ 64 := Nat.pow_lt_pow_right (by decide) (by omega)
    simp only [Option.map_some']
    rw [to_u64_natCast (by omega)]

/-! # The claims -/

/-- C1: for every accepted configuration `compute_results` returns, and its
integer cache fields are those of the reference pipeline computed in exact
integer arithmetic: blocks = cache bytes / block size, rows = blocks /
associativity, index bits = log2 rows, tag bits = log2 (physical bytes) - index
bits - log2 (block size), overhead bytes = ceiling of rows * associativity *
(1 + tag bits) / 8, implementation bytes = cache bytes + overhead bytes. -/
theorem C1_cache_fields_follow_reference_pipeline (cfg : Config) (h : Accepted cfg) :
    ∃ r, compute_results cfg = .ok r ∧
      (r.blocks_total : Int) = cfg.cache_kb * 1024 / cfg.block_bytes ∧
      (r.rows_total : Int) = (r.blocks_total : Int) / cfg.associativity ∧
      r.index_bits = (Nat.log 2 r.rows_total : Int) ∧
      r.tag_bits = (Nat.log 2 (cfg.phys_mb * 1024 * 1024).toNat : Int) - r.index_bits
        - (Nat.log 2 cfg.block_bytes.toNat : Int) ∧
      (r.overhead_bytes : Int)
        = ceilDiv ((r.rows_total : Int) * cfg.associativity * (1 + r.tag_bits)) 8 ∧
      (r.impl_mem_bytes : Int) = cfg.cache_kb * 1024 + (r.overhead_bytes : Int) := by
  obtain ⟨a, b, c, p, hv, hn⟩ := accepted_valid h
  obtain ⟨r, hr, h1, h2, h3, h4, h5, h6, -, -, -⟩ := compute_results_of_valid hv hn
  obtain ⟨⟨ha1, ha2⟩, ⟨hb1, hb2⟩, hc1, ⟨hp1, hp2⟩, ha, hb, hc, hp, -, -, -, -⟩ := hv
  refine ⟨r, hr, ?_, ?_, ?_, ?_, ?_, ?_⟩
  · rw [h1, ha, hb]
    have e : 2 ^ (a + 10 - b) = 2 ^ a * 1024 / 2 ^ b := by
      rw [pow_mul_1024, Nat.pow_div (by omega) (by decide)]
    rw [e]
    norm_cast
  · rw [h2, h1, hc]
    have e : 2 ^ (a + 10 - b - c) = 2 ^ (a + 10 - b) / 2 ^ c := by
      rw [Nat.pow_div (by omega) (by decide)]
    rw [e]
    norm_cast
  · rw [h3, h2, Nat.log_pow (by decide)]
  · rw [h4, h3, hp, hb]
    have e1 : (((2 ^ p : Nat) : Int) * 1024 * 1024).toNat = 2 ^ (p + 20) := by
      have : ((2 ^ p : Nat) : Int) * 1024 * 1024 = ((2 ^ (p + 20) : Nat) : Int) := by
        rw [show p + 20 = p + 10 + 10 by omega, ← pow_mul_1024, ← pow_mul_1024]
        push_cast; ring
      rw [this, Int.toNat_natCast]
    rw [e1, Int.toNat_natCast, Nat.log_pow (by decide), Nat.log_pow (by decide)]
    omega
  · rw [h5, h2, h4, hc, add_seven_div_eight]
    congr 1
  · rw [h6, h5, ha, ← pow_mul_1024]
    push_cast
    ring

/-- C1 at Scenario A: 1024 blocks, 1024 rows, 10 index bits, 14 tag bits,
1920 overhead bytes, 10112 implementation bytes. -/
theorem C1_scenarioA_witness :
    Accepted scenarioA ∧
    (∃ r, compute_results scenarioA = .ok r ∧
      (r.blocks_total : Int) = scenarioA.cache_kb * 1024 / scenarioA.block_bytes ∧
      (r.rows_total : Int) = (r.blocks_total : Int) / scenarioA.associativity ∧
      r.index_bits = (Nat.log 2 r.rows_total : Int) ∧
      r.tag_bits = (Nat.log 2 (scenarioA.phys_mb * 1024 * 1024).toNat : Int) - r.index_bits
        - (Nat.log 2 scenarioA.block_bytes.toNat : Int) ∧
      (r.overhead_bytes : Int)
        = ceilDiv ((r.rows_total : Int) * scenarioA.associativity * (1 + r.tag_bits)) 8 ∧
      (r.impl_mem_bytes : Int) = scenarioA.cache_kb * 1024 + (r.overhead_bytes : Int)) ∧
    (compute_results scenarioA).map
        (fun r => (r.blocks_total, r.rows_total, r.index_bits, r.tag_bits, r.overhead_bytes,
          r.impl_mem_bytes))
      = .ok (1024, 1024, 10, 14, 1920, 10112) :=
  ⟨⟨scenarioA_argv, by decide⟩,
    C1_cache_fields_follow_reference_pipeline scenarioA ⟨scenarioA_argv, by decide⟩,
    by decide⟩

/-- C2, counterexample: on a command line with four `-f` traces and cache
size 7 the program reports the trace-count failure although rule 1, the
cache-size rule, is violated; so the reported error is not always the first
violated rule. -/
theorem C2_fourth_trace_reported_before_cache_size :
    spec_tokenize four_traces_argv = some four_traces_raw ∧
    parse_args four_traces_argv = .error .too_many_traces ∧
    Failure.rule .too_many_traces = some .InvalidTraceCount ∧
    four_traces_raw.violates .InvalidCacheSize ∧
    ¬ (∀ (argv : List String) (raw : RawInputs) (e : Failure),
        spec_tokenize argv = some raw → parse_args argv = .error e →
        ∃ v, e.rule = some v ∧ FirstViolated raw v) := by
  have h1 : spec_tokenize four_traces_argv = some four_traces_raw := by decide
  have h2 : parse_args four_traces_argv = .error .too_many_traces := by decide
  have h3 : four_traces_raw.violates .InvalidCacheSize := by
    intro hc
    exact absurd hc.1 (by decide)
  refine ⟨h1, h2, rfl, h3, ?_⟩
  intro hall
  obtain ⟨v, hv, hfirst⟩ := hall _ _ _ h1 h2
  simp only [Failure.rule, Option.some.injEq] at hv
  subst hv
  exact hfirst.2 .InvalidCacheSize (by decide) h3

/-- C2, amended: for raw inputs read from a command line, (1) with at most
three `-f` traces and an `osMemoryPercent` that is not a NaN, every failure of
`parse_args` reports the first violated rule in the fixed order; (2) with more
than three `-f` traces, `parse_args` fails with the trace-count failure raised
while the arguments are read, whatever the other fields are. -/
theorem C2_first_violated_rule_within_three_traces (argv : List String) (raw : RawInputs)
    (ht : spec_tokenize argv = some raw) :
    (raw.traceIdentifiers.length ≤ 3 → raw.osMemoryPercent ≠ .nan →
      ∀ e, parse_args argv = .error e → ∃ v, e.rule = some v ∧ FirstViolated raw v) ∧
    (3 < raw.traceIdentifiers.length → parse_args argv = .error .too_many_traces) := by
  match argv, ht with
  | [], ht => exact absurd ht (by simp [spec_tokenize])
  | [_], ht => exact absurd ht (by simp [spec_tokenize])
  | prog :: arg :: args, ht =>
    simp only [spec_tokenize] at ht
    obtain ⟨hle, hgt⟩ := parse_loop_refines _ (arg :: args) Config.initial RawInputs.initial raw
      le_rfl initial_holds (by decide) ht
    constructor
    · intro h3 hnan e he
      obtain ⟨cfg, hloop, hh⟩ := hle h3
      rw [parse_args_eq_validate prog arg args hloop] at he
      cases hv : validate cfg with
      | ok u => rw [hv] at he; exact absurd he (by simp [Except.map])
      | error e' =>
        rw [hv] at he
        simp only [Except.map, Except.error.injEq] at he
        subst he
        exact validate_error_first_violated hh h3 hnan hv
    · intro h3
      simp only [parse_args, hgt h3]

/-- C2, amended, at a command line that breaks rules 3 and 4: rule 3 is
reported. -/
theorem C2_bad_assoc_witness :
    spec_tokenize bad_assoc_argv = some bad_assoc_raw ∧
    ((bad_assoc_raw.traceIdentifiers.length ≤ 3 → bad_assoc_raw.osMemoryPercent ≠ .nan →
      ∀ e, parse_args bad_assoc_argv = .error e →
        ∃ v, e.rule = some v ∧ FirstViolated bad_assoc_raw v) ∧
    (3 < bad_assoc_raw.traceIdentifiers.length →
      parse_args bad_assoc_argv = .error .too_many_traces)) ∧
    parse_args bad_assoc_argv = .error .associativity_rule :=
  ⟨by decide,
    C2_first_violated_rule_within_three_traces bad_assoc_argv bad_assoc_raw (by decide),
    by decide⟩

/-- C3, the failing input: with `-u nan` and all other fields valid,
`parse_args` returns a `Config` whose `os_percent` is a NaN, which is not a
number of `[0, 100]`; `compute_results` then stores an unspecified
`sys_pages`. -/
theorem C3_nan_os_percent_accepted :
    spec_tokenize nan_argv = some nan_raw ∧
    parse_args nan_argv = .ok nan_config ∧
    nan_config.os_percent = .nan ∧
    ¬ nan_raw.osMemoryPercent.in_0_100 ∧
    (compute_results nan_config).map (fun r => r.sys_pages) = .ok none :=
  ⟨by decide, by decide, rfl, fun h => h, by decide⟩

/-- C4: for a cache size in `[8, 8192]`, validation fails with the cache-size
error when the size is not a power of two, whatever the other fields are, and
never fails with the cache-size error when it is a power of two; the same
holds for `parse_args` on every command line whose arguments are read into
that `Config`. -/
theorem C4_cache_size_rule (cfg : Config) (h : 8 ≤ cfg.cache_kb ∧ cfg.cache_kb ≤ 8192) :
    (¬ IsPow2 cfg.cache_kb → validate cfg = .error .cache_size_rule) ∧
    (IsPow2 cfg.cache_kb → validate cfg ≠ .error .cache_size_rule) ∧
    ∀ (prog arg : String) (args : List String),
      parse_loop (arg :: args) Config.initial = .ok cfg →
      (¬ IsPow2 cfg.cache_kb → parse_args (prog :: arg :: args) = .error .cache_size_rule) ∧
      (IsPow2 cfg.cache_kb → parse_args (prog :: arg :: args) ≠ .error .cache_size_rule) := by
  have hbad : ¬ IsPow2 cfg.cache_kb → validate cfg = .error .cache_size_rule := by
    intro hp
    unfold validate
    rw [if_pos ((cache_rule_iff cfg).2 (fun hc => hp hc.2.2))]
  have hgood : IsPow2 cfg.cache_kb → validate cfg ≠ .error .cache_size_rule := by
    intro hp
    exact validate_ne_cache_rule (fun hc => (cache_rule_iff cfg).1 hc ⟨h.1, h.2, hp⟩)
  refine ⟨hbad, hgood, ?_⟩
  intro prog arg args hloop
  rw [parse_args_eq_validate prog arg args hloop]
  refine ⟨fun hp => by rw [hbad hp]; rfl, fun hp hc => hgood hp ?_⟩
  cases hv : validate cfg with
  | ok u => rw [hv] at hc; exact absurd hc (by simp [Except.map])
  | error e => rw [hv] at hc; simpa [Except.map] using hc

/-- C4 at a cache size of 24 KB, which is rejected, next to Scenario A, whose
8 KB are accepted. -/
theorem C4_cache24_witness :
    (8 ≤ cache24.cache_kb ∧ cache24.cache_kb ≤ 8192) ∧
    ((¬ IsPow2 cache24.cache_kb → validate cache24 = .error .cache_size_rule) ∧
    (IsPow2 cache24.cache_kb → validate cache24 ≠ .error .cache_size_rule) ∧
    ∀ (prog arg : String) (args : List String),
      parse_loop (arg :: args) Config.initial = .ok cache24 →
      (¬ IsPow2 cache24.cache_kb →
        parse_args (prog :: arg :: args) = .error .cache_size_rule) ∧
      (IsPow2 cache24.cache_kb →
        parse_args (prog :: arg :: args) ≠ .error .cache_size_rule)) ∧
    validate cache24 = .error .cache_size_rule ∧
    validate scenarioA = .ok () :=
  ⟨by decide, C4_cache_size_rule cache24 (by decide), by decide, by decide⟩

/-- C5: for every accepted configuration the tag width computed by
`compute_results` is non-negative, so the `negative tag bits` failure is never
raised. -/
theorem C5_tag_bits_nonnegative (cfg : Config) (h : Accepted cfg) :
    (∃ r, compute_results cfg = .ok r ∧ 0 ≤ r.tag_bits) ∧
      compute_results cfg ≠ .error .negative_tag_bits := by
  obtain ⟨a, b, c, p, hv, hn⟩ := accepted_valid h
  obtain ⟨r, hr, -, -, -, h4, -⟩ := compute_results_of_valid hv hn
  refine ⟨⟨r, hr, ?_⟩, ?_⟩
  · rw [h4]; omega
  · rw [hr]; simp

/-- C5 at the boundary configuration. -/
theorem C5_boundary_witness :
    Accepted boundary ∧
    ((∃ r, compute_results boundary = .ok r ∧ 0 ≤ r.tag_bits) ∧
      compute_results boundary ≠ .error .negative_tag_bits) :=
  ⟨⟨boundary_argv, by decide⟩,
    C5_tag_bits_nonnegative boundary ⟨boundary_argv, by decide⟩⟩

/-- C6: for every accepted configuration `rows_total` is an exact power of
two, `rows_total * associativity * block_bytes` is the cache size in bytes, and
both divisions that produce it leave no remainder. -/
theorem C6_rows_total_power_of_two (cfg : Config) (h : Accepted cfg) :
    ∃ r, compute_results cfg = .ok r ∧
      (∃ k : Nat, r.rows_total = 2 ^ k) ∧
      (r.rows_total : Int) * cfg.associativity * cfg.block_bytes = cfg.cache_kb * 1024 ∧
      (cfg.cache_kb * 1024) % cfg.block_bytes = 0 ∧
      (cfg.cache_kb * 1024 / cfg.block_bytes) % cfg.associativity = 0 ∧
      (r.rows_total : Int) = cfg.cache_kb * 1024 / cfg.block_bytes / cfg.associativity := by
  obtain ⟨a, b, c, p, hv, hn⟩ := accepted_valid h
  obtain ⟨r, hr, -, h2, -⟩ := compute_results_of_valid hv hn
  obtain ⟨⟨ha1, ha2⟩, ⟨hb1, hb2⟩, hc1, ⟨hp1, hp2⟩, ha, hb, hc, hp, -, -, -, -⟩ := hv
  have e1 : 2 ^ a * 1024 = 2 ^ (a + 10 - b - c) * 2 ^ c * 2 ^ b := by
    rw [pow_mul_1024, ← pow_add, ← pow_add]
    congr 1; omega
  have e2 : 2 ^ a * 1024 / 2 ^ b = 2 ^ (a + 10 - b) := by
    rw [pow_mul_1024, Nat.pow_div (by omega) (by decide)]
  have e3 : 2 ^ (a + 10 - b) = 2 ^ (a + 10 - b - c) * 2 ^ c := by
    rw [← pow_add]; congr 1; omega
  have e4 : (2 ^ a * 1024) % 2 ^ b = 0 := by
    rw [e1]; exact Nat.mul_mod_left _ _
  have e5 : (2 ^ a * 1024 / 2 ^ b) % 2 ^ c = 0 := by
    rw [e2, e3]; exact Nat.mul_mod_left _ _
  have e6 : 2 ^ a * 1024 / 2 ^ b / 2 ^ c = 2 ^ (a + 10 - b - c) := by
    rw [e2, Nat.pow_div (by omega) (by decide)]
  refine ⟨r, hr, ⟨_, h2⟩, ?_, ?_, ?_, ?_⟩
  · rw [h2, ha, hb, hc]; exact_mod_cast e1.symm
  · rw [ha, hb]; exact_mod_cast e4
  · rw [ha, hb, hc]; exact_mod_cast e5
  · rw [h2, ha, hb, hc]; exact_mod_cast e6.symm

/-- C6 at Scenario C. -/
theorem C6_scenarioC_witness :
    Accepted scenarioC ∧
    ∃ r, compute_results scenarioC = .ok r ∧
      (∃ k : Nat, r.rows_total = 2 ^ k) ∧
      (r.rows_total : Int) * scenarioC.associativity * scenarioC.block_bytes
        = scenarioC.cache_kb * 1024 ∧
      (scenarioC.cache_kb * 1024) % scenarioC.block_bytes = 0 ∧
      (scenarioC.cache_kb * 1024 / scenarioC.block_bytes) % scenarioC.associativity = 0 ∧
      (r.rows_total : Int)
        = scenarioC.cache_kb * 1024 / scenarioC.block_bytes / scenarioC.associativity :=
  ⟨⟨scenarioC_argv, by decide⟩,
    C6_rows_total_power_of_two scenarioC ⟨scenarioC_argv, by decide⟩⟩

/-- C7: for every accepted configuration each of the four arguments that
`compute_results` hands to `ilog2_u64` (`phys_bytes`, `block_bytes`,
`rows_total`, `phys_pages`) is a power of two, and the width `w` returned for
it satisfies `2 ^ w = argument`. -/
theorem C7_ilog2_arguments_are_powers_of_two (cfg : Config) (h : Accepted cfg) :
    ∃ r, compute_results cfg = .ok r ∧
      (∃ w : Nat, ilog2_u64 (phys_bytes cfg) = some (w : Int) ∧ 2 ^ w = phys_bytes cfg) ∧
      (∃ w : Nat, ilog2_u64 (to_u64 cfg.block_bytes) = some (w : Int) ∧
        2 ^ w = to_u64 cfg.block_bytes) ∧
      (∃ w : Nat, ilog2_u64 r.rows_total = some (w : Int) ∧ r.index_bits = (w : Int) ∧
        2 ^ w = r.rows_total) ∧
      (∃ w : Nat, ilog2_u64 r.phys_pages = some (w : Int) ∧ r.pte_bits = 1 + (w : Int) ∧
        2 ^ w = r.phys_pages) := by
  obtain ⟨a, b, c, p, hv, hn⟩ := accepted_valid h
  obtain ⟨r, hr, -, h2, h3, -, -, -, h7, h8, -⟩ := compute_results_of_valid hv hn
  have hpb := valid_phys_bytes hv
  have hbb := valid_block_bytes hv
  obtain ⟨⟨ha1, ha2⟩, ⟨hb1, hb2⟩, hc1, ⟨hp1, hp2⟩, -⟩ := hv
  refine ⟨r, hr, ⟨p + 20, ?_, hpb.symm⟩, ⟨b, ?_, hbb.symm⟩, ⟨a + 10 - b - c, ?_, h3, h2.symm⟩,
    ⟨p + 8, ?_, ?_, h7.symm⟩⟩
  · rw [hpb]; exact ilog2_u64_pow (by omega)
  · rw [hbb]; exact ilog2_u64_pow (by omega)
  · rw [h2]; exact ilog2_u64_pow (by omega)
  · rw [h7]; exact ilog2_u64_pow (by omega)
  · rw [h8]; push_cast; ring

/-- C7 at the boundary configuration. -/
theorem C7_boundary_witness :
    Accepted boundary ∧
    ∃ r, compute_results boundary = .ok r ∧
      (∃ w : Nat, ilog2_u64 (phys_bytes boundary) = some (w : Int) ∧
        2 ^ w = phys_bytes boundary) ∧
      (∃ w : Nat, ilog2_u64 (to_u64 boundary.block_bytes) = some (w : Int) ∧
        2 ^ w = to_u64 boundary.block_bytes) ∧
      (∃ w : Nat, ilog2_u64 r.rows_total = some (w : Int) ∧ r.index_bits = (w : Int) ∧
        2 ^ w = r.rows_total) ∧
      (∃ w : Nat, ilog2_u64 r.phys_pages = some (w : Int) ∧ r.pte_bits = 1 + (w : Int) ∧
        2 ^ w = r.phys_pages) :=
  ⟨⟨boundary_argv, by decide⟩,
    C7_ilog2_arguments_are_powers_of_two boundary ⟨boundary_argv, by decide⟩⟩

/-- C8: for every accepted configuration the overhead bytes cover the overhead
bits: `rows_total * associativity * (1 + tag_bits) ≤ overhead_bytes * 8`. -/
theorem C8_overhead_bytes_cover_overhead_bits (cfg : Config) (h : Accepted cfg) :
    ∃ r, compute_results cfg = .ok r ∧
      (r.rows_total : Int) * cfg.associativity * (1 + r.tag_bits)
        ≤ (r.overhead_bytes : Int) * 8 := by
  obtain ⟨a, b, c, p, hv, hn⟩ := accepted_valid h
  obtain ⟨r, hr, -, h2, -, h4, h5, -⟩ := compute_results_of_valid hv hn
  refine ⟨r, hr, ?_⟩
  rw [h2, h4, h5, hv.associativity_eq]
  have key : 2 ^ (a + 10 - b - c) * 2 ^ c * (1 + (p + 10 + c - a))
      ≤ (2 ^ (a + 10 - b - c) * 2 ^ c * (1 + (p + 10 + c - a)) + 7) / 8 * 8 := by omega
  exact_mod_cast key

/-- C8 at Scenario A. -/
theorem C8_scenarioA_witness :
    Accepted scenarioA ∧
    ∃ r, compute_results scenarioA = .ok r ∧
      (r.rows_total : Int) * scenarioA.associativity * (1 + r.tag_bits)
        ≤ (r.overhead_bytes : Int) * 8 :=
  ⟨⟨scenarioA_argv, by decide⟩,
    C8_overhead_bytes_cover_overhead_bits scenarioA ⟨scenarioA_argv, by decide⟩⟩

/-- C9: for every accepted configuration `phys_pages` is the physical memory
in bytes divided by 4096, `pte_bits` is one more than log2 of `phys_pages`, and
`pgt_total_bytes` is `(512 * 1024 * num_traces * pte_bits + 7) / 8` in exact
integer arithmetic, the entry count 512K being a constant. -/
theorem C9_page_table_fields (cfg : Config) (h : Accepted cfg) :
    ∃ r, compute_results cfg = .ok r ∧
      (r.phys_pages : Int) = cfg.phys_mb * 1024 * 1024 / 4096 ∧
      r.pte_bits = 1 + (Nat.log 2 r.phys_pages : Int) ∧
      (r.pgt_total_bytes : Int) = (512 * 1024 * cfg.num_traces * r.pte_bits + 7) / 8 := by
  obtain ⟨a, b, c, p, hv, hn⟩ := accepted_valid h
  obtain ⟨r, hr, -, -, -, -, -, -, h7, h8, h9⟩ := compute_results_of_valid hv hn
  obtain ⟨⟨ha1, ha2⟩, ⟨hb1, hb2⟩, hc1, ⟨hp1, hp2⟩, ha, hb, hc, hp, -, -, -, hn1⟩ := hv
  refine ⟨r, hr, ?_, ?_, ?_⟩
  · rw [h7, hp]
    have e : 2 ^ (p + 8) = 2 ^ p * 1024 * 1024 / 4096 := by
      rw [pow_mul_1024, pow_mul_1024, show (4096 : Nat) = 2 ^ 12 by norm_num,
        Nat.pow_div (by omega) (by decide)]
      congr 1
    rw [e]
    norm_cast
  · rw [h8, h7, Nat.log_pow (by decide)]
    push_cast; ring
  · rw [h9, h8]
    have hcast : ((cfg.num_traces.toNat : Nat) : Int) = cfg.num_traces := Int.toNat_of_nonneg (by omega)
    rw [← hcast]
    norm_cast

/-- C9 at Scenario C: 65536 pages, 17-bit entries, 3342336 bytes, which is
`512 * 1024 * 3 * 17` bits. -/
theorem C9_scenarioC_witness :
    Accepted scenarioC ∧
    (∃ r, compute_results scenarioC = .ok r ∧
      (r.phys_pages : Int) = scenarioC.phys_mb * 1024 * 1024 / 4096 ∧
      r.pte_bits = 1 + (Nat.log 2 r.phys_pages : Int) ∧
      (r.pgt_total_bytes : Int)
        = (512 * 1024 * scenarioC.num_traces * r.pte_bits + 7) / 8) ∧
    (compute_results scenarioC).map (fun r => (r.phys_pages, r.pte_bits, r.pgt_total_bytes))
      = .ok (65536, 17, 3342336) ∧
    (3342336 : Nat) * 8 = 512 * 1024 * 3 * 17 :=
  ⟨⟨scenarioC_argv, by decide⟩,
    C9_page_table_fields scenarioC ⟨scenarioC_argv, by decide⟩, by decide, by decide⟩

/-- C10: when the cache size passes rule 1, the block size passes rule 2 and
the associativity is none of 1, 2, 4, 8, 16, validation fails with the
associativity error, and with neither of the two row-count errors; the same
holds for `parse_args` on every command line whose arguments are read into
that `Config`. -/
theorem C10_associativity_rule_before_divisibility (cfg : Config)
    (h1 : 8 ≤ cfg.cache_kb ∧ cfg.cache_kb ≤ 8192 ∧ IsPow2 cfg.cache_kb)
    (h2 : cfg.block_bytes = 8 ∨ cfg.block_bytes = 16 ∨ cfg.block_bytes = 32 ∨
      cfg.block_bytes = 64)
    (h3 : ¬ (cfg.associativity = 1 ∨ cfg.associativity = 2 ∨ cfg.associativity = 4 ∨
      cfg.associativity = 8 ∨ cfg.associativity = 16)) :
    validate cfg = .error .associativity_rule ∧
    validate cfg ≠ .error .rows_not_integer ∧
    validate cfg ≠ .error .rows_not_pow2 ∧
    ∀ (prog arg : String) (args : List String),
      parse_loop (arg :: args) Config.initial = .ok cfg →
      parse_args (prog :: arg :: args) = .error .associativity_rule := by
  have hv : validate cfg = .error .associativity_rule := by
    unfold validate
    rw [if_neg (fun hc => (cache_rule_iff cfg).1 hc h1), if_neg (not_not.2 h2), if_pos h3]
  refine ⟨hv, by rw [hv]; simp, by rw [hv]; simp, ?_⟩
  intro prog arg args hloop
  rw [parse_args_eq_validate prog arg args hloop, hv]
  rfl

/-- C10 at associativity 3. -/
theorem C10_bad_assoc_witness :
    (8 ≤ bad_assoc.cache_kb ∧ bad_assoc.cache_kb ≤ 8192 ∧ IsPow2 bad_assoc.cache_kb) ∧
    (validate bad_assoc = .error .associativity_rule ∧
    validate bad_assoc ≠ .error .rows_not_integer ∧
    validate bad_assoc ≠ .error .rows_not_pow2 ∧
    ∀ (prog arg : String) (args : List String),
      parse_loop (arg :: args) Config.initial = .ok bad_assoc →
      parse_args (prog :: arg :: args) = .error .associativity_rule) ∧
    parse_args bad_assoc_argv = .error .associativity_rule :=
  ⟨⟨by decide, by decide, ⟨3, by decide⟩⟩,
    C10_associativity_rule_before_divisibility bad_assoc
      ⟨by decide, by decide, ⟨3, by decide⟩⟩ (by decide) (by decide),
    by decide⟩

/-- C11, counterexample: at Scenario A the block offset width is 3, and no
member of the `Results` that `compute_results` produces holds 3; so no member
of `Results` exposes the block offset width. -/
theorem C11_no_field_holds_block_offset_bits :
    Accepted scenarioA ∧
    ilog2_u64 (to_u64 scenarioA.block_bytes) = some 3 ∧
    compute_results scenarioA = .ok scenarioA_results ∧
    (3 : Int) ∉ scenarioA_results.integer_fields ∧
    scenarioA_results.impl_kb.gt Double.three = true ∧
    scenarioA_results.cost_usd.lt Double.three = true ∧
    ¬ (∃ i : Nat, ∀ (cfg : Config) (r : Results) (w : Int), Accepted cfg →
        compute_results cfg = .ok r → ilog2_u64 (to_u64 cfg.block_bytes) = some w →
        r.integer_fields[i]? = some w) := by
  have hacc : Accepted scenarioA := ⟨scenarioA_argv, by decide⟩
  have hlog : ilog2_u64 (to_u64 scenarioA.block_bytes) = some 3 := by decide
  have hnot : (3 : Int) ∉ scenarioA_results.integer_fields := by decide
  refine ⟨hacc, hlog, compute_results_scenarioA, hnot, by decide, by decide, ?_⟩
  rintro ⟨i, hi⟩
  have := hi scenarioA scenarioA_results 3 hacc compute_results_scenarioA hlog
  exact hnot (List.getElem?_mem this)

/-- C11, amended: for every accepted configuration `compute_results` exposes
`tag_bits` and `index_bits`; the block offset width `w = log2 block_bytes` is
what `ilog2_u64` returns for the block size inside `compute_results`, and it
enters `tag_bits = log2 phys_bytes - index_bits - w`, but it is not a member of
`Results`. -/
theorem C11_tag_and_index_bits_exposed (cfg : Config) (h : Accepted cfg) :
    ∃ (r : Results) (w : Nat), compute_results cfg = .ok r ∧
      ilog2_u64 (to_u64 cfg.block_bytes) = some (w : Int) ∧
      w = Nat.log 2 cfg.block_bytes.toNat ∧
      r.index_bits = (Nat.log 2 r.rows_total : Int) ∧
      r.tag_bits = (Nat.log 2 (cfg.phys_mb * 1024 * 1024).toNat : Int) - r.index_bits
        - (w : Int) := by
  obtain ⟨a, b, c, p, hv, hn⟩ := accepted_valid h
  obtain ⟨r, hr, -, h2, h3, h4, -⟩ := compute_results_of_valid hv hn
  have hbb := valid_block_bytes hv
  obtain ⟨eP, -⟩ := valid_phys_bytes_exact hv
  obtain ⟨⟨ha1, ha2⟩, ⟨hb1, hb2⟩, hc1, ⟨hp1, hp2⟩, ha, hb, hc, hp, -, -, -, -⟩ := hv
  refine ⟨r, b, hr, ?_, ?_, ?_, ?_⟩
  · rw [hbb]; exact ilog2_u64_pow (by omega)
  · rw [hb, log_natCast_pow]
  · rw [h3, h2, Nat.log_pow (by decide)]
  · rw [h4, h3, eP, log_natCast_pow]
    omega

/-- C11, amended, at Scenario A: the block offset width is 3. -/
theorem C11_scenarioA_witness :
    Accepted scenarioA ∧
    (∃ (r : Results) (w : Nat), compute_results scenarioA = .ok r ∧
      ilog2_u64 (to_u64 scenarioA.block_bytes) = some (w : Int) ∧
      w = Nat.log 2 scenarioA.block_bytes.toNat ∧
      r.index_bits = (Nat.log 2 r.rows_total : Int) ∧
      r.tag_bits = (Nat.log 2 (scenarioA.phys_mb * 1024 * 1024).toNat : Int) - r.index_bits
        - (w : Int)) ∧
    ilog2_u64 (to_u64 scenarioA.block_bytes) = some 3 :=
  ⟨⟨scenarioA_argv, by decide⟩,
    C11_tag_and_index_bits_exposed scenarioA ⟨scenarioA_argv, by decide⟩, by decide⟩

/-- C12, the failing input: `parse_double` reads `nan` as a NaN; with rules 1
to 4 passing, the NaN is not a number of `[0, 100]`, yet both comparisons of
the range check are false and validation succeeds. -/
theorem C12_nan_passes_the_os_percent_check :
    parse_double "nan" = some .nan ∧
    Accepted nan_config ∧
    (8 ≤ nan_config.cache_kb ∧ nan_config.cache_kb ≤ 8192 ∧ IsPow2 nan_config.cache_kb) ∧
    nan_config.block_bytes = 8 ∧ nan_config.associativity = 1 ∧
    (128 ≤ nan_config.phys_mb ∧ nan_config.phys_mb ≤ 4096 ∧ IsPow2 nan_config.phys_mb) ∧
    ¬ nan_config.os_percent.in_0_100 ∧
    nan_config.os_percent.lt Double.zero = false ∧
    nan_config.os_percent.gt Double.hundred = false ∧
    validate nan_config = .ok () :=
  ⟨by decide, ⟨nan_argv, by decide⟩, ⟨by decide, by decide, ⟨3, by decide⟩⟩, rfl, rfl,
    ⟨by decide, by decide, ⟨7, by decide⟩⟩, fun h => h, rfl, rfl, by decide⟩

/-- C13: for every accepted configuration whose `os_percent` is zero (of
either sign), `compute_results` stores `sys_pages = 0`. -/
theorem C13_zero_percent_gives_zero_pages (cfg : Config) (h : Accepted cfg)
    (hz : cfg.os_percent.is_zero) :
    ∃ r, compute_results cfg = .ok r ∧ r.sys_pages = some 0 := by
  obtain ⟨a, b, c, p, hv, hn⟩ := accepted_valid h
  obtain ⟨r, hr, -, hs⟩ := compute_results_sys_pages hv
  obtain ⟨m, e, hof⟩ := of_u64_pages_finite hv.p_range.1 hv.p_range.2
  obtain ⟨n, e0, h0⟩ := hz
  refine ⟨r, hr, ?_⟩
  rw [hs, h0, div_hundred_of_zero, hof, mul_zero_fin, llround_zero]
  rfl

set_option maxRecDepth 8000 in
/-- C13 at Scenario B, and the value for `-u -0`. -/
theorem C13_scenarioB_witness :
    Accepted scenarioB ∧ scenarioB.os_percent.is_zero ∧
    (∃ r, compute_results scenarioB = .ok r ∧ r.sys_pages = some 0) ∧
    Accepted minus_zero ∧
    (compute_results minus_zero).map (fun r => r.sys_pages) = .ok (some 0) :=
  ⟨⟨scenarioB_argv, by decide⟩, ⟨false, 0, rfl⟩,
    C13_zero_percent_gives_zero_pages scenarioB ⟨scenarioB_argv, by decide⟩ ⟨false, 0, rfl⟩,
    ⟨minus_zero_argv, by decide⟩, by decide⟩

set_option maxRecDepth 8000 in
/-- C14, the failing input: the configuration accepted for `-u nan` has no
real `os_percent`, and `compute_results` stores the unspecified result of
`llround` on a NaN as `sys_pages`; at Scenario A, 10 percent of 32768 pages
gives 3277. -/
theorem C14_sys_pages_unspecified_for_nan :
    Accepted nan_config ∧
    nan_config.os_percent = .nan ∧
    llround (Double.mul (Double.div .nan Double.hundred) (Double.of_u64 32768)) = none ∧
    (compute_results nan_config).map (fun r => (r.phys_pages, r.sys_pages))
      = .ok (32768, none) ∧
    (compute_results scenarioA).map (fun r => (r.phys_pages, r.sys_pages))
      = .ok (32768, some 3277) :=
  ⟨⟨nan_argv, by decide⟩, rfl, by decide, by decide, by decide⟩

/-- C15: for every accepted configuration neither byte ceiling rounds up: the
overhead bit count is a multiple of 8 and `overhead_bytes * 8` equals it, the
page-table bit count is a multiple of 8 and `pgt_total_bytes` is
`65536 * num_traces * pte_bits`. -/
theorem C15_byte_ceilings_are_exact (cfg : Config) (h : Accepted cfg) :
    ∃ r, compute_results cfg = .ok r ∧
      ((r.rows_total : Int) * cfg.associativity * (1 + r.tag_bits)) % 8 = 0 ∧
      (r.overhead_bytes : Int) * 8
        = (r.rows_total : Int) * cfg.associativity * (1 + r.tag_bits) ∧
      (512 * 1024 * cfg.num_traces * r.pte_bits) % 8 = 0 ∧
      (r.pgt_total_bytes : Int) = 65536 * cfg.num_traces * r.pte_bits := by
  obtain ⟨a, b, c, p, hv, hn⟩ := accepted_valid h
  obtain ⟨r, hr, -, h2, -, h4, h5, -, -, h8, h9⟩ := compute_results_of_valid hv hn
  obtain ⟨⟨ha1, ha2⟩, ⟨hb1, hb2⟩, hc1, ⟨hp1, hp2⟩, ha, hb, hc, hp, -, -, -, hn1⟩ := hv
  have e1 : 2 ^ (a + 10 - b - c) * 2 ^ c = 8 * 2 ^ (a + 7 - b) := by
    rw [← pow_add, show (8 : Nat) = 2 ^ 3 by norm_num, ← pow_add]
    congr 1; omega
  have hcast : ((cfg.num_traces.toNat : Nat) : Int) = cfg.num_traces :=
    Int.toNat_of_nonneg (by omega)
  refine ⟨r, hr, ?_, ?_, ?_, ?_⟩
  · rw [h2, h4, hc]
    have : (2 ^ (a + 10 - b - c) * 2 ^ c * (1 + (p + 10 + c - a))) % 8 = 0 := by
      rw [e1, Nat.mul_assoc]; exact Nat.mul_mod_right _ _
    exact_mod_cast this
  · rw [h2, h4, h5, hc]
    have : (2 ^ (a + 10 - b - c) * 2 ^ c * (1 + (p + 10 + c - a)) + 7) / 8 * 8
        = 2 ^ (a + 10 - b - c) * 2 ^ c * (1 + (p + 10 + c - a)) := by
      rw [e1, Nat.mul_assoc]; omega
    exact_mod_cast this
  · have : (512 * 1024 * cfg.num_traces * r.pte_bits)
        = 8 * (65536 * cfg.num_traces * r.pte_bits) := by ring
    rw [this]; exact Int.mul_emod_right _ _
  · rw [h9, h8, ← hcast]
    have : (2 ^ 19 * cfg.num_traces.toNat * (p + 9) + 7) / 8
        = 65536 * cfg.num_traces.toNat * (p + 9) := by
      have : 2 ^ 19 * cfg.num_traces.toNat * (p + 9)
          = 8 * (65536 * cfg.num_traces.toNat * (p + 9)) := by ring
      omega
    exact_mod_cast this

/-- C15 at Scenario C. -/
theorem C15_scenarioC_witness :
    Accepted scenarioC ∧
    (∃ r, compute_results scenarioC = .ok r ∧
      ((r.rows_total : Int) * scenarioC.associativity * (1 + r.tag_bits)) % 8 = 0 ∧
      (r.overhead_bytes : Int) * 8
        = (r.rows_total : Int) * scenarioC.associativity * (1 + r.tag_bits) ∧
      (512 * 1024 * scenarioC.num_traces * r.pte_bits) % 8 = 0 ∧
      (r.pgt_total_bytes : Int) = 65536 * scenarioC.num_traces * r.pte_bits) ∧
    (compute_results scenarioC).map
        (fun r => (r.rows_total, r.tag_bits, r.overhead_bytes, r.pte_bits, r.pgt_total_bytes))
      = .ok (1024, 14, 7680, 17, 3342336) :=
  ⟨⟨scenarioC_argv, by decide⟩,
    C15_byte_ceilings_are_exact scenarioC ⟨scenarioC_argv, by decide⟩, by decide⟩

/-- C16: when rules 1 to 3 pass, the block count is divisible by the
associativity and the row count is a power of two, so validation raises
neither row-count failure; no command line at all makes `parse_args` fail
with one of them. -/
theorem C16_row_count_checks_never_fail (cfg : Config)
    (h1 : 8 ≤ cfg.cache_kb ∧ cfg.cache_kb ≤ 8192 ∧ IsPow2 cfg.cache_kb)
    (h2 : cfg.block_bytes = 8 ∨ cfg.block_bytes = 16 ∨ cfg.block_bytes = 32 ∨
      cfg.block_bytes = 64)
    (h3 : cfg.associativity = 1 ∨ cfg.associativity = 2 ∨ cfg.associativity = 4 ∨
      cfg.associativity = 8 ∨ cfg.associativity = 16) :
    (cfg.cache_kb * 1024 / cfg.block_bytes) % cfg.associativity = 0 ∧
    IsPow2 (cfg.cache_kb * 1024 / cfg.block_bytes / cfg.associativity) ∧
    validate cfg ≠ .error .rows_not_integer ∧
    validate cfg ≠ .error .rows_not_pow2 ∧
    ∀ argv : List String,
      parse_args argv ≠ .error .rows_not_integer ∧ parse_args argv ≠ .error .rows_not_pow2 := by
  obtain ⟨a, ha1, ha2, ha⟩ : ∃ a : Nat, 3 ≤ a ∧ a ≤ 13 ∧ cfg.cache_kb = ((2 ^ a : Nat) : Int) := by
    obtain ⟨r1, r2, k, hk⟩ := h1
    have hk' : cfg.cache_kb = ((2 ^ k : Nat) : Int) := by rw [hk]; push_cast; rfl
    have b1 : 2 ^ 3 ≤ 2 ^ k := by
      have : ((2 ^ 3 : Nat) : Int) ≤ ((2 ^ k : Nat) : Int) := by rw [← hk']; simpa using r1
      exact_mod_cast this
    have b2 : 2 ^ k ≤ 2 ^ 13 := by
      have : ((2 ^ k : Nat) : Int) ≤ ((2 ^ 13 : Nat) : Int) := by rw [← hk']; simpa using r2
      exact_mod_cast this
    obtain ⟨q1, q2⟩ := pow_exponent_range b1 b2
    exact ⟨k, q1, q2, hk'⟩
  obtain ⟨b, hb1, hb2, hb⟩ : ∃ b : Nat, 3 ≤ b ∧ b ≤ 6 ∧
      cfg.block_bytes = ((2 ^ b : Nat) : Int) := by
    rcases h2 with e | e | e | e
    · exact ⟨3, by decide, by decide, by simp [e]⟩
    · exact ⟨4, by decide, by decide, by simp [e]⟩
    · exact ⟨5, by decide, by decide, by simp [e]⟩
    · exact ⟨6, by decide, by decide, by simp [e]⟩
  obtain ⟨c, hc1, hc⟩ : ∃ c : Nat, c ≤ 4 ∧ cfg.associativity = ((2 ^ c : Nat) : Int) := by
    rcases h3 with e | e | e | e | e
    · exact ⟨0, by decide, by simp [e]⟩
    · exact ⟨1, by decide, by simp [e]⟩
    · exact ⟨2, by decide, by simp [e]⟩
    · exact ⟨3, by decide, by simp [e]⟩
    · exact ⟨4, by decide, by simp [e]⟩
  have e2 : 2 ^ a * 1024 / 2 ^ b = 2 ^ (a + 10 - b) := by
    rw [pow_mul_1024, Nat.pow_div (by omega) (by decide)]
  have e3 : 2 ^ (a + 10 - b) = 2 ^ (a + 10 - b - c) * 2 ^ c := by
    rw [← pow_add]; congr 1; omega
  have e5 : (2 ^ a * 1024 / 2 ^ b) % 2 ^ c = 0 := by
    rw [e2, e3]; exact Nat.mul_mod_left _ _
  have e6 : 2 ^ a * 1024 / 2 ^ b / 2 ^ c = 2 ^ (a + 10 - b - c) := by
    rw [e2, Nat.pow_div (by omega) (by decide)]
  refine ⟨?_, ?_, (validate_no_row_error cfg).1, (validate_no_row_error cfg).2,
    parse_args_no_row_error⟩
  · rw [ha, hb, hc]; exact_mod_cast e5
  · refine ⟨a + 10 - b - c, ?_⟩
    rw [ha, hb, hc]; exact_mod_cast e6

/-- C16 at Scenario C. -/
theorem C16_scenarioC_witness :
    (8 ≤ scenarioC.cache_kb ∧ scenarioC.cache_kb ≤ 8192 ∧ IsPow2 scenarioC.cache_kb) ∧
    ((scenarioC.cache_kb * 1024 / scenarioC.block_bytes) % scenarioC.associativity = 0 ∧
    IsPow2 (scenarioC.cache_kb * 1024 / scenarioC.block_bytes / scenarioC.associativity) ∧
    validate scenarioC ≠ .error .rows_not_integer ∧
    validate scenarioC ≠ .error .rows_not_pow2 ∧
    ∀ argv : List String,
      parse_args argv ≠ .error .rows_not_integer ∧
      parse_args argv ≠ .error .rows_not_pow2) :=
  ⟨⟨by decide, by decide, ⟨6, by decide⟩⟩,
    C16_row_count_checks_never_fail scenarioC ⟨by decide, by decide, ⟨6, by decide⟩⟩
      (by decide) (by decide)⟩

/-- C17: for every accepted configuration `tag_bits` is
`(log2 phys_mb + 20) - (log2 cache_kb + 10) + log2 associativity`; tag, index
and block-offset widths add up to the width of a physical address;
`4 ≤ tag_bits ≤ 23`; and an accepted configuration with the same cache size,
associativity and physical memory (whatever its block size) has the same
`tag_bits`. -/
theorem C17_tag_bits_formula (cfg : Config) (h : Accepted cfg) :
    ∃ r, compute_results cfg = .ok r ∧
      r.tag_bits = ((Nat.log 2 cfg.phys_mb.toNat : Int) + 20)
        - ((Nat.log 2 cfg.cache_kb.toNat : Int) + 10)
        + (Nat.log 2 cfg.associativity.toNat : Int) ∧
      r.tag_bits + r.index_bits + (Nat.log 2 cfg.block_bytes.toNat : Int)
        = (Nat.log 2 (cfg.phys_mb * 1024 * 1024).toNat : Int) ∧
      4 ≤ r.tag_bits ∧ r.tag_bits ≤ 23 ∧
      ∀ cfg' : Config, Accepted cfg' → cfg'.cache_kb = cfg.cache_kb →
        cfg'.associativity = cfg.associativity → cfg'.phys_mb = cfg.phys_mb →
        ∃ r', compute_results cfg' = .ok r' ∧ r'.tag_bits = r.tag_bits := by
  have formula : ∀ cfg : Config, Accepted cfg → ∃ r, compute_results cfg = .ok r ∧
      r.tag_bits = ((Nat.log 2 cfg.phys_mb.toNat : Int) + 20)
        - ((Nat.log 2 cfg.cache_kb.toNat : Int) + 10)
        + (Nat.log 2 cfg.associativity.toNat : Int) ∧
      r.tag_bits + r.index_bits + (Nat.log 2 cfg.block_bytes.toNat : Int)
        = (Nat.log 2 (cfg.phys_mb * 1024 * 1024).toNat : Int) ∧
      4 ≤ r.tag_bits ∧ r.tag_bits ≤ 23 := by
    intro cfg h
    obtain ⟨a, b, c, p, hv, hn⟩ := accepted_valid h
    obtain ⟨r, hr, -, -, h3, h4, -⟩ := compute_results_of_valid hv hn
    obtain ⟨⟨ha1, ha2⟩, ⟨hb1, hb2⟩, hc1, ⟨hp1, hp2⟩, ha, hb, hc, hp, -, -, -, -⟩ := hv
    have e1 : (((2 ^ p : Nat) : Int) * 1024 * 1024).toNat = 2 ^ (p + 20) := by
      have : ((2 ^ p : Nat) : Int) * 1024 * 1024 = ((2 ^ (p + 20) : Nat) : Int) := by
        rw [show p + 20 = p + 10 + 10 by omega, ← pow_mul_1024, ← pow_mul_1024]
        push_cast; ring
      rw [this, Int.toNat_natCast]
    refine ⟨r, hr, ?_, ?_, ?_, ?_⟩
    · rw [h4, ha, hc, hp, log_natCast_pow, log_natCast_pow, log_natCast_pow]
      omega
    · rw [h4, h3, hb, hp, e1, log_natCast_pow, Nat.log_pow (by decide)]
      omega
    · rw [h4]; omega
    · rw [h4]; omega
  obtain ⟨r, hr, f1, f2, f3, f4⟩ := formula cfg h
  refine ⟨r, hr, f1, f2, f3, f4, ?_⟩
  intro cfg' h' e1 e2 e3
  obtain ⟨r', hr', g1, -⟩ := formula cfg' h'
  exact ⟨r', hr', by rw [g1, f1, e1, e2, e3]⟩

/-- C17 at the boundary configuration: 9 tag bits, 20 index bits. -/
theorem C17_boundary_witness :
    Accepted boundary ∧
    (∃ r, compute_results boundary = .ok r ∧
      r.tag_bits = ((Nat.log 2 boundary.phys_mb.toNat : Int) + 20)
        - ((Nat.log 2 boundary.cache_kb.toNat : Int) + 10)
        + (Nat.log 2 boundary.associativity.toNat : Int) ∧
      r.tag_bits + r.index_bits + (Nat.log 2 boundary.block_bytes.toNat : Int)
        = (Nat.log 2 (boundary.phys_mb * 1024 * 1024).toNat : Int) ∧
      4 ≤ r.tag_bits ∧ r.tag_bits ≤ 23 ∧
      ∀ cfg' : Config, Accepted cfg' → cfg'.cache_kb = boundary.cache_kb →
        cfg'.associativity = boundary.associativity → cfg'.phys_mb = boundary.phys_mb →
        ∃ r', compute_results cfg' = .ok r' ∧ r'.tag_bits = r.tag_bits) ∧
    (compute_results boundary).map (fun r => (r.tag_bits, r.index_bits)) = .ok (9, 20) :=
  ⟨⟨boundary_argv, by decide⟩,
    C17_tag_bits_formula boundary ⟨boundary_argv, by decide⟩, by decide⟩

/-- C18: for every accepted configuration the intermediate values of
`compute_results`, computed in exact integers, stay below `2 ^ 64`
(`phys_bytes` at most `2 ^ 32`), the three `int` results fit 32 bits, and every
integer field equals its exact-arithmetic formula. -/
theorem C18_modular_arithmetic_is_exact (cfg : Config) (h : Accepted cfg) :
    ∃ r, compute_results cfg = .ok r ∧
      ((cache_bytes cfg : Int) = cfg.cache_kb * 1024 ∧ cfg.cache_kb * 1024 < 2 ^ 64) ∧
      ((phys_bytes cfg : Int) = cfg.phys_mb * 1024 * 1024 ∧
        cfg.phys_mb * 1024 * 1024 ≤ 2 ^ 32) ∧
      (r.rows_total : Int) * cfg.associativity * (1 + r.tag_bits) + 7 < 2 ^ 64 ∧
      cfg.cache_kb * 1024 + (r.overhead_bytes : Int) < 2 ^ 64 ∧
      512 * 1024 * cfg.num_traces * r.pte_bits + 7 < 2 ^ 64 ∧
      (INT32_MIN ≤ r.tag_bits ∧ r.tag_bits ≤ INT32_MAX) ∧
      (INT32_MIN ≤ r.index_bits ∧ r.index_bits ≤ INT32_MAX) ∧
      (INT32_MIN ≤ r.pte_bits ∧ r.pte_bits ≤ INT32_MAX) ∧
      (r.blocks_total : Int) = cfg.cache_kb * 1024 / cfg.block_bytes ∧
      (r.rows_total : Int) = cfg.cache_kb * 1024 / cfg.block_bytes / cfg.associativity ∧
      (r.overhead_bytes : Int)
        = ((r.rows_total : Int) * cfg.associativity * (1 + r.tag_bits) + 7) / 8 ∧
      (r.impl_mem_bytes : Int) = cfg.cache_kb * 1024 + (r.overhead_bytes : Int) ∧
      (r.phys_pages : Int) = cfg.phys_mb * 1024 * 1024 / 4096 ∧
      (r.pgt_total_bytes : Int) = (512 * 1024 * cfg.num_traces * r.pte_bits + 7) / 8 := by
  obtain ⟨a, b, c, p, hv, hn⟩ := accepted_valid h
  obtain ⟨r, hr, h1, h2, h3, h4, h5, h6, h7, h8, h9⟩ := compute_results_of_valid hv hn
  obtain ⟨w1, w2, w3, w4, w5, w6, w7, w8⟩ := valid_no_wrap hv hn h2 h3 h4 h5 h8
  obtain ⟨x1, x2, x3, x4, x5, x6⟩ := valid_exact_fields hv hn h1 h2 h4 h5 h6 h7 h8 h9
  exact ⟨r, hr, w1, w2, w3, w4, w5, w6, w7, w8, x1, x2, x3, x4, x5, x6⟩

/-- C18 at the boundary configuration. -/
theorem C18_boundary_witness :
    Accepted boundary ∧
    ∃ r, compute_results boundary = .ok r ∧
      ((cache_bytes boundary : Int) = boundary.cache_kb * 1024 ∧
        boundary.cache_kb * 1024 < 2 ^ 64) ∧
      ((phys_bytes boundary : Int) = boundary.phys_mb * 1024 * 1024 ∧
        boundary.phys_mb * 1024 * 1024 ≤ 2 ^ 32) ∧
      (r.rows_total : Int) * boundary.associativity * (1 + r.tag_bits) + 7 < 2 ^ 64 ∧
      boundary.cache_kb * 1024 + (r.overhead_bytes : Int) < 2 ^ 64 ∧
      512 * 1024 * boundary.num_traces * r.pte_bits + 7 < 2 ^ 64 ∧
      (INT32_MIN ≤ r.tag_bits ∧ r.tag_bits ≤ INT32_MAX) ∧
      (INT32_MIN ≤ r.index_bits ∧ r.index_bits ≤ INT32_MAX) ∧
      (INT32_MIN ≤ r.pte_bits ∧ r.pte_bits ≤ INT32_MAX) ∧
      (r.blocks_total : Int) = boundary.cache_kb * 1024 / boundary.block_bytes ∧
      (r.rows_total : Int)
        = boundary.cache_kb * 1024 / boundary.block_bytes / boundary.associativity ∧
      (r.overhead_bytes : Int)
        = ((r.rows_total : Int) * boundary.associativity * (1 + r.tag_bits) + 7) / 8 ∧
      (r.impl_mem_bytes : Int) = boundary.cache_kb * 1024 + (r.overhead_bytes : Int) ∧
      (r.phys_pages : Int) = boundary.phys_mb * 1024 * 1024 / 4096 ∧
      (r.pgt_total_bytes : Int)
        = (512 * 1024 * boundary.num_traces * r.pte_bits + 7) / 8 :=
  ⟨⟨boundary_argv, by decide⟩,
    C18_modular_arithmetic_is_exact boundary ⟨boundary_argv, by decide⟩⟩

/-- C19: for every 64-bit unsigned `x`, `is_power_of_two_u64 x` is non-zero
exactly when `x = 2 ^ k` for some `k ≤ 63`; it is zero for `x = 0`. -/
theorem C19_is_power_of_two_u64_characterised (x : Nat) (hx : x < 2 ^ 64) :
    (is_power_of_two_u64 x = true ↔ ∃ k, k ≤ 63 ∧ x = 2 ^ k) ∧
    is_power_of_two_u64 0 = false := by
  refine ⟨?_, by decide⟩
  rw [is_power_of_two_u64_iff hx]
  constructor
  · rintro ⟨k, rfl⟩
    have hk : k < 64 := (Nat.pow_lt_pow_iff_right (by decide)).1 hx
    exact ⟨k, by omega, rfl⟩
  · rintro ⟨k, -, hk⟩
    exact ⟨k, hk⟩

/-- C19 at 4096, with the values at 4097, `2 ^ 63` and `2 ^ 64 - 1`. -/
theorem C19_witness_4096 :
    (4096 < 2 ^ 64) ∧
    ((is_power_of_two_u64 4096 = true ↔ ∃ k, k ≤ 63 ∧ 4096 = 2 ^ k) ∧
      is_power_of_two_u64 0 = false) ∧
    is_power_of_two_u64 4096 = true ∧ is_power_of_two_u64 4097 = false ∧
    is_power_of_two_u64 (2 ^ 63) = true ∧ is_power_of_two_u64 (2 ^ 64 - 1) = false :=
  ⟨by decide, C19_is_power_of_two_u64_characterised 4096 (by decide),
    by decide, by decide, by decide, by decide⟩

/-- C20: on every 64-bit unsigned input `ilog2_u64` returns within its 64
loop tests; for `x ≥ 1` the result is the unique `n` with
`2 ^ n ≤ x < 2 ^ (n + 1)`, so it is `k` on `2 ^ k` for every `k ≤ 63`. -/
theorem C20_ilog2_u64_is_floor_log2 (x : Nat) (hx : x < 2 ^ 64) :
    ∃ n : Nat, ilog2_u64 x = some (n : Int) ∧
      (1 ≤ x → 2 ^ n ≤ x ∧ x < 2 ^ (n + 1) ∧
        ∀ n' : Nat, 2 ^ n' ≤ x → x < 2 ^ (n' + 1) → n' = n) ∧
      (∀ k : Nat, k ≤ 63 → x = 2 ^ k → n = k) := by
  refine ⟨Nat.log2 x, ilog2_u64_eq hx, ?_, ?_⟩
  · intro h1
    have hne : x ≠ 0 := by omega
    have hlo : 2 ^ Nat.log2 x ≤ x := Nat.log2_self_le hne
    have hhi : x < 2 ^ (Nat.log2 x + 1) := Nat.lt_log2_self
    refine ⟨hlo, hhi, ?_⟩
    intro n' h2 h3
    have a1 : 2 ^ n' < 2 ^ (Nat.log2 x + 1) := lt_of_le_of_lt h2 hhi
    have a2 : 2 ^ Nat.log2 x < 2 ^ (n' + 1) := lt_of_le_of_lt hlo h3
    have b1 := (Nat.pow_lt_pow_iff_right (by decide)).1 a1
    have b2 := (Nat.pow_lt_pow_iff_right (by decide)).1 a2
    omega
  · intro k _ hk
    rw [hk, Nat.log2_two_pow]

/-- C20 at 1000, with the values at 0, `2 ^ 63` and `2 ^ 64 - 1`. -/
theorem C20_witness_1000 :
    (1000 < 2 ^ 64) ∧
    (∃ n : Nat, ilog2_u64 1000 = some (n : Int) ∧
      (1 ≤ 1000 → 2 ^ n ≤ 1000 ∧ 1000 < 2 ^ (n + 1) ∧
        ∀ n' : Nat, 2 ^ n' ≤ 1000 → 1000 < 2 ^ (n' + 1) → n' = n) ∧
      (∀ k : Nat, k ≤ 63 → 1000 = 2 ^ k → n = k)) ∧
    ilog2_u64 1000 = some 9 ∧ ilog2_u64 0 = some 0 ∧ ilog2_u64 (2 ^ 63) = some 63 ∧
    ilog2_u64 (2 ^ 64 - 1) = some 63 :=
  ⟨by decide, C20_ilog2_u64_is_floor_log2 1000 (by decide),
    by decide, by decide, by decide, by decide⟩

end CacheSim
